import Mathlib

/-!
# polaris-sidecar: DNS serving path, rate limiting, metrics and bootstrap

A shallow embedding of the DNS serving path of the sidecar
(`pkg/utils/util.go`, `internal/resolver/common/dns.go`,
`internal/resolver/dnsagent/plugin.go`, `internal/resolver/recursor/proxy.go`,
`internal/resolver/recursor/base.go`, `internal/resolver/handler.go`), of the
rate-limit translator (`internal/mesh/rls/server.go`), of the metrics reporter
(`internal/mesh/metrics/server.go`) and of the bootstrap code
(`pkg/utils/base.go`, `internal/bootstrap/agent.go`,
`internal/bootstrap/config/config.go`), together with the properties proved
about them.

Conventions of the embedding.

* A Go `string` is a `List Char` (`Str`).  Every string operation the embedded
  code performs (`HasSuffix`, `LastIndex` of `"."`, slicing at the positions
  those return, concatenation) acts on whole characters of a valid UTF-8
  string, so the character view and Go's byte view agree.
* A Go `[]byte` / `net.IP` is a `List Nat` whose elements are below 256; the
  `nil` slice is the empty list.
* Go machine integers are `Nat` / `Int`; a conversion `uint16(x)` is written
  as a remainder modulo `65536`.
* A Go pointer that may be `nil` is an `Option`.
* A call that may panic returns an `Outcome`, whose `panic` constructor is the
  run-time panic; `dnsHandler.ServeDNS` is the only place that recovers.
* Logging is omitted.
-/

set_option autoImplicit false

namespace PolarisSidecar

/-- A Go string, as its list of characters. -/
abbrev Str := List Char

/-! ## `pkg/constants/common.go` -/

/-- `constants.DotSymbol`. -/
def DotSymbol : Str := ".".toList

/-- `constants.TcpProtocol`. -/
def TcpProtocol : Str := "tcp".toList

/-- `constants.UdpProtocol`. -/
def UdpProtocol : Str := "udp".toList

/-- `constants.SysNamespace`. -/
def SysNamespace : Str := "polaris".toList

/-! ## Go standard library: `strings` -/

/-- `strings.HasSuffix`. -/
def HasSuffix (s suffix : Str) : Bool := suffix.isSuffixOf s

/-- `strings.LastIndex(s, sep)` for a one-character separator: the index of the
last occurrence of `c` in `s`, or `-1` when there is none. -/
def LastIndex : Str → Char → Int
  | [], _ => -1
  | x :: xs, c =>
    let r := LastIndex xs c
    if 0 ≤ r then r + 1 else if x = c then 0 else -1

/-- `strings.ToLower`: maps every character through `unicode.ToLower`.  The
Unicode case table is not part of the repository and is the parameter
`lower`. -/
def ToLower (lower : Char → Char) (s : Str) : Str := s.map lower

/-- The restriction of `unicode.ToLower` to ASCII, used at concrete inputs. -/
def asciiLower (c : Char) : Char := c.toLower

/-! ## `pkg/utils/util.go` -/

/-- `model.ServiceKey` of polaris-go. -/
structure ServiceKey where
  Namespace : Str
  Service : Str
  deriving DecidableEq, Repr

/-- `AddQuota`: add a trailing dot to the qname if there is none. -/
def AddQuota (qname : Str) : Str :=
  if !HasSuffix qname DotSymbol then qname ++ DotSymbol else qname

/-- `RemoveQuota`: remove one trailing dot from the qname if there is one. -/
def RemoveQuota (qname : Str) : Str :=
  if HasSuffix qname DotSymbol then qname.take (qname.length - 1) else qname

/-- `MatchSuffix`: match the suffix and return the split qname. -/
def MatchSuffix (qname suffix : Str) : Str × Bool :=
  if suffix.length = 0 then (qname, true)
  else
    let qname := AddQuota qname
    let suffix := AddQuota suffix
    if !HasSuffix qname suffix then (qname, false)
    else (qname.take (qname.length - suffix.length), true)

/-- `ParseQname`: parse the qname into a service key.  `ServerNamespace` is
`config.ServerNamespace` of polaris-go, a constant outside the repository. -/
def ParseQname (lower : Char → Char) (ServerNamespace : Str)
    (qname suffix currentNs : Str) : Option ServiceKey :=
  let (qname, matched) := MatchSuffix qname suffix
  if !matched then none
  else
    let qname := RemoveQuota qname
    let sepIndex := LastIndex qname '.'
    if sepIndex < 0 then
      some { Namespace := currentNs, Service := qname }
    else
      let ns := qname.drop (sepIndex + 1).toNat
      let ns := if ToLower lower ns = SysNamespace then ServerNamespace else ns
      some { Namespace := ns, Service := qname.take sepIndex.toNat }

/-! ## Go standard library: `encoding/hex` -/

/-- `hextable` of `encoding/hex`: the lowercase digit of a value below 16. -/
def hextable (n : Nat) : Char := "0123456789abcdef".toList.getD n '0'

/-- `hex.EncodeToString`: two lowercase digits per byte, high nibble first. -/
def EncodeToString (src : List Nat) : Str :=
  src.flatMap fun v => [hextable (v / 16), hextable (v % 16)]

/-- `reverseHexTable` of `encoding/hex`: the value of a hex digit of either
case; `none` stands for the entry `0xff` of a byte that is no hex digit. -/
def fromHexChar (c : Char) : Option Nat :=
  if '0' ≤ c ∧ c ≤ '9' then some (c.toNat - '0'.toNat)
  else if 'a' ≤ c ∧ c ≤ 'f' then some (c.toNat - 'a'.toNat + 10)
  else if 'A' ≤ c ∧ c ≤ 'F' then some (c.toNat - 'A'.toNat + 10)
  else none

/-- `hex.DecodeString`: `none` is a non-nil error (`InvalidByteError` or
`ErrLength`), the only thing the caller inspects on failure. -/
def DecodeString : Str → Option (List Nat)
  | [] => some []
  | [_] => none
  | p :: q :: rest =>
    match fromHexChar p, fromHexChar q with
    | some a, some b => (DecodeString rest).map fun tl => (a * 16 + b) :: tl
    | _, _ => none

/-! ## Go standard library: `net` -/

/-- One decimal field of a dotted-quad address (`net.dtoi` with the checks of
`parseIPv4`): one to three digits, no leading zero, value at most 255. -/
def parseOctet (s : Str) : Option Nat :=
  if s = [] ∨ 3 < s.length ∨ ¬ s.all Char.isDigit then none
  else if 1 < s.length ∧ s.head? = some '0' then none
  else
    let n := s.foldl (fun acc c => acc * 10 + (c.toNat - '0'.toNat)) 0
    if 255 < n then none else some n

/-- `v4InV6Prefix` of package `net`. -/
def v4InV6Prefix : List Nat := [0, 0, 0, 0, 0, 0, 0, 0, 0, 0, 255, 255]

/-- `net.IPv4(a, b, c, d)`: the 16-byte form of an IPv4 address. -/
def IPv4 (a b c d : Nat) : List Nat := v4InV6Prefix ++ [a, b, c, d]

/-- Splits a string at every occurrence of `sep`. -/
def splitAt (sep : Char) : Str → List Str
  | [] => [[]]
  | c :: rest =>
    match splitAt sep rest with
    | [] => [[]]
    | hd :: tl => if c = sep then [] :: hd :: tl else (c :: hd) :: tl

/-- `net.ParseIP`.  A dotted-quad text yields the 16-byte form built by
`net.IPv4`; the nil result is the empty list.  The textual IPv6 syntax is
outside the model and is the parameter `parseIPv6`. -/
def ParseIP (parseIPv6 : Str → List Nat) (s : Str) : List Nat :=
  match s.find? fun c => c = '.' ∨ c = ':' with
  | none => []
  | some c =>
    if c = '.' then
      match (splitAt '.' s).map parseOctet with
      | [some a, some b, some c, some d] => IPv4 a b c d
      | _ => []
    else parseIPv6 s

/-! ## The DNS library `github.com/miekg/dns`

The library is not part of the repository.  The definitions of this section
model the documented behaviour of the functions the repository calls. -/

def TypeA : Nat := 1
def TypeAAAA : Nat := 28
def TypeSRV : Nat := 33
def TypeOPT : Nat := 41
def ClassINET : Nat := 1
def OpcodeQuery : Nat := 0
def RcodeSuccess : Nat := 0
def RcodeServerFailure : Nat := 2
def RcodeNameError : Nat := 3
def RcodeNotImplemented : Nat := 4
def RcodeRefused : Nat := 5
def MinMsgSize : Nat := 512
def MaxMsgSize : Nat := 65535
def EDNS0SUBNET : Nat := 8

/-- The escape character of presentation-format domain names. -/
def Backslash : Char := Char.ofNat 92

/-- `dns.IsFqdn`: the name ends in a dot that is not escaped, that is, a dot
preceded by an even number of backslashes. -/
def IsFqdn (s : Str) : Bool :=
  match s.reverse with
  | [] => false
  | c :: before => c = '.' ∧ (before.takeWhile fun x => x = Backslash).length % 2 = 0

/-- `dns.Fqdn`: the name made fully qualified. -/
def Fqdn (s : Str) : Str := if IsFqdn s then s else s ++ ".".toList

/-- The scan shared by `dns.NextLabel`, `dns.Split` and `dns.SplitDomainName`.
`cur` holds the characters of the label being read and `esc` tells whether an
odd number of backslashes stands right before the next character.  A dot ends
a label when it is not escaped and not the last character of the name; the
last character is left out of the last label when the name is fully
qualified. -/
def splitLabels : Str → Str → Bool → List Str
  | [], cur, _ => [cur]
  | [c], cur, esc => if c = '.' ∧ esc = false then [cur] else [cur ++ [c]]
  | c :: c2 :: rest, cur, esc =>
    if c = '.' ∧ esc = false then cur :: splitLabels (c2 :: rest) [] false
    else splitLabels (c2 :: rest) (cur ++ [c]) (decide (c = Backslash) && !esc)

/-- `dns.SplitDomainName`: the labels of a name; `nil` for the empty name and
for the root name. -/
def SplitDomainName (s : Str) : List Str :=
  if s = [] ∨ s = ".".toList then [] else splitLabels s [] false

/-- `dns.Question`. -/
structure Question where
  Name : Str
  Qtype : Nat
  Qclass : Nat
  deriving DecidableEq, Repr

/-- `dns.RR_Header`. -/
structure RR_Header where
  Name : Str
  Rrtype : Nat
  Class : Nat
  Ttl : Nat
  deriving DecidableEq, Repr

/-- `dns.EDNS0`: an option of an OPT record, either a client subnet
(`dns.EDNS0_SUBNET`) or any other option. -/
inductive EDNS0 where
  | SUBNET (Code Family SourceNetmask SourceScope : Nat) (Address : List Nat)
  | other (Code : Nat) (Data : List Nat)
  deriving DecidableEq, Repr

/-- `dns.RR`: the record types the repository builds or inspects, and any other
record. -/
inductive RR where
  | A (Hdr : RR_Header) (A : List Nat)
  | AAAA (Hdr : RR_Header) (AAAA : List Nat)
  | SRV (Hdr : RR_Header) (Priority Weight Port : Nat) (Target : Str)
  | OPT (Hdr : RR_Header) (Opt : List EDNS0)
  | other (Hdr : RR_Header) (Rdata : List Nat)
  deriving DecidableEq, Repr

/-- `dns.Msg`.  The answer section may hold the nil record that
`resolverDiscovery.markRecord` returns, hence `Option RR` there. -/
structure Msg where
  Id : Nat := 0
  Response : Bool := false
  Opcode : Nat := 0
  Authoritative : Bool := false
  Truncated : Bool := false
  RecursionDesired : Bool := false
  RecursionAvailable : Bool := false
  CheckingDisabled : Bool := false
  Rcode : Nat := 0
  Compress : Bool := false
  Question : List Question := []
  Answer : List (Option RR) := []
  Ns : List RR := []
  Extra : List RR := []
  deriving DecidableEq, Repr

/-- `Msg.SetReply` of the DNS library: turns the receiver into a reply to
`request`.  It copies the id and the opcode, sets the response bit, copies the
RD and CD bits of a query, resets the rcode to `RcodeSuccess` and copies the
first question. -/
def Msg.SetReply (m request : Msg) : Msg :=
  let m := { m with Id := request.Id, Response := true, Opcode := request.Opcode }
  let m :=
    if m.Opcode = OpcodeQuery then
      { m with RecursionDesired := request.RecursionDesired,
               CheckingDisabled := request.CheckingDisabled }
    else m
  let m := { m with Rcode := RcodeSuccess }
  match request.Question with
  | [] => m
  | q :: _ => { m with Question := [q] }

/-- `Msg.IsEdns0` of the DNS library: the last OPT record of the additional
section, if any.  A record whose header type is `TypeOPT` is an `OPT`. -/
def Msg.IsEdns0 (m : Msg) : Option (RR_Header × List EDNS0) :=
  m.Extra.reverse.findSome? fun rr =>
    match rr with
    | .OPT h o => if h.Rrtype = TypeOPT then some (h, o) else none
    | _ => none

/-- What `Msg.Truncate` assigns.  -/
structure Truncation where
  Compress : Bool
  Truncated : Bool
  Answer : List (Option RR)
  Ns : List RR
  Extra : List RR
  deriving DecidableEq, Repr

/-- `Msg.Truncate` of the DNS library assigns the fields `Compress`,
`Truncated`, `Answer`, `Ns` and `Extra` of the receiver and no other.  The
values depend on wire lengths, which are not modelled: they are given by the
parameter `lib`. -/
def Msg.Truncate (lib : Msg → Nat → Truncation) (m : Msg) (size : Nat) : Msg :=
  let t := lib m size
  { m with Compress := t.Compress, Truncated := t.Truncated,
           Answer := t.Answer, Ns := t.Ns, Extra := t.Extra }

/-- A truncation that fits every message: nothing is cut. -/
def noTruncation (m : Msg) (_ : Nat) : Truncation :=
  { Compress := false, Truncated := m.Truncated, Answer := m.Answer, Ns := m.Ns,
    Extra := m.Extra }

/-- The result of a call that may panic: a reply, the nil reply, or a run-time
panic that unwinds to the caller. -/
inductive Outcome where
  | reply (m : Msg)
  | none
  | panic
  deriving DecidableEq, Repr

/-! ## `internal/resolver/common/dns.go` -/

/-- `ednsSize`: a normalized size based on proto. -/
def ednsSize (proto : Str) (size : Nat) : Nat :=
  if proto = TcpProtocol then MaxMsgSize
  else if size < MinMsgSize then MinMsgSize
  else size

/-- `size`: the buffer size advertised in the request's OPT record (its header
class, `OPT.UDPSize`), normalized. -/
def size (proto : Str) (r : Msg) : Nat :=
  let sz := match r.IsEdns0 with
    | some (h, _) => h.Class
    | Option.none => 0
  ednsSize proto sz

/-- `ednsSubnetForRequest`: the first client-subnet option of the request's OPT
record. -/
def ednsSubnetForRequest (req : Msg) : Option EDNS0 :=
  match req.IsEdns0 with
  | Option.none => Option.none
  | some (_, opts) =>
    opts.find? fun o => match o with
      | .SUBNET .. => true
      | _ => false

/-- `setEDNS`: sets the response's EDNS size header and possibly the ECS
option if they were present in the original request. -/
def setEDNS (request response : Msg) (ecsGlobal : Bool) : Msg :=
  match request.IsEdns0 with
  | Option.none => response
  | some (h, _) =>
    let hdr : RR_Header := { Name := ".".toList, Rrtype := TypeOPT, Class := h.Class, Ttl := 0 }
    let opts : List EDNS0 :=
      match ednsSubnetForRequest request with
      | some (.SUBNET _ family sourceNetmask _ address) =>
        let c := response.Rcode
        let scope :=
          if ecsGlobal ∨ c = RcodeNameError ∨ c = RcodeServerFailure ∨
              c = RcodeRefused ∨ c = RcodeNotImplemented then 0
          else sourceNetmask
        [.SUBNET EDNS0SUBNET family sourceNetmask scope address]
      | _ => []
    { response with Extra := response.Extra ++ [.OPT hdr opts] }

/-- `WriteDnsCode`: the message handed to `w.WriteMsg` on failure. -/
def WriteDnsCode (lib : Msg → Nat → Truncation) (protocol : Str) (r : Msg) (code : Nat) : Msg :=
  let msg : Msg := {}
  let msg := msg.SetReply r
  let msg := { msg with RecursionDesired := true }
  let msg := { msg with RecursionAvailable := true }
  let msg := { msg with Rcode := code }
  let msg := msg.Truncate lib (size protocol r)
  if r.IsEdns0.isSome then setEDNS r msg true else msg

/-- `WriteDnsResponse`: the message handed to `w.WriteMsg` on success. -/
def WriteDnsResponse (lib : Msg → Nat → Truncation) (protocol : Str) (r msg : Msg) : Msg :=
  let msg := msg.SetReply r
  let msg := { msg with Authoritative := true }
  let msg := { msg with RecursionAvailable := true }
  let msg := msg.Truncate lib (size protocol r)
  if r.IsEdns0.isSome then setEDNS r msg true else msg

/-! ## `internal/resolver/dnsagent/plugin.go` -/

/-- `model.Instance` of polaris-go, through the getters the plugin calls:
`GetHost`, `GetPort`, `GetPriority` (both `uint32`), `GetWeight` (`int`) and
`GetInstanceKey().ServiceKey`. -/
structure Instance where
  Host : Str
  Port : Nat
  Priority : Nat
  Weight : Int
  ServiceKey : ServiceKey
  deriving DecidableEq, Repr

/-- `polaris.GetOneInstanceRequest`, the fields the plugin fills in;
`SourceService` is the metadata of the source service when it is set. -/
structure GetOneInstanceRequest where
  Namespace : Str
  Service : Str
  SourceService : Option (List (Str × Str))
  deriving DecidableEq, Repr

/-- `resolverDiscovery`.  `consumer` is `ConsumerAPI.GetOneInstance` of the
registry, whose `none` is an error; `RouteLabelsMap` is `config.RouteLabelsMap`;
`lower`, `ServerNamespace` and `parseIPv6` are the parts of the Go library and
of polaris-go that the plugin reaches. -/
structure resolverDiscovery where
  consumer : GetOneInstanceRequest → Option (List Instance)
  suffix : Str
  dnsTtl : Int
  RouteLabelsMap : List (Str × Str)
  ns : Str
  lower : Char → Char
  ServerNamespace : Str
  parseIPv6 : Str → List Nat

/-- The label that marks a self-encoded address. -/
def addrLabel : Str := "_addr".toList

/-- `encodeIPAsFqdn`. -/
def encodeIPAsFqdn (ip : List Nat) (svcKey : ServiceKey) : Str :=
  let respDomain :=
    EncodeToString ip ++ "._addr.".toList ++ svcKey.Service ++ ".".toList ++ svcKey.Namespace
  Fqdn respDomain

/-- `resolverDiscovery.markRecord`; `none` is the nil record. -/
def resolverDiscovery.markRecord (r : resolverDiscovery) (question : Question)
    (address : List Nat) (ins : Option Instance) : Option RR :=
  let qname := question.Name
  let ttl := (r.dnsTtl % 4294967296).toNat
  if question.Qtype = TypeA then
    some (.A { Name := qname, Rrtype := TypeA, Class := ClassINET, Ttl := ttl } address)
  else if question.Qtype = TypeSRV then
    match ins with
    | Option.none => Option.none
    | some ins =>
      some (.SRV { Name := qname, Rrtype := TypeSRV, Class := ClassINET, Ttl := ttl }
        (ins.Priority % 65536) (ins.Weight % 65536).toNat (ins.Port % 65536)
        (encodeIPAsFqdn address ins.ServiceKey))
  else if question.Qtype = TypeAAAA then
    some (.AAAA { Name := qname, Rrtype := TypeAAAA, Class := ClassINET, Ttl := ttl } address)
  else Option.none

/-- What a call of `resolverDiscovery.ServeDNS` does: its outcome and the
requests it sent to the registry, in order. -/
structure ServeResult where
  outcome : Outcome
  lookups : List GetOneInstanceRequest

/-- `resolverDiscovery.lookupFromPolaris`: the instances (`none` for an error)
and the requests sent to the registry. -/
def resolverDiscovery.lookupFromPolaris (r : resolverDiscovery) (qname currentNs : Str) :
    Option (List Instance) × List GetOneInstanceRequest :=
  match ParseQname r.lower r.ServerNamespace qname r.suffix currentNs with
  | Option.none => (some [], [])
  | some svcKey =>
    let request : GetOneInstanceRequest :=
      { Namespace := svcKey.Namespace, Service := svcKey.Service,
        SourceService := if 0 < r.RouteLabelsMap.length then some r.RouteLabelsMap else Option.none }
    (r.consumer request, [request])

/-- The first loop of `resolverDiscovery.ServeDNS`, `for i := range labels`, from
index `i` on, `rest` being `labels[i:]`.  `Option.none`: the loop ended without
finding the label `_addr`.  The read of `labels[i-1]` panics when `i` is 0. -/
def resolverDiscovery.addrLoop (r : resolverDiscovery) (question : Question)
    (labels : List Str) : Nat → List Str → Option Outcome
  | _, [] => Option.none
  | i, l :: rest =>
    if l = addrLabel then
      match (if i = 0 then Option.none else labels[i - 1]?) with
      | Option.none => some .panic
      | some prev =>
        match DecodeString prev with
        | Option.none => some .none
        | some ret =>
          let msg : Msg := {}
          let rr := r.markRecord question ret Option.none
          some (.reply { msg with Answer := msg.Answer ++ [rr] })
    else r.addrLoop question labels (i + 1) rest

/-- `resolverDiscovery.ServeDNS`. -/
def resolverDiscovery.ServeDNS (r : resolverDiscovery) (question : Question) (qname : Str) :
    ServeResult :=
  let labels := SplitDomainName qname
  match r.addrLoop question labels 0 labels with
  | some o => { outcome := o, lookups := [] }
  | Option.none =>
    match r.lookupFromPolaris qname r.ns with
    | (Option.none, calls) => { outcome := .none, lookups := calls }
    | (some instances, calls) =>
      if instances.length = 0 then { outcome := .none, lookups := calls }
      else
        let msg : Msg := {}
        let answers := instances.map fun ins =>
          r.markRecord question (ParseIP r.parseIPv6 ins.Host) (some ins)
        let msg := { msg with Answer := msg.Answer ++ answers }
        { outcome := .reply { msg with Rcode := RcodeSuccess }, lookups := calls }

/-! ## `internal/resolver/recursor/proxy.go` -/

/-- `recursor.Config`. -/
structure Config where
  Ndots : Int
  Search : List Str
  Timeout : Int
  Attempts : Int
  Upstream : List Str
  deriving DecidableEq, Repr

/-- `RotatingUpstream` (the mutex is not modelled: calls are sequential). -/
structure RotatingUpstream where
  servers : List Str
  index : Nat
  deriving DecidableEq, Repr

/-- `Proxy`. -/
structure Proxy where
  config : Config
  rotate : RotatingUpstream
  deriving DecidableEq, Repr

/-- `BuildProxy`. -/
def BuildProxy (r : Option Config) : Option Proxy :=
  r.map fun c => { config := c, rotate := { servers := c.Upstream, index := 0 } }

/-- `Proxy.GetSearch`. -/
def Proxy.GetSearch (p : Proxy) : List Str := p.config.Search

/-- `RotatingUpstream.Next`: the selected server and the rotated state;
`Option.none` is the panic of `r.servers[r.index]` out of range. -/
def RotatingUpstream.Next (r : RotatingUpstream) : Option (Str × RotatingUpstream) :=
  match r.servers[r.index]? with
  | Option.none => Option.none
  | some server => some (server, { r with index := (r.index + 1) % r.servers.length })

/-- `strings.Count(s, ".")`. -/
def countDots (s : Str) : Nat := s.count '.'

/-- `Proxy.expandQuery`. -/
def Proxy.expandQuery (p : Proxy) (name : Str) : List Str :=
  let ndots := p.config.Ndots
  let search := p.config.Search
  if (countDots name : Int) < ndots then search.map fun suffix => AddQuota (name ++ suffix)
  else [name]

/-- What `dns.Client.Exchange` returns, without the round-trip time. -/
structure ExchangeResult where
  resp : Option Msg
  err : Bool
  deriving DecidableEq, Repr

/-- The upstream name servers as seen through `dns.Client.Exchange`: the
result of the `n`-th exchange of a request, given the network, the message
sent and the server addressed. -/
abbrev Exchanger := Nat → Str → Msg → Str → ExchangeResult

/-- One exchange of `Proxy.HandleDNS`: the name asked and the server asked. -/
structure ExchangeCall where
  domain : Str
  upstream : Str
  deriving DecidableEq, Repr

/-- What a call of `Proxy.HandleDNS` does: its outcome, the state of the
rotation afterwards and the exchanges made, in order. -/
structure RecurseResult where
  outcome : Outcome
  rotate : RotatingUpstream
  exchanges : List ExchangeCall
  deriving DecidableEq, Repr

/-- The inner loop of `Proxy.HandleDNS`, `for i := 0; i < p.config.Attempts; i++`,
with `k` iterations left.  `Option.none` as outcome: every attempt was used up
and the outer loop goes on. -/
def attemptLoop (exchange : Exchanger) (network : Str) (req : Msg) (domain : Str) :
    Nat → RotatingUpstream → List ExchangeCall →
      Option Outcome × RotatingUpstream × List ExchangeCall
  | 0, rotate, done => (Option.none, rotate, done)
  | k + 1, rotate, done =>
    match rotate.Next with
    | Option.none => (some .panic, rotate, done)
    | some (upstream, rotate) =>
      let res := exchange done.length network req upstream
      let done := done ++ [{ domain := domain, upstream := upstream }]
      match res.resp with
      | some resp =>
        if ¬ (resp.Rcode = RcodeSuccess ∨ resp.Rcode = RcodeNameError) then
          attemptLoop exchange network req domain k rotate done
        else if res.err = false ∨ resp.Truncated = true then
          (some (.reply resp), rotate, done)
        else attemptLoop exchange network req domain k rotate done
      | Option.none =>
        if res.err = false then (some .none, rotate, done)
        else attemptLoop exchange network req domain k rotate done

/-- The outer loop of `Proxy.HandleDNS`, `for _, domain := range domains`. -/
def domainLoop (exchange : Exchanger) (network : Str) (r : Msg) (attempts : Nat) :
    List Str → RotatingUpstream → List ExchangeCall → RecurseResult
  | [], rotate, done => { outcome := .none, rotate := rotate, exchanges := done }
  | domain :: domains, rotate, done =>
    let req : Msg :=
      match r.Question with
      | [] => r
      | q :: qs => { r with Question := { q with Name := domain } :: qs }
    match attemptLoop exchange network req domain attempts rotate done with
    | (some o, rotate, done) => { outcome := o, rotate := rotate, exchanges := done }
    | (Option.none, rotate, done) => domainLoop exchange network r attempts domains rotate done

/-- `Proxy.HandleDNS` on a non-nil proxy.  `clientIsTCP` tells whether
`w.RemoteAddr()` is a `*net.TCPAddr`. -/
def Proxy.HandleDNS (p : Proxy) (exchange : Exchanger) (clientIsTCP : Bool) (r : Msg) :
    RecurseResult :=
  match r.Question with
  | [] => { outcome := .panic, rotate := p.rotate, exchanges := [] }
  | q :: _ =>
    let network := if clientIsTCP then TcpProtocol else UdpProtocol
    let domains := p.expandQuery q.Name
    domainLoop exchange network r p.config.Attempts.toNat domains p.rotate []

/-! ## `internal/resolver/handler.go` -/

/-- `common.NamingResolver`, the interface of a resolver plugin, through the one
method the handler calls. -/
structure NamingResolver where
  ServeDNS : Question → Str → Outcome

/-- `dnsHandler`.  `lib` is the truncation of the DNS library, `exchange` the
upstream name servers and `clientIsTCP` the kind of `w.RemoteAddr()`. -/
structure dnsHandler where
  protocol : Str
  resolvers : List NamingResolver
  recurseProxy : Option Proxy
  lib : Msg → Nat → Truncation
  exchange : Exchanger
  clientIsTCP : Bool

/-- The search loop of `dnsHandler.Preprocess`. -/
def preprocessLoop (qname : Str) : List Str → Str
  | [] => qname
  | searchName :: rest =>
    let searchName :=
      if !HasSuffix searchName DotSymbol then searchName ++ DotSymbol else searchName
    if HasSuffix qname searchName then
      let processed := qname.take (qname.length - searchName.length)
      if processed = [] then qname else processed
    else preprocessLoop qname rest

/-- `dnsHandler.Preprocess`: removes the search suffix from the query name if
it is present. -/
def dnsHandler.Preprocess (d : dnsHandler) (qname : Str) : Str :=
  match d.recurseProxy with
  | Option.none => qname
  | some p => if p.GetSearch.length = 0 then qname else preprocessLoop qname p.GetSearch

/-- `canDoResolve`. -/
def canDoResolve (qType : Nat) : Bool :=
  if qType = TypeA then true
  else if qType = TypeAAAA then true
  else if qType = TypeSRV then true
  else false

/-- What `dnsHandler.ServeDNS` does that can be observed: a call of the
`i`-th resolver, the call of `recurseProxy.HandleDNS`, a call of `w.WriteMsg`. -/
inductive Event where
  | resolver (i : Nat)
  | recursor
  | write (m : Msg)
  deriving DecidableEq, Repr

/-- The resolver loop of `dnsHandler.ServeDNS`, `for _, handler := range
d.resolvers`, from the `i`-th resolver on: the calls made and how the loop
ended (`Outcome.none`: every resolver returned nil). -/
def resolverLoop (question : Question) (qname : Str) :
    Nat → List NamingResolver → List Event × Outcome
  | _, [] => ([], .none)
  | i, handler :: rest =>
    match handler.ServeDNS question qname with
    | .reply resp => ([.resolver i], .reply resp)
    | .panic => ([.resolver i], .panic)
    | .none =>
      let (evs, o) := resolverLoop question qname (i + 1) rest
      (.resolver i :: evs, o)

/-- What a call of `dnsHandler.ServeDNS` does: the observable events, in order,
whether the deferred `recover` caught a panic, and the state of the upstream
rotation afterwards. -/
structure HandlerResult where
  events : List Event
  recovered : Bool
  rotate : Option RotatingUpstream

/-- The call `d.recurseProxy.HandleDNS(...)` of the handler; a nil proxy
returns nil. -/
def dnsHandler.recurse (d : dnsHandler) (req : Msg) : Outcome × Option RotatingUpstream :=
  match d.recurseProxy with
  | Option.none => (.none, Option.none)
  | some p =>
    let res := p.HandleDNS d.exchange d.clientIsTCP req
    (res.outcome, some res.rotate)

/-- `dnsHandler.ServeDNS`.  A panic of a resolver or of the recursor unwinds to
the deferred `recover`, which logs it and returns. -/
def dnsHandler.ServeDNS (d : dnsHandler) (req : Msg) : HandlerResult :=
  let rotate0 := d.recurseProxy.map fun p => p.rotate
  match req.Question with
  | [] =>
    { events := [.write (WriteDnsCode d.lib d.protocol req RcodeRefused)],
      recovered := false, rotate := rotate0 }
  | question :: _ =>
    let chain :=
      if canDoResolve question.Qtype then
        resolverLoop question (d.Preprocess question.Name) 0 d.resolvers
      else ([], Outcome.none)
    match chain.2 with
    | .reply resp =>
      { events := chain.1 ++ [.write (WriteDnsResponse d.lib d.protocol req resp)],
        recovered := false, rotate := rotate0 }
    | .panic => { events := chain.1, recovered := true, rotate := rotate0 }
    | .none =>
      match d.recurse req with
      | (.reply resp, rotate) =>
        { events := chain.1 ++ [.recursor, .write (WriteDnsResponse d.lib d.protocol req resp)],
          recovered := false, rotate := rotate }
      | (.panic, rotate) => { events := chain.1 ++ [.recursor], recovered := true, rotate := rotate }
      | (.none, rotate) =>
        { events :=
            chain.1 ++ [.recursor, .write (WriteDnsCode d.lib d.protocol req RcodeServerFailure)],
          recovered := false, rotate := rotate }

/-- The messages handed to `w.WriteMsg`, in order. -/
def written : List Event → List Msg
  | [] => []
  | .write m :: rest => m :: written rest
  | _ :: rest => written rest

/-- The resolvers called, by index, in order. -/
def consulted : List Event → List Nat
  | [] => []
  | .resolver i :: rest => i :: consulted rest
  | _ :: rest => consulted rest

/-- Whether `recurseProxy.HandleDNS` was called. -/
def recursed (evs : List Event) : Bool := evs.contains .recursor

/-- The resolver plugin `resolverDiscovery` as a `common.NamingResolver`. -/
def resolverDiscovery.toResolver (r : resolverDiscovery) : NamingResolver :=
  { ServeDNS := fun question qname => (r.ServeDNS question qname).outcome }

/-! ## `internal/resolver/recursor/base.go` -/

/-- `localIp`. -/
def localIp : Str := "127.0.0.1".toList

/-- `dns.ClientConfig` of the DNS library, the contents of `/etc/resolv.conf`. -/
structure ClientConfig where
  Servers : List Str
  Search : List Str
  Port : Str
  Ndots : Int
  Timeout : Int
  Attempts : Int
  deriving DecidableEq, Repr

/-- `getBigger`. -/
def getBigger (a b : Int) : Int := if a > b then a else b

/-- `needSkip`. -/
def needSkip (bindLocalhost : Bool) (nameServer : Str) : Bool :=
  if nameServer = localIp ∧ bindLocalhost = true then true else false

/-- `Config.mergeUpstream`, on the pair of `r.Upstream` and the keys of
`nameServerMap` (a `map[string]bool` that only ever holds `true`). -/
def mergeUpstream (bindLocalhost : Bool) : List Str → List Str × List Str → List Str × List Str
  | [], st => st
  | nameServer :: rest, (upstream, nameServerMap) =>
    if ¬ nameServer ∈ nameServerMap ∧ needSkip bindLocalhost nameServer = false then
      mergeUpstream bindLocalhost rest
        (upstream ++ [nameServer ++ ":53".toList], nameServer :: nameServerMap)
    else mergeUpstream bindLocalhost rest (upstream, nameServerMap)

/-- `Config.fillByResolvConfig`. -/
def Config.fillByResolvConfig (r : Config) (dnsConfig : ClientConfig) : Config :=
  let r := { r with Ndots := 1 }
  let r := if dnsConfig.Ndots > 0 then { r with Ndots := dnsConfig.Ndots } else r
  let r := { r with Search := dnsConfig.Search }
  { r with Attempts := getBigger dnsConfig.Attempts r.Upstream.length }

/-- `InitRecurseConfig`, from the point where `/etc/resolv.conf` was read into
`dnsConfig`: the merge of the upstreams and the fill of the other fields. -/
def InitRecurseConfig (bindLocalhost : Bool) (timeout : Int) (nameServers : List Str)
    (dnsConfig : ClientConfig) : Config :=
  let config : Config :=
    { Ndots := 0, Search := [], Timeout := getBigger timeout dnsConfig.Timeout, Attempts := 0,
      Upstream := [] }
  let st := mergeUpstream bindLocalhost nameServers (config.Upstream, [])
  let st := mergeUpstream bindLocalhost dnsConfig.Servers st
  let config := { config with Upstream := st.1 }
  config.fillByResolvConfig dnsConfig

/-! ## `internal/mesh/rls/server.go` -/

/-- `v3.RateLimitDescriptor_Entry` of the Envoy API, through `GetKey` and
`GetValue` (a nil entry reads as two empty strings). -/
structure RateLimitDescriptor_Entry where
  Key : Str
  Value : Str
  deriving DecidableEq, Repr

/-- `v3.RateLimitDescriptor` of the Envoy API. -/
structure RateLimitDescriptor where
  Entries : List RateLimitDescriptor_Entry
  deriving DecidableEq, Repr

/-- `pb.RateLimitRequest` of the Envoy API; a descriptor may be nil. -/
structure RateLimitRequest where
  Domain : Str
  Descriptors : List (Option RateLimitDescriptor)
  HitsAddend : Nat
  deriving DecidableEq, Repr

/-- `model.Argument` of polaris-go as `model.BuildArgumentFromLabel` builds it
from a label key and value.  How the library classifies the key is not
modelled: the argument is identified by the label it was built from. -/
structure Argument where
  labelKey : Str
  labelValue : Str
  deriving DecidableEq, Repr

/-- `model.BuildArgumentFromLabel` of polaris-go. -/
def BuildArgumentFromLabel (labelKey labelValue : Str) : Argument :=
  { labelKey := labelKey, labelValue := labelValue }

/-- `polarisgo.QuotaRequest`, the fields its setters assign; `NewQuotaRequest`
is the value with every field empty. -/
structure QuotaRequest where
  Namespace : Str := []
  Service : Str := []
  Method : Str := []
  Arguments : List Argument := []
  Token : Nat := 0
  deriving DecidableEq, Repr

/-- `model.QuotaResponse` of polaris-go, the fields read by the server. -/
structure QuotaResponse where
  Code : Int
  Info : Str
  deriving DecidableEq, Repr

/-- `model.QuotaResultLimited` of polaris-go. -/
def QuotaResultLimited : Int := -1

/-- What `LimitAPI.GetQuota` returns: an error, a nil future without error, or a
future whose `Get` yields the response. -/
inductive GetQuotaResult where
  | error
  | nilFuture
  | future (resp : QuotaResponse)
  deriving DecidableEq, Repr

/-- `pb.RateLimitResponse_Code` of the Envoy API. -/
inductive RateLimitResponse_Code where
  | UNKNOWN
  | OK
  | OVER_LIMIT
  deriving DecidableEq, Repr

/-- `pb.RateLimitResponse_DescriptorStatus` of the Envoy API. -/
structure RateLimitResponse_DescriptorStatus where
  Code : RateLimitResponse_Code
  deriving DecidableEq, Repr

/-- `pb.RateLimitResponse` of the Envoy API; `RawBody` holds the bytes of a
string, kept as that string. -/
structure RateLimitResponse where
  OverallCode : RateLimitResponse_Code
  Statuses : List RateLimitResponse_DescriptorStatus
  RawBody : Str
  deriving DecidableEq, Repr

/-- `RateLimitServer`, the fields the request path reads. -/
structure RateLimitServer where
  ns : Str
  limiter : QuotaRequest → GetQuotaResult

/-- The inner loop of `buildQuotaRequest`, over the entries of one descriptor. -/
def entryLoop (req : QuotaRequest) : List RateLimitDescriptor_Entry → QuotaRequest
  | [] => req
  | entry :: rest =>
    if entry.Key = ":path".toList then entryLoop { req with Method := entry.Value } rest
    else
      entryLoop
        { req with Arguments := req.Arguments ++ [BuildArgumentFromLabel entry.Key entry.Value] }
        rest

/-- The outer loop of `buildQuotaRequest`, over the descriptors. -/
def descriptorLoop (req : QuotaRequest) : List (Option RateLimitDescriptor) → QuotaRequest
  | [] => req
  | Option.none :: rest => descriptorLoop req rest
  | some descriptor :: rest => descriptorLoop (entryLoop req descriptor.Entries) rest

/-- `strings.TrimSuffix`. -/
def TrimSuffix (s suffix : Str) : Str :=
  if HasSuffix s suffix then s.take (s.length - suffix.length) else s

/-- `RateLimitServer.buildQuotaRequest` (its error is always nil). -/
def RateLimitServer.buildQuotaRequest (svr : RateLimitServer) (domain : Str) (acquireQuota : Nat)
    (descriptors : List (Option RateLimitDescriptor)) : QuotaRequest :=
  let req : QuotaRequest := {}
  if domain = [] ∨ svr.ns = [] then req
  else
    let req := descriptorLoop req descriptors
    let domain :=
      if HasSuffix domain (".".toList ++ svr.ns) then TrimSuffix domain (".".toList ++ svr.ns)
      else domain
    let req := { req with Namespace := svr.ns }
    let req := { req with Service := domain }
    { req with Token := acquireQuota }

/-- What a call of `RateLimitServer.ShouldRateLimit` does: the response (nil
when `none`), whether the error is non-nil, and the quota requests handed to
the limiter. -/
structure ShouldRateLimitResult where
  resp : Option RateLimitResponse
  err : Bool
  quotaReqs : List QuotaRequest
  deriving DecidableEq, Repr

/-- `RateLimitServer.ShouldRateLimit`. -/
def RateLimitServer.ShouldRateLimit (svr : RateLimitServer) (req : RateLimitRequest) :
    ShouldRateLimitResult :=
  let acquireQuota := req.HitsAddend
  let acquireQuota := if acquireQuota = 0 then 1 else acquireQuota
  let quotaReq := svr.buildQuotaRequest req.Domain acquireQuota req.Descriptors
  match svr.limiter quotaReq with
  | .error => { resp := Option.none, err := true, quotaReqs := [quotaReq] }
  | .nilFuture => { resp := Option.none, err := false, quotaReqs := [quotaReq] }
  | .future resp =>
    let overallCode :=
      if resp.Code = QuotaResultLimited then RateLimitResponse_Code.OVER_LIMIT
      else RateLimitResponse_Code.OK
    let descriptorStatus : List RateLimitResponse_DescriptorStatus :=
      req.Descriptors.map fun _ => { Code := overallCode }
    let rlsRsp : RateLimitResponse :=
      { OverallCode := overallCode, Statuses := descriptorStatus, RawBody := resp.Info }
    { resp := some rlsRsp, err := false, quotaReqs := [quotaReq] }

/-! ## `internal/mesh/metrics/server.go`

Times are nanoseconds as integers.  `time.Now()` is read once per tick: every
reading taken while one tick is handled is the tick's time `now`.  A `float64`
is its bit pattern, a natural number; the zero value is `0`. -/

/-- A `float64`, as its IEEE 754 bit pattern. -/
abbrev Float64 := Nat

/-- Modelled from the spec: the declaration of `InstanceMetricKey` is not under
`src/`; the spec gives it as `(clusterName, host, port)`. -/
structure InstanceMetricKey where
  ClusterName : Str
  Host : Str
  Port : Nat
  deriving DecidableEq, Repr

/-- Modelled from the spec: the declaration of `InstanceMetricValue` is not
under `src/`; the spec gives it as the cumulative `rq_total`, `rq_success`,
`rq_error` (unsigned 64-bit) and `lastActiveTime`. -/
structure InstanceMetricValue where
  RqTotal : Nat := 0
  RqSuccess : Nat := 0
  RqError : Nat := 0
  LastActiveTime : Int := 0
  deriving DecidableEq, Repr

/-- `adminv3.SimpleMetric` of the Envoy admin API, through `GetName` and
`GetValue`. -/
structure SimpleMetric where
  Name : Str
  Value : Nat
  deriving DecidableEq, Repr

/-- `core.SocketAddress` of the Envoy API, through `GetAddress` and
`GetPortValue`. -/
structure SocketAddress where
  Address : Str
  PortValue : Nat
  deriving DecidableEq, Repr

/-- `core.Address` of the Envoy API; `GetSocketAddress` is nil for an address of
another kind. -/
structure Address where
  SocketAddress : Option SocketAddress
  deriving DecidableEq, Repr

/-- `adminv3.HostStatus` of the Envoy admin API. -/
structure HostStatus where
  Address : Option Address
  Stats : List SimpleMetric
  deriving DecidableEq, Repr

/-- `adminv3.ClusterStatus` of the Envoy admin API. -/
structure ClusterStatus where
  Name : Str
  HostStatuses : List HostStatus
  deriving DecidableEq, Repr

/-- `metrics.Server`, the fields the reporter reads. -/
structure Server where
  ns : Str
  ClusterMetricsURL : Str
  deriving DecidableEq, Repr

/-- The snapshot map `map[InstanceMetricKey]*InstanceMetricValue`. -/
abbrev Values := InstanceMetricKey → Option InstanceMetricValue

/-- One call of `Server.reportMetrics`. -/
structure ReportMetricsCall where
  metricKey : InstanceMetricKey
  subMetricValue : InstanceMetricValue
  delay : Float64
  deriving DecidableEq, Repr

/-- The subtraction of two `uint64`, which wraps around. -/
def subUint64 (a b : Nat) : Nat := (a + 18446744073709551616 - b) % 18446744073709551616

/-- The loop over `hostStatus.GetStats()` in `Server.reportMetricByCluster`. -/
def statLoop (metricValue : InstanceMetricValue) : List SimpleMetric → InstanceMetricValue
  | [] => metricValue
  | stat :: rest =>
    if stat.Name = "rq_total".toList then statLoop { metricValue with RqTotal := stat.Value } rest
    else if stat.Name = "rq_success".toList then
      statLoop { metricValue with RqSuccess := stat.Value } rest
    else if stat.Name = "rq_error".toList then
      statLoop { metricValue with RqError := stat.Value } rest
    else statLoop metricValue rest

/-- The delta of `Server.reportMetricByCluster` against an existing snapshot. -/
def subtractSnapshot (now : Int) (metricValue latestValue : InstanceMetricValue) :
    InstanceMetricValue :=
  let subMetricValue : InstanceMetricValue := {}
  let subMetricValue := { subMetricValue with LastActiveTime := now }
  let subMetricValue :=
    if metricValue.RqTotal > latestValue.RqTotal then
      { subMetricValue with RqTotal := subUint64 metricValue.RqTotal latestValue.RqTotal }
    else subMetricValue
  let subMetricValue :=
    if metricValue.RqSuccess > latestValue.RqSuccess then
      { subMetricValue with RqSuccess := subUint64 metricValue.RqSuccess latestValue.RqSuccess }
    else subMetricValue
  if metricValue.RqError > latestValue.RqError then
    { subMetricValue with RqError := subUint64 metricValue.RqError latestValue.RqError }
  else subMetricValue

/-- The body of the loop over `hostStatuses` in `Server.reportMetricByCluster`:
the snapshot map afterwards and the call of `reportMetrics`, if any. -/
def hostStep (now : Int) (delayValues : Str → Float64) (clusterName : Str) (values : Values)
    (hostStatus : HostStatus) : Values × List ReportMetricsCall :=
  match hostStatus.Address with
  | Option.none => (values, [])
  | some address =>
    match address.SocketAddress with
    | Option.none => (values, [])
    | some socketAddress =>
      let metricKey : InstanceMetricKey :=
        { ClusterName := clusterName, Host := socketAddress.Address,
          Port := socketAddress.PortValue }
      let metricValue : InstanceMetricValue := { LastActiveTime := now }
      let metricValue := statLoop metricValue hostStatus.Stats
      let subMetricValue :=
        match values metricKey with
        | Option.none => metricValue
        | some latestValue => subtractSnapshot now metricValue latestValue
      (Function.update values metricKey (some metricValue),
        [{ metricKey := metricKey, subMetricValue := subMetricValue,
           delay := delayValues metricKey.ClusterName }])

/-- The loop over `hostStatuses` in `Server.reportMetricByCluster`. -/
def hostLoop (now : Int) (delayValues : Str → Float64) (clusterName : Str) :
    Values → List HostStatus → Values × List ReportMetricsCall
  | values, [] => (values, [])
  | values, hostStatus :: rest =>
    let step := hostStep now delayValues clusterName values hostStatus
    let tail := hostLoop now delayValues clusterName step.1 rest
    (tail.1, step.2 ++ tail.2)

/-- The loop over `clusterStatuses` in `Server.reportMetricByCluster`. -/
def clusterLoop (now : Int) (delayValues : Str → Float64) :
    Values → List ClusterStatus → Values × List ReportMetricsCall
  | values, [] => (values, [])
  | values, clusterStatus :: rest =>
    let step := hostLoop now delayValues clusterStatus.Name values clusterStatus.HostStatuses
    let tail := clusterLoop now delayValues step.1 rest
    (tail.1, step.2 ++ tail.2)

/-- What a call of `Server.reportMetricByCluster` does: the snapshot map
afterwards, the URL it requested and the calls of `reportMetrics`, in order. -/
structure ReportResult where
  values : Values
  requested : Str
  reports : List ReportMetricsCall

/-- `Server.reportMetricByCluster`.  `getenv` is `os.Getenv`; `httpGet` is the
GET of a URL followed by the read and the parse of the body (`none`: one of
them failed); `delayValues` is what `s.parseUpstreamDelay()` returns, a map
read with the zero value for a missing key. -/
def Server.reportMetricByCluster (s : Server) (getenv : Str → Str)
    (httpGet : Str → Option (List ClusterStatus)) (delayValues : Str → Float64) (now : Int)
    (values : Values) : ReportResult :=
  let clusterURL := s.ClusterMetricsURL
  let clusterURL :=
    if clusterURL = [] then
      let clusterURL := getenv "CLUSTER_METRICS_URL".toList
      if clusterURL = [] then "http://127.0.0.1:15000".toList else clusterURL
    else clusterURL
  let url := clusterURL ++ "/clusters?format=json".toList
  match httpGet url with
  | Option.none => { values := values, requested := url, reports := [] }
  | some clusterStatuses =>
    let res := clusterLoop now delayValues values clusterStatuses
    { values := res.1, requested := url, reports := res.2 }

/-- `model.RetStatus` of polaris-go. -/
inductive RetStatus where
  | RetSuccess
  | RetFail
  deriving DecidableEq, Repr

/-- One call of `Server.reportStatus`. -/
structure ReportStatusCall where
  metricKey : InstanceMetricKey
  retStatus : RetStatus
  code : Int
  delay : Float64
  deriving DecidableEq, Repr

/-- The conversion `int(v)` of a `uint64` on a 64-bit platform. -/
def intOfUint64 (v : Nat) : Int :=
  if v < 9223372036854775808 then v else (v : Int) - 18446744073709551616

/-- `Server.reportMetrics`: the calls of `reportStatus`, in order. -/
def Server.reportMetrics (metricKey : InstanceMetricKey) (subMetricValue : InstanceMetricValue)
    (delay : Float64) : List ReportStatusCall :=
  List.replicate (intOfUint64 subMetricValue.RqSuccess).toNat
      { metricKey := metricKey, retStatus := .RetSuccess, code := 200, delay := delay } ++
    List.replicate (intOfUint64 subMetricValue.RqError).toNat
      { metricKey := metricKey, retStatus := .RetFail, code := 500, delay := delay }

/-- `maxRetries` of `Server.reportStatus`. -/
def maxRetries : Nat := 3

/-- `initialBackoff` of `Server.reportStatus`, 100 ms. -/
def initialBackoff : Int := 100 * 1000000

/-- `maxBackoff` of `Server.reportStatus`, 5 s. -/
def maxBackoff : Int := 5 * 1000000000

/-- What `Server.reportStatus` does that can be observed: a call of
`consumer.UpdateServiceCallResult` in attempt `attempt`, a `time.Sleep`. -/
inductive RetryEvent where
  | update (attempt : Nat)
  | sleep (d : Int)
  deriving DecidableEq, Repr

/-- The retry loop of `Server.reportStatus`, `for attempt := 0; attempt <
maxRetries; attempt++`, with `k` iterations left.  `update attempt` tells
whether the call of `UpdateServiceCallResult` in that attempt returns a nil
error.  `math.Pow(2, float64(attempt))` is exact for the attempts the loop
reaches and is written as a power of the natural number 2. -/
def retryLoop (update : Nat → Bool) (backoff : Int) : Nat → Nat → List RetryEvent
  | 0, _ => []
  | k + 1, attempt =>
    if update attempt = true then [.update attempt]
    else
      let sleepTime : Int := (2 ^ attempt : Nat) * backoff
      let sleepTime := if sleepTime > maxBackoff then maxBackoff else sleepTime
      .update attempt :: .sleep sleepTime :: retryLoop update backoff k (attempt + 1)

/-- `Server.reportStatus`, from the retry loop on (the call result it builds
is the same in every attempt). -/
def Server.reportStatus (update : Nat → Bool) : List RetryEvent :=
  retryLoop update initialBackoff maxRetries 0

/-- `cleanThreshold` of `Server.Run`. -/
def cleanThreshold : Nat := 10

/-- `inactiveDuration` of `Server.Run`, 5 minutes. -/
def inactiveDuration : Int := 5 * 60 * 1000000000

/-- The state of the loop of `Server.Run`. -/
structure RunState where
  values : Values
  cleanCounter : Nat

/-- What one tick of the loop of `Server.Run` reads from outside: the time, the
environment and the admin endpoint. -/
structure TickInput where
  now : Int
  getenv : Str → Str
  httpGet : Str → Option (List ClusterStatus)
  delayValues : Str → Float64

/-- The cleaning of `Server.Run`: the entries whose last activity is older than
`inactiveDuration` are deleted. -/
def cleanValues (now : Int) (values : Values) : Values := fun k =>
  match values k with
  | Option.none => Option.none
  | some v => if now - v.LastActiveTime > inactiveDuration then Option.none else some v

/-- The branch `case <-ticker.C` of the loop of `Server.Run`. -/
def Server.tick (s : Server) (st : RunState) (inp : TickInput) : RunState × ReportResult :=
  let cleanCounter := st.cleanCounter + 1
  let cleaned : Nat × Values :=
    if cleanCounter ≥ cleanThreshold then (0, cleanValues inp.now st.values)
    else (cleanCounter, st.values)
  let res := s.reportMetricByCluster inp.getenv inp.httpGet inp.delayValues inp.now cleaned.2
  ({ values := res.values, cleanCounter := cleaned.1 }, res)

/-- The loop of `Server.Run` over a sequence of ticks, from the state `st`. -/
def Server.run (s : Server) : RunState → List TickInput → RunState
  | st, [] => st
  | st, inp :: rest => Server.run s (s.tick st inp).1 rest

/-- The state in which the loop of `Server.Run` starts. -/
def initialRunState : RunState := { values := fun _ => Option.none, cleanCounter := 0 }

/-! ## `internal/mesh/metrics/server.go`: the upstream delays -/

/-- The dynamic value of `Cumulative`, an `interface{}` filled by
`json.Unmarshal`: nil, a `float64`, an `int`, or a value of another type. -/
inductive CumulativeValue where
  | nil
  | float64 (v : Float64)
  | int (v : Int)
  | other
  deriving DecidableEq, Repr

/-- Modelled from the spec: the stats schema is not declared under `src/`; the
spec gives it as `{stats:[{name, histograms:{computed_quantiles:[{name,
values:[{cumulative,…}]}]}}]}`.  This is one element of `values`. -/
structure QuantileValue where
  Cumulative : CumulativeValue
  deriving DecidableEq, Repr

/-- Modelled from the spec: one element of `computed_quantiles` of the stats
schema. -/
structure ComputedQuantile where
  Name : Str
  Values : List QuantileValue
  deriving DecidableEq, Repr

/-- Modelled from the spec: the `histograms` object of the stats schema. -/
structure Histograms where
  ComputedQuantiles : List ComputedQuantile
  deriving DecidableEq, Repr

/-- Modelled from the spec: one element of `stats` of the stats schema;
`Histograms` is a pointer. -/
structure Stat where
  Name : Str
  Histograms : Option Histograms
  deriving DecidableEq, Repr

/-- Modelled from the spec: the stats object `{stats: [...]}`. -/
structure StatsObject where
  Stats : List Stat
  deriving DecidableEq, Repr

/-- What a call of `Server.getClusterStats` does: the URL it requests and the
stats object it returns (`none` is nil). -/
structure ClusterStatsResult where
  stats : Option StatsObject
  requested : Str
  deriving DecidableEq, Repr

/-- `Server.getClusterStats`.  `httpGetStats` is the GET of a URL followed by
the read and the parse of the body (`none`: one of them failed). -/
def Server.getClusterStats (_s : Server) (httpGetStats : Str → Option StatsObject) :
    ClusterStatsResult :=
  let url := "http://127.0.0.1:15000/stats?format=json".toList
  { stats := httpGetStats url, requested := url }

/-- `strings.Index(s, sep)` for a one-character separator: the index of the
first occurrence of `c` in `s`, or `-1` when there is none. -/
def Index : Str → Char → Int
  | [], _ => -1
  | x :: xs, c =>
    if x = c then 0
    else
      let r := Index xs c
      if r = -1 then -1 else r + 1

/-- `clusterRegex.Match`, for the pattern `^cluster\..+\.upstream_rq_time$` of
package `regexp`: the two anchors tie the match to the whole name, which
starts with `cluster.` and goes on with a text that ends with
`.upstream_rq_time`; what stands between the two is matched by `.+`, one or
more characters none of which is a newline. -/
def clusterRegexMatch (name : Str) : Bool :=
  let head := "cluster.".toList
  let tail := ".upstream_rq_time".toList
  let rest := name.drop head.length
  let middle := rest.take (rest.length - tail.length)
  head.isPrefixOf name && tail.isSuffixOf rest && !middle.isEmpty && !middle.contains '\n'

/-- The map `map[string]float64` that `parseUpstreamDelay` builds. -/
abbrev DelayValues := Str → Option Float64

/-- The body of the loop over `computedQuantiles` in `Server.parseUpstreamDelay`.
`floatOfInt` is the conversion `float64(v)` of an `int`. -/
def quantileStep (floatOfInt : Int → Float64) (retValues : DelayValues)
    (computedQuantile : ComputedQuantile) : DelayValues :=
  let matched := clusterRegexMatch computedQuantile.Name
  if !matched then retValues
  else
    let dotIndex := Index computedQuantile.Name '.'
    if dotIndex = -1 then retValues
    else
      let svcName := computedQuantile.Name.drop (dotIndex + 1).toNat
      let lastDotIndex := LastIndex svcName '.'
      if lastDotIndex = -1 then retValues
      else
        let svcName := svcName.take lastDotIndex.toNat
        let values := computedQuantile.Values
        if values.length < 3 then retValues
        else
          match values[2]? with
          | Option.none => retValues
          | some third =>
            match third.Cumulative with
            | .nil => retValues
            | .float64 v => Function.update retValues svcName (some v)
            | .int v => Function.update retValues svcName (some (floatOfInt v))
            | .other => retValues

/-- The loop over `computedQuantiles` in `Server.parseUpstreamDelay`. -/
def quantileLoop (floatOfInt : Int → Float64) :
    DelayValues → List ComputedQuantile → DelayValues
  | retValues, [] => retValues
  | retValues, computedQuantile :: rest =>
    quantileLoop floatOfInt (quantileStep floatOfInt retValues computedQuantile) rest

/-- The loop over `statsObject.Stats` in `Server.parseUpstreamDelay`. -/
def delayStatLoop (floatOfInt : Int → Float64) : DelayValues → List Stat → DelayValues
  | retValues, [] => retValues
  | retValues, stat :: rest =>
    match stat.Histograms with
    | Option.none => delayStatLoop floatOfInt retValues rest
    | some histograms =>
      let computedQuantiles := histograms.ComputedQuantiles
      if computedQuantiles.length = 0 then delayStatLoop floatOfInt retValues rest
      else delayStatLoop floatOfInt (quantileLoop floatOfInt retValues computedQuantiles) rest

/-- `Server.parseUpstreamDelay`. -/
def Server.parseUpstreamDelay (s : Server) (httpGetStats : Str → Option StatsObject)
    (floatOfInt : Int → Float64) : DelayValues :=
  let retValues : DelayValues := fun _ => Option.none
  match (s.getClusterStats httpGetStats).stats with
  | Option.none => retValues
  | some statsObject =>
    if statsObject.Stats.length = 0 then retValues
    else delayStatLoop floatOfInt retValues statsObject.Stats

/-! ## `pkg/utils/base.go` -/

/-- `constants.CommaSymbol`. -/
def CommaSymbol : Char := ','

/-- `constants.ColonSymbol`. -/
def ColonSymbol : Char := ':'

/-- `strings.Split(s, sep)` for a one-character separator. -/
def Split (s : Str) (sep : Char) : List Str := splitAt sep s

/-- A Go `map[string]string`, as the list of its entries, no key twice. -/
abbrev Labels := List (Str × Str)

/-- The assignment `m[k] = v` of a `map[string]string`. -/
def Labels.set (m : Labels) (k v : Str) : Labels := (m.filter fun e => e.1 ≠ k) ++ [(k, v)]

/-- The loop over `tokens` in `ParseLabels`. -/
def tokenLoop (values : Labels) : List Str → Labels
  | [] => values
  | token :: rest =>
    if token.length = 0 then tokenLoop values rest
    else
      let pairs := Split token ColonSymbol
      if pairs.length > 1 then tokenLoop (values.set (pairs.getD 0 []) (pairs.getD 1 [])) rest
      else tokenLoop values rest

/-- `ParseLabels`; `Option.none` is the nil map. -/
def ParseLabels (labels : Str) : Option Labels :=
  if labels.length = 0 then Option.none
  else
    let values : Labels := []
    let tokens := Split labels CommaSymbol
    some (tokenLoop values tokens)

/-! ## `internal/bootstrap/agent.go` -/

/-- `Agent`.  The five components are pointers; their types play no part in
what is embedded and are parameters. -/
structure Agent (R D M T L : Type) where
  dnsResolver : Option R
  debugServer : Option D
  metricServer : Option M
  mtlsAgent : Option T
  rlsSvr : Option L

/-- `Agent.getErrorChannel`: the capacity of the channel it makes. -/
def Agent.getErrorChannel {R D M T L : Type} (p : Agent R D M T L) : Nat :=
  let componentCount := 0
  let componentCount := if p.debugServer.isSome then componentCount + 1 else componentCount
  let componentCount := if p.dnsResolver.isSome then componentCount + 2 else componentCount
  let componentCount := if p.mtlsAgent.isSome then componentCount + 1 else componentCount
  let componentCount := if p.metricServer.isSome then componentCount + 1 else componentCount
  let componentCount := if p.rlsSvr.isSome then componentCount + 1 else componentCount
  componentCount

/-! ## `internal/bootstrap/config`

`SidecarConfig.mergeBootConfig` runs after `mergeEnv`, which dereferences
`s.Logger`, `s.Recurse` and every element of `s.Resolvers`: at that point none
of them is nil, and they are embedded as plain values. -/

/-- `strconv.ParseBool`; `Option.none` is the syntax error, with which the
function returns `false`. -/
def ParseBool (str : Str) : Option Bool :=
  if str = "1".toList ∨ str = "t".toList ∨ str = "T".toList ∨ str = "true".toList ∨
      str = "TRUE".toList ∨ str = "True".toList then some true
  else if str = "0".toList ∨ str = "f".toList ∨ str = "F".toList ∨ str = "false".toList ∨
      str = "FALSE".toList ∨ str = "False".toList then some false
  else Option.none

/-- `BootConfig`. -/
structure BootConfig where
  Bind : Str := []
  Port : Int := 0
  LogLevel : Str := []
  RecurseEnabled : Str := []
  ResolverDnsAgentEnabled : Str := []
  ResolverDnsAgentRouteLabels : Str := []
  ResolverMeshProxyEnabled : Str := []
  deriving DecidableEq, Repr

/-- A value of the map `Option` of a resolver entry, a `map[string]interface{}`:
a string, an integer or the label map that `mergeBootConfig` stores. -/
inductive OptionValue where
  | str (v : Str)
  | int (v : Int)
  | labels (v : Labels)
  deriving DecidableEq, Repr

/-- Modelled from the spec: `common.ConfigEntry` is not declared under `src/`;
the spec gives a resolver plugin a `name`, an `enable` flag, a `dns_ttl`, a
`suffix`, a `namespace` and an opaque `options` mapping. -/
structure ConfigEntry where
  Name : Str
  DnsTtl : Int
  Enable : Bool
  Suffix : Str
  Namespace : Str := []
  Option : List (Str × OptionValue) := []
  deriving DecidableEq, Repr

/-- `log.Options`, the field `mergeBootConfig` writes. -/
structure LogOptions where
  OutputLevel : Str
  deriving DecidableEq, Repr

/-- `RecurseConfig`. -/
structure RecurseConfig where
  Enable : Bool
  TimeoutSec : Int
  NameServers : List Str
  deriving DecidableEq, Repr

/-- `SidecarConfig`, the fields `mergeBootConfig` reads or writes. -/
structure SidecarConfig where
  Namespace : Str
  Bind : Str
  Port : Int
  Logger : LogOptions
  Recurse : RecurseConfig
  Resolvers : List ConfigEntry
  deriving DecidableEq, Repr

/-- The errors `mergeBootConfig` collects, by the value that failed to parse. -/
inductive MergeError where
  | recurseEnabled
  | resolverDnsAgentEnabled
  | resolverMeshProxyEnabled
  deriving DecidableEq, Repr

/-- The assignment `m[k] = v` of a `map[string]interface{}`. -/
def setOption (m : List (Str × OptionValue)) (k : Str) (v : OptionValue) :
    List (Str × OptionValue) :=
  (m.filter fun e => e.1 ≠ k) ++ [(k, v)]

/-- The body of the loop over `s.Resolvers` in `mergeBootConfig`: the entry
afterwards and the errors collected.  `PluginNameDnsAgent` and
`PluginNameMeshProxy` are the constants of package `common`, declared outside
`src/`. -/
def resolverStep (PluginNameDnsAgent PluginNameMeshProxy : Str) (config : BootConfig)
    (resolverConfig : ConfigEntry) : ConfigEntry × List MergeError :=
  if resolverConfig.Name = PluginNameDnsAgent then
    let st : ConfigEntry × List MergeError :=
      if config.ResolverDnsAgentEnabled.length > 0 then
        match ParseBool config.ResolverDnsAgentEnabled with
        | some b => ({ resolverConfig with Enable := b }, [])
        | Option.none => ({ resolverConfig with Enable := false }, [.resolverDnsAgentEnabled])
      else (resolverConfig, [])
    if config.ResolverDnsAgentRouteLabels.length > 0 then
      match ParseLabels config.ResolverDnsAgentRouteLabels with
      | Option.none => st
      | some labels =>
        if labels.length > 0 then
          let opt := if st.1.Option.length = 0 then [] else st.1.Option
          ({ st.1 with Option := setOption opt "route_labels".toList (.labels labels) }, st.2)
        else st
    else st
  else if resolverConfig.Name = PluginNameMeshProxy then
    if config.ResolverMeshProxyEnabled.length > 0 then
      match ParseBool config.ResolverMeshProxyEnabled with
      | some b => ({ resolverConfig with Enable := b }, [])
      | Option.none => ({ resolverConfig with Enable := false }, [.resolverMeshProxyEnabled])
    else (resolverConfig, [])
  else (resolverConfig, [])

/-- The loop over `s.Resolvers` in `mergeBootConfig`. -/
def resolversLoop (PluginNameDnsAgent PluginNameMeshProxy : Str) (config : BootConfig) :
    List ConfigEntry → List ConfigEntry × List MergeError
  | [] => ([], [])
  | resolverConfig :: rest =>
    let step := resolverStep PluginNameDnsAgent PluginNameMeshProxy config resolverConfig
    let tail := resolversLoop PluginNameDnsAgent PluginNameMeshProxy config rest
    (step.1 :: tail.1, step.2 ++ tail.2)

/-- What `mergeBootConfig` does: the sidecar configuration afterwards and the
errors it collected (it returns an error when there is one). -/
structure MergeResult where
  config : SidecarConfig
  errs : List MergeError
  deriving DecidableEq, Repr

/-- `SidecarConfig.mergeBootConfig`. -/
def SidecarConfig.mergeBootConfig (PluginNameDnsAgent PluginNameMeshProxy : Str)
    (s : SidecarConfig) (config : BootConfig) : MergeResult :=
  let s := if config.Bind.length > 0 then { s with Bind := config.Bind } else s
  let s := if config.Port > 0 then { s with Port := config.Port } else s
  let s :=
    if config.LogLevel.length > 0 then
      { s with Logger := { s.Logger with OutputLevel := config.LogLevel } }
    else s
  let st : SidecarConfig × List MergeError :=
    if config.RecurseEnabled.length > 0 then
      match ParseBool config.RecurseEnabled with
      | some b => ({ s with Recurse := { s.Recurse with Enable := b } }, [])
      | Option.none => ({ s with Recurse := { s.Recurse with Enable := false } }, [.recurseEnabled])
    else (s, [])
  let s := { st.1 with Logger := { st.1.Logger with OutputLevel := config.LogLevel } }
  if config.ResolverDnsAgentEnabled.length > 0 ∨
      config.ResolverDnsAgentRouteLabels.length > 0 then
    let res := resolversLoop PluginNameDnsAgent PluginNameMeshProxy config s.Resolvers
    { config := { s with Resolvers := res.1 }, errs := st.2 ++ res.2 }
  else { config := s, errs := st.2 }

/-! ## Definitions used to state the properties -/

/-- The name with a trailing dot appended if it is missing. -/
def dotTerminated (s : Str) : Str := if s.getLast? = some '.' then s else s ++ ['.']

/-- The name with one trailing dot removed if there is one. -/
def withoutTrailingDot (s : Str) : Str := if s.getLast? = some '.' then s.dropLast else s

/-- The namespace after the rewrite of the alias `polaris`. -/
def rewritePolaris (lower : Char → Char) (ServerNamespace ns : Str) : Str :=
  if ToLower lower ns = SysNamespace then ServerNamespace else ns

/-- The string `ParseQname` splits, for a qname `rem ++ suffix.`: `rem` itself
for the empty suffix, `rem` without one trailing dot otherwise. -/
def keyRemainder (suffix rem : Str) : Str :=
  if suffix = [] then rem else withoutTrailingDot rem

/-- A character that neither separates labels nor escapes. -/
def plainChar (c : Char) : Prop := c ≠ '.' ∧ c ≠ Backslash

/-- The decimal text of a number below 1000, without leading zeros. -/
def decimal (n : Nat) : Str :=
  if n < 10 then [Char.ofNat (48 + n)]
  else if n < 100 then [Char.ofNat (48 + n / 10), Char.ofNat (48 + n % 10)]
  else [Char.ofNat (48 + n / 100), Char.ofNat (48 + n / 10 % 10), Char.ofNat (48 + n % 10)]

/-- The dotted-quad text `a.b.c.d` of an IPv4 address. -/
def dottedQuad (a b c d : Nat) : Str :=
  decimal a ++ '.' :: (decimal b ++ '.' :: (decimal c ++ '.' :: decimal d))

/-- `n` sequential calls of `RotatingUpstream.Next`: the servers returned, in
order, and the state afterwards; `Option.none` when a call panics. -/
def nextCalls : Nat → RotatingUpstream → Option (List Str × RotatingUpstream)
  | 0, r => some ([], r)
  | n + 1, r =>
    match r.Next with
    | Option.none => Option.none
    | some (server, r) =>
      match nextCalls n r with
      | Option.none => Option.none
      | some (servers, r) => some (server :: servers, r)

/-- An upstream exchange fails: a transport error without a truncated response,
or a response whose rcode is outside NOERROR and NXDOMAIN. -/
def exchangeFailed (res : ExchangeResult) : Bool :=
  (res.err && !(match res.resp with
    | some m => m.Truncated
    | Option.none => false)) ||
  (match res.resp with
    | some m => decide (m.Rcode ≠ RcodeSuccess ∧ m.Rcode ≠ RcodeNameError)
    | Option.none => false)

/-- The exchanges of a request all of whose exchanges fail: for each name in
turn, `attempts` exchanges, the `k`-th exchange overall going to the server at
position `(i + k) mod n` of the rotation. -/
def exchangePlan (servers : List Str) (attempts : Nat) : List Str → Nat → List ExchangeCall
  | [], _ => []
  | domain :: domains, i =>
    (List.range attempts).map (fun j =>
        ({ domain := domain, upstream := servers.getD ((i + j) % servers.length) [] } :
          ExchangeCall)) ++
      exchangePlan servers attempts domains (i + attempts)

/-- The elements of a list, each taken at its first occurrence. -/
def firstOccurrences : List Str → List Str
  | [] => []
  | h :: t => h :: (firstOccurrences t).filter (fun x => decide (x ≠ h))

/-- The entries of the descriptors of a request, in descriptor and entry
order; a nil descriptor has none. -/
def allEntries (descriptors : List (Option RateLimitDescriptor)) :
    List RateLimitDescriptor_Entry :=
  descriptors.flatMap fun d =>
    match d with
    | Option.none => []
    | some d => d.Entries

/-- The keys of the hosts with a socket address in the answer of the admin
endpoint: the keys a scrape of that answer stores. -/
def scrapedKeys (clusterStatuses : List ClusterStatus) : List InstanceMetricKey :=
  clusterStatuses.flatMap fun clusterStatus =>
    clusterStatus.HostStatuses.filterMap fun hostStatus =>
      match hostStatus.Address with
      | Option.none => Option.none
      | some address =>
        match address.SocketAddress with
        | Option.none => Option.none
        | some socketAddress =>
          some ⟨clusterStatus.Name, socketAddress.Address, socketAddress.PortValue⟩

/-- The key `k` is not among the keys of any answer the admin endpoint gives in
the tick `inp`. -/
def notScraped (k : InstanceMetricKey) (inp : TickInput) : Prop :=
  ∀ (url : Str) (clusterStatuses : List ClusterStatus),
    inp.httpGet url = some clusterStatuses → k ∉ scrapedKeys clusterStatuses

/-- Whether an event of `Server.reportStatus` is a call of
`UpdateServiceCallResult`. -/
def RetryEvent.isUpdate : RetryEvent → Bool
  | .update _ => true
  | .sleep _ => false

/-- The failure of the attempt `i` followed by the wait of
`min(100 ms x 2^i, 5 s)`, in nanoseconds. -/
def failedAttempt (i : Nat) : List RetryEvent :=
  [.update i, .sleep (min (100 * 1000000 * 2 ^ i) (5 * 1000000000))]

/-- The admin base URL of a tick: the configured `ClusterMetricsURL` when it is
not empty, else the environment variable `CLUSTER_METRICS_URL` when it is not
empty, else `http://127.0.0.1:15000`. -/
def adminBase (s : Server) (getenv : Str → Str) : Str :=
  if s.ClusterMetricsURL ≠ [] then s.ClusterMetricsURL
  else if getenv "CLUSTER_METRICS_URL".toList ≠ [] then getenv "CLUSTER_METRICS_URL".toList
  else "http://127.0.0.1:15000".toList

/-- The number of `true` among the given flags. -/
def countTrue (flags : List Bool) : Nat := (flags.filter id).length

/-- The computed-quantile entries of the stats, in stat and entry order; a stat
without histograms has none. -/
def allQuantiles (stats : List Stat) : List ComputedQuantile :=
  stats.flatMap fun stat =>
    match stat.Histograms with
    | Option.none => []
    | some histograms => histograms.ComputedQuantiles

/-- The name is `cluster.` followed by `s` and `.upstream_rq_time`, with `s` not
empty and free of newlines. -/
def clusterStatName (name s : Str) : Prop :=
  name = "cluster.".toList ++ s ++ ".upstream_rq_time".toList ∧ s ≠ [] ∧ '\n' ∉ s

/-! ## Sample inputs -/

/-- A discovery resolver over an empty registry. -/
def sampleDiscovery : resolverDiscovery :=
  { consumer := fun _ => some [], suffix := ".".toList, dnsTtl := 10, RouteLabelsMap := [],
    ns := "default".toList, lower := asciiLower, ServerNamespace := "Polaris".toList,
    parseIPv6 := fun _ => [] }

/-- A UDP handler with the discovery resolver and no recursor. -/
def sampleHandler : dnsHandler :=
  { protocol := UdpProtocol, resolvers := [sampleDiscovery.toResolver], recurseProxy := Option.none,
    lib := noTruncation, exchange := fun _ _ _ _ => { resp := Option.none, err := true },
    clientIsTCP := false }

/-- A query of type A for the name `_addr.foo.`. -/
def addrFirstRequest : Msg :=
  { Id := 7, RecursionDesired := true,
    Question := [{ Name := "_addr.foo.".toList, Qtype := TypeA, Qclass := ClassINET }] }

/-- A reply with one A record for `10.0.0.5`. -/
def sampleReply : Msg :=
  let hdr : RR_Header :=
    { Name := "orders.prod.".toList, Rrtype := TypeA, Class := ClassINET, Ttl := 10 }
  { Answer := [some (RR.A hdr [10, 0, 0, 5])] }

/-- A resolver that always returns nil. -/
def nilResolver : NamingResolver := { ServeDNS := fun _ _ => Outcome.none }

/-- A resolver that always returns `sampleReply`. -/
def replyResolver : NamingResolver := { ServeDNS := fun _ _ => Outcome.reply sampleReply }

/-- A UDP handler with three resolvers and no recursor. -/
def chainHandler : dnsHandler :=
  { protocol := UdpProtocol, resolvers := [nilResolver, replyResolver, nilResolver],
    recurseProxy := Option.none, lib := noTruncation,
    exchange := fun _ _ _ _ => { resp := Option.none, err := true }, clientIsTCP := false }

/-- The question of type A for `orders.prod.`. -/
def ordersQuestion : Question :=
  { Name := "orders.prod.".toList, Qtype := TypeA, Qclass := ClassINET }

/-- A query of type A for `orders.prod.`. -/
def ordersRequest : Msg := { Id := 9, RecursionDesired := true, Question := [ordersQuestion] }

/-- An upstream response with rcode NXDOMAIN. -/
def nxdomainReply : Msg :=
  { Id := 9, Response := true, RecursionDesired := true, RecursionAvailable := true,
    Rcode := RcodeNameError, Question := [ordersQuestion] }

/-- A recursor configuration with one upstream and one attempt. -/
def sampleConfig : Config :=
  { Ndots := 1, Search := [], Timeout := 5, Attempts := 1, Upstream := ["8.8.8.8:53".toList] }

/-- A UDP handler without resolvers whose recursor has one upstream, which
answers every query with `nxdomainReply`. -/
def recursorHandler : dnsHandler :=
  { protocol := UdpProtocol, resolvers := [],
    recurseProxy := BuildProxy (some sampleConfig),
    lib := noTruncation,
    exchange := fun _ _ _ _ => { resp := some nxdomainReply, err := false },
    clientIsTCP := false }

/-- The question of type A for `7f000001._addr.foo.prod.`. -/
def loopbackQuestion : Question :=
  { Name := "7f000001._addr.foo.prod.".toList, Qtype := TypeA, Qclass := ClassINET }

/-- The question of type SRV for `0a000005._addr.orders.prod.`. -/
def addrSrvQuestion : Question :=
  { Name := "0a000005._addr.orders.prod.".toList, Qtype := TypeSRV, Qclass := ClassINET }

/-- The instance `10.0.0.5:8080` of the service `orders` in the namespace `prod`,
with priority 10 and weight 5. -/
def ordersInstance : Instance :=
  { Host := "10.0.0.5".toList, Port := 8080, Priority := 10, Weight := 5,
    ServiceKey := { Namespace := "prod".toList, Service := "orders".toList } }

/-- A discovery resolver whose registry returns `ordersInstance`. -/
def ordersDiscovery : resolverDiscovery :=
  { consumer := fun _ => some [ordersInstance], suffix := ".".toList, dnsTtl := 10,
    RouteLabelsMap := [], ns := "default".toList, lower := asciiLower,
    ServerNamespace := "Polaris".toList, parseIPv6 := fun _ => [] }

/-- The question of type SRV for `orders.prod.`. -/
def ordersSrvQuestion : Question :=
  { Name := "orders.prod.".toList, Qtype := TypeSRV, Qclass := ClassINET }

/-- A request for `orders.prod.` with EDNS0 (UDP size 4096) and the client
subnet `192.0.2.0/24`. -/
def ecsRequest : Msg :=
  let hdr : RR_Header := { Name := ".".toList, Rrtype := TypeOPT, Class := 4096, Ttl := 0 }
  { Id := 9, RecursionDesired := true, Question := [ordersQuestion],
    Extra := [RR.OPT hdr [EDNS0.SUBNET EDNS0SUBNET 1 24 0 [192, 0, 2, 0]]] }

/-- A proxy over `sampleConfig`: one upstream, one attempt. -/
def sampleProxy : Proxy :=
  { config := sampleConfig, rotate := { servers := sampleConfig.Upstream, index := 0 } }

/-- A truncated upstream response with rcode SERVFAIL. -/
def truncatedServfail : Msg :=
  { Id := 9, Response := true, Truncated := true, Rcode := RcodeServerFailure,
    Question := [ordersQuestion] }

/-- A truncated upstream response with rcode NOERROR. -/
def truncatedNoerror : Msg :=
  { Id := 9, Response := true, Truncated := true, Rcode := RcodeSuccess,
    Question := [ordersQuestion] }

/-- A recursor configuration with two upstreams, two attempts and two search
domains. -/
def searchConfig : Config :=
  { Ndots := 2, Search := [".svc.local".toList, ".local".toList], Timeout := 5, Attempts := 2,
    Upstream := ["10.0.0.1:53".toList, "10.0.0.2:53".toList] }

/-- A proxy over `searchConfig`. -/
def searchProxy : Proxy :=
  { config := searchConfig, rotate := { servers := searchConfig.Upstream, index := 0 } }

/-- A query of type A for the name `orders`. -/
def shortRequest : Msg :=
  { Id := 11, RecursionDesired := true,
    Question := [{ Name := "orders".toList, Qtype := TypeA, Qclass := ClassINET }] }

/-- A resolv.conf with three name servers, one of them the loopback address. -/
def sampleResolvConf : ClientConfig :=
  { Servers := ["8.8.8.8".toList, "1.1.1.1".toList, "127.0.0.1".toList], Search := [],
    Port := "53".toList, Ndots := 1, Timeout := 5, Attempts := 2 }

/-- A rate-limit server of the namespace `prod` whose limiter answers every
request with LIMITED and the info `quota exhausted`. -/
def limitedServer : RateLimitServer :=
  { ns := "prod".toList,
    limiter := fun _ => .future { Code := QuotaResultLimited, Info := "quota exhausted".toList } }

/-- A rate-limit request of the domain `foo.prod` with the descriptors
`:path = /x` and `user = alice`. -/
def sampleRateLimitRequest : RateLimitRequest :=
  { Domain := "foo.prod".toList,
    Descriptors := [some { Entries := [{ Key := ":path".toList, Value := "/x".toList }] },
      some { Entries := [{ Key := "user".toList, Value := "alice".toList }] }],
    HitsAddend := 0 }

/-- A host of the admin endpoint at `10.0.0.1:8080` with the cumulative
counters `rq_total = 12`, `rq_success = 10` and `rq_error = 1`. -/
def sampleHostStatus : HostStatus :=
  { Address := some { SocketAddress := some { Address := "10.0.0.1".toList, PortValue := 8080 } },
    Stats := [{ Name := "rq_total".toList, Value := 12 }, { Name := "rq_success".toList, Value := 10 },
      { Name := "rq_error".toList, Value := 1 }] }

/-- The key of `sampleHostStatus` in the cluster `svc`. -/
def sampleMetricKey : InstanceMetricKey :=
  { ClusterName := "svc".toList, Host := "10.0.0.1".toList, Port := 8080 }

/-- A snapshot map that holds, for `sampleMetricKey`, the counters
`rq_total = 9`, `rq_success = 7` and `rq_error = 2`, last active at time 5. -/
def sampleValues : Values :=
  Function.update (fun _ => Option.none) sampleMetricKey
    (some { RqTotal := 9, RqSuccess := 7, RqError := 2, LastActiveTime := 5 })

/-- A tick at time 100 in which the admin endpoint answers with the cluster
`svc` and its host `sampleHostStatus`. -/
def scrapeTick : TickInput :=
  { now := 100, getenv := fun _ => [],
    httpGet := fun _ => some [{ Name := "svc".toList, HostStatuses := [sampleHostStatus] }],
    delayValues := fun _ => 0 }

/-- A tick more than five minutes after time 100 in which the admin endpoint
answers with no cluster. -/
def lateTick : TickInput :=
  { now := 100 + inactiveDuration + 1, getenv := fun _ => [], httpGet := fun _ => some [],
    delayValues := fun _ => 0 }

/-- A metrics server configured with the admin URL `http://envoy:9901`. -/
def customServer : Server :=
  { ns := "default".toList, ClusterMetricsURL := "http://envoy:9901".toList }

/-- The resolver entry `dnsagent` of the default configuration, enabled. -/
def dnsAgentEntry : ConfigEntry :=
  { Name := "dnsagent".toList, DnsTtl := 10, Enable := true, Suffix := ".".toList }

/-- The resolver entry `meshproxy` of the default configuration, disabled. -/
def meshProxyEntry : ConfigEntry :=
  { Name := "meshproxy".toList, DnsTtl := 120, Enable := false, Suffix := ".".toList }

/-- A sidecar configuration with the two resolver entries of the default
configuration. -/
def sampleSidecarConfig : SidecarConfig :=
  { Namespace := "default".toList, Bind := "0.0.0.0".toList, Port := 53,
    Logger := { OutputLevel := "info".toList },
    Recurse := { Enable := false, TimeoutSec := 1, NameServers := [] },
    Resolvers := [dnsAgentEntry, meshProxyEntry] }

/-- A bootstrap configuration that only sets `ResolverMeshProxyEnabled`, to
`true`. -/
def meshOnlyBootConfig : BootConfig := { ResolverMeshProxyEnabled := "true".toList }

/-- A bootstrap configuration that sets `ResolverMeshProxyEnabled` and
`ResolverDnsAgentEnabled` to `true`. -/
def bothBootConfig : BootConfig :=
  { ResolverDnsAgentEnabled := "true".toList, ResolverMeshProxyEnabled := "true".toList }

/-- A handler whose recursor has the search list `svc.local`, `local`. -/
def searchHandler : dnsHandler :=
  { protocol := UdpProtocol, resolvers := [],
    recurseProxy := BuildProxy
      (some { sampleConfig with Search := ["svc.local".toList, "local".toList] }),
    lib := noTruncation,
    exchange := fun _ _ _ _ => { resp := Option.none, err := true },
    clientIsTCP := false }

/-- The computed-quantile entry `cluster.orders.prod.upstream_rq_time` with the
cumulative values 10, 20 and 30 (as bit patterns of `float64`). -/
def ordersQuantile : ComputedQuantile :=
  { Name := "cluster.orders.prod.upstream_rq_time".toList,
    Values := [{ Cumulative := .float64 10 }, { Cumulative := .float64 20 },
      { Cumulative := .float64 30 }] }

/-- An admin endpoint whose stats hold a stat without histograms, and a stat
with the entry `ordersQuantile` and an entry `http.ingress.rq_time`. -/
def sampleStats (_ : Str) : Option StatsObject :=
  some { Stats := [{ Name := "a".toList, Histograms := Option.none },
    { Name := "b".toList, Histograms := some { ComputedQuantiles := [ordersQuantile,
        { Name := "http.ingress.rq_time".toList, Values := ordersQuantile.Values }] } }] }

/-- A resolv.conf whose only name server is the loopback address, with the
default of two attempts. -/
def loopbackResolvConf : ClientConfig :=
  { Servers := ["127.0.0.1".toList], Search := [], Port := "53".toList, Ndots := 1, Timeout := 5,
    Attempts := 2 }

/-- A UDP handler without resolvers whose recursor is built from the
configuration that `InitRecurseConfig` makes of `loopbackResolvConf`, without
explicit name servers, for a sidecar bound to a loopback or unspecified
address. -/
def loopbackHandler : dnsHandler :=
  { protocol := UdpProtocol, resolvers := [],
    recurseProxy := BuildProxy (some (InitRecurseConfig true 1 [] loopbackResolvConf)),
    lib := noTruncation,
    exchange := fun _ _ _ _ => { resp := some sampleReply, err := false },
    clientIsTCP := false }

/-! ## Lemmas on the handler -/

theorem written_append (a b : List Event) : written (a ++ b) = written a ++ written b := by
  induction a with
  | nil => rfl
  | cons e a ih => cases e <;> simp [written, ih]

theorem written_resolverLoop (question : Question) (qname : Str) (rs : List NamingResolver) :
    ∀ i, written (resolverLoop question qname i rs).1 = [] := by
  induction rs with
  | nil => intro i; rfl
  | cons h rs ih =>
    intro i
    simp only [resolverLoop]
    split <;> simp [written, ih]

theorem resolverLoop_panic (question : Question) (qname : Str) (rs : List NamingResolver) :
    ∀ i, (resolverLoop question qname i rs).2 = Outcome.panic →
      ∃ h ∈ rs, h.ServeDNS question qname = Outcome.panic := by
  induction rs with
  | nil => intro i h; simp [resolverLoop] at h
  | cons h rs ih =>
    intro i hp
    simp only [resolverLoop] at hp
    split at hp
    · simp at hp
    · next heq => exact ⟨h, by simp, heq⟩
    · obtain ⟨h', hm, hh⟩ := ih (i + 1) hp
      exact ⟨h', by simp [hm], hh⟩

/-- C1 (amended): `dnsHandler.ServeDNS` hands exactly one message to the
response writer unless the deferred `recover` caught a panic, in which case it
hands none; and a panic is caught only when a resolver or the recursor
panicked. -/
theorem serveDNS_write_count (d : dnsHandler) (req : Msg) :
    (written (d.ServeDNS req).events).length = (if (d.ServeDNS req).recovered then 0 else 1) ∧
    ((d.ServeDNS req).recovered = true →
      (∃ h ∈ d.resolvers, ∃ q n, h.ServeDNS q n = Outcome.panic) ∨
        (d.recurse req).1 = Outcome.panic) := by
  unfold dnsHandler.ServeDNS
  cases hq : req.Question with
  | nil => simp [written]
  | cons question qs =>
    simp only
    by_cases hc : canDoResolve question.Qtype = true
    · simp only [hc, if_true]
      cases hch : (resolverLoop question (d.Preprocess question.Name) 0 d.resolvers).2 with
      | reply resp => simp [written_append, written_resolverLoop, written]
      | panic =>
        simp only [written_resolverLoop, List.length_nil, if_true, true_and]
        intro _
        obtain ⟨h, hm, hh⟩ := resolverLoop_panic _ _ _ _ hch
        exact Or.inl ⟨h, hm, _, _, hh⟩
      | none =>
        simp only
        rcases hr : d.recurse req with ⟨o, rot⟩
        cases o <;> simp [written_append, written_resolverLoop, written]
    · simp only [hc]
      rcases hr : d.recurse req with ⟨o, rot⟩
      cases o <;> simp [written_append, written]

/-- C1 (counterexample): a query of type A for `_addr.foo.` makes the discovery
resolver panic; the handler recovers and writes no message. -/
theorem serveDNS_write_count_counterexample :
    ¬ ((written (sampleHandler.ServeDNS addrFirstRequest).events).length = 1) := by
  decide

/-! ## C2: the resolver chain is sequential -/

theorem resolverLoop_first_reply (question : Question) (qname : Str) (h : NamingResolver)
    (post : List NamingResolver) (m : Msg) (hh : h.ServeDNS question qname = Outcome.reply m) :
    ∀ (pre : List NamingResolver) (i : Nat),
      (∀ p ∈ pre, p.ServeDNS question qname = Outcome.none) →
      resolverLoop question qname i (pre ++ h :: post) =
        ((List.range' i (pre.length + 1)).map Event.resolver, Outcome.reply m) := by
  intro pre
  induction pre with
  | nil => intro i _; simp [resolverLoop, hh, List.range']
  | cons p pre ih =>
    intro i hpre
    have hp : p.ServeDNS question qname = Outcome.none := hpre p (by simp)
    have ih' := ih (i + 1) (fun x hx => hpre x (by simp [hx]))
    simp [resolverLoop, hp, ih', List.range']

theorem resolverLoop_all_none (question : Question) (qname : Str) (rs : List NamingResolver) :
    ∀ i, (∀ h ∈ rs, h.ServeDNS question qname = Outcome.none) →
      resolverLoop question qname i rs =
        ((List.range' i rs.length).map Event.resolver, Outcome.none) := by
  induction rs with
  | nil => intro i _; simp [resolverLoop, List.range']
  | cons h rs ih =>
    intro i hall
    have hh : h.ServeDNS question qname = Outcome.none := hall h (by simp)
    have ih' := ih (i + 1) (fun x hx => hall x (by simp [hx]))
    simp [resolverLoop, hh, ih', List.range']

theorem resolverLoop_none_iff (question : Question) (qname : Str) (rs : List NamingResolver) :
    ∀ i, (resolverLoop question qname i rs).2 = Outcome.none ↔
      ∀ h ∈ rs, h.ServeDNS question qname = Outcome.none := by
  induction rs with
  | nil => intro i; simp [resolverLoop]
  | cons h rs ih =>
    intro i
    simp only [resolverLoop]
    split
    · next heq => simp [heq]
    · next heq => simp [heq]
    · next heq => simp [heq, ih (i + 1)]

theorem recursor_not_mem_resolverLoop (question : Question) (qname : Str)
    (rs : List NamingResolver) :
    ∀ i, Event.recursor ∉ (resolverLoop question qname i rs).1 := by
  induction rs with
  | nil => intro i; simp [resolverLoop]
  | cons h rs ih =>
    intro i
    simp only [resolverLoop]
    split <;> simp [ih (i + 1)]

theorem consulted_append (a b : List Event) : consulted (a ++ b) = consulted a ++ consulted b := by
  induction a with
  | nil => rfl
  | cons e a ih => cases e <;> simp [consulted, ih]

theorem consulted_map_resolver (l : List Nat) : consulted (l.map Event.resolver) = l := by
  induction l with
  | nil => rfl
  | cons x l ih => simp [consulted, ih]

theorem canDoResolve_iff (qType : Nat) :
    canDoResolve qType = true ↔ qType = TypeA ∨ qType = TypeAAAA ∨ qType = TypeSRV := by
  unfold canDoResolve
  by_cases h1 : qType = TypeA
  · simp [h1]
  · by_cases h2 : qType = TypeAAAA
    · simp [h2]
    · by_cases h3 : qType = TypeSRV <;> simp [h1, h2, h3]

/-- C2: for a request whose first question has qtype A, AAAA or SRV the handler
calls the resolvers in declared order (indices `0, 1, ..`), and when a resolver
is the first one to return a reply `m`, the events are exactly the calls of the
resolvers up to that one followed by the write of `m` framed by
`WriteDnsResponse`: no later resolver and no recursor.  The recursor is called
exactly when every resolver returned nil (all of them having been called, in
order).  For any other qtype no resolver is called and the recursor is. -/
theorem serveDNS_chain_order (d : dnsHandler) (req : Msg) (question : Question)
    (qs : List Question) (hq : req.Question = question :: qs) :
    ((question.Qtype = TypeA ∨ question.Qtype = TypeAAAA ∨ question.Qtype = TypeSRV) →
      (∀ pre h post m, d.resolvers = pre ++ h :: post →
        (∀ p ∈ pre, p.ServeDNS question (d.Preprocess question.Name) = Outcome.none) →
        h.ServeDNS question (d.Preprocess question.Name) = Outcome.reply m →
        (d.ServeDNS req).events =
          (List.range (pre.length + 1)).map Event.resolver ++
            [Event.write (WriteDnsResponse d.lib d.protocol req m)]) ∧
      (recursed (d.ServeDNS req).events = true ↔
        ∀ h ∈ d.resolvers, h.ServeDNS question (d.Preprocess question.Name) = Outcome.none) ∧
      (recursed (d.ServeDNS req).events = true →
        consulted (d.ServeDNS req).events = List.range d.resolvers.length)) ∧
    (¬ (question.Qtype = TypeA ∨ question.Qtype = TypeAAAA ∨ question.Qtype = TypeSRV) →
      consulted (d.ServeDNS req).events = [] ∧ recursed (d.ServeDNS req).events = true) := by
  constructor
  · intro hsup
    have hc : canDoResolve question.Qtype = true := (canDoResolve_iff _).2 hsup
    refine ⟨?_, ?_, ?_⟩
    · intro pre h post m hres hpre hh
      have hl := resolverLoop_first_reply question (d.Preprocess question.Name) h post m hh pre 0 hpre
      simp [dnsHandler.ServeDNS, hq, hc, hres, hl, List.range_eq_range']
    · have hnot := recursor_not_mem_resolverLoop question (d.Preprocess question.Name) d.resolvers 0
      rw [← resolverLoop_none_iff question (d.Preprocess question.Name) d.resolvers 0]
      unfold dnsHandler.ServeDNS
      simp only [hq, hc, if_true]
      cases hch : (resolverLoop question (d.Preprocess question.Name) 0 d.resolvers).2 with
      | reply resp => simp [recursed, hnot]
      | panic => simp [recursed, hnot]
      | none =>
        simp only
        rcases hr : d.recurse req with ⟨o, rot⟩
        cases o <;> simp [recursed]
    · have hnot := recursor_not_mem_resolverLoop question (d.Preprocess question.Name) d.resolvers 0
      unfold dnsHandler.ServeDNS
      simp only [hq, hc, if_true]
      cases hch : (resolverLoop question (d.Preprocess question.Name) 0 d.resolvers).2 with
      | reply resp => simp [recursed, hnot]
      | panic => simp [recursed, hnot]
      | none =>
        have hall := (resolverLoop_none_iff question (d.Preprocess question.Name) d.resolvers 0).1 hch
        have hl := resolverLoop_all_none question (d.Preprocess question.Name) d.resolvers 0 hall
        simp only
        rcases hr : d.recurse req with ⟨o, rot⟩
        cases o <;>
          simp [recursed, hl, consulted_append, consulted_map_resolver, consulted,
            List.range_eq_range']
  · intro hns
    have hc : canDoResolve question.Qtype = false := by
      cases h : canDoResolve question.Qtype with
      | false => rfl
      | true => exact absurd ((canDoResolve_iff _).1 h) hns
    unfold dnsHandler.ServeDNS
    simp only [hq, hc]
    rcases hr : d.recurse req with ⟨o, rot⟩
    cases o <;> simp [recursed, consulted]

/-- C2 (witness): with the resolvers nil, reply, nil the handler calls the first
two and writes the reply of the second. -/
theorem serveDNS_chain_order_witness :
    (chainHandler.ServeDNS ordersRequest).events =
      (List.range 2).map Event.resolver ++
        [Event.write (WriteDnsResponse chainHandler.lib chainHandler.protocol ordersRequest
          sampleReply)] :=
  ((serveDNS_chain_order chainHandler ordersRequest ordersQuestion [] rfl).1 (Or.inl rfl)).1
    [nilResolver] replyResolver [nilResolver] sampleReply rfl
    (fun p hp => by rw [List.mem_singleton.1 hp]; rfl) rfl

/-! ## C3, C4: what `WriteDnsResponse` and `WriteDnsCode` hand to the writer -/

theorem setEDNS_header (request response : Msg) (g : Bool) :
    (setEDNS request response g).Rcode = response.Rcode ∧
    (setEDNS request response g).Authoritative = response.Authoritative ∧
    (setEDNS request response g).RecursionAvailable = response.RecursionAvailable ∧
    (setEDNS request response g).RecursionDesired = response.RecursionDesired := by
  unfold setEDNS
  split <;> simp

theorem writeDnsResponse_header (lib : Msg → Nat → Truncation) (protocol : Str) (r msg : Msg) :
    (WriteDnsResponse lib protocol r msg).Rcode = RcodeSuccess ∧
    (WriteDnsResponse lib protocol r msg).Authoritative = true ∧
    (WriteDnsResponse lib protocol r msg).RecursionAvailable = true := by
  unfold WriteDnsResponse
  simp only
  split
  · simp only [setEDNS_header]
    simp only [Msg.Truncate, Msg.SetReply]
    split <;> split <;> simp
  · simp only [Msg.Truncate, Msg.SetReply]
    split <;> split <;> simp

theorem writeDnsCode_header (lib : Msg → Nat → Truncation) (protocol : Str) (r : Msg)
    (code : Nat) :
    (WriteDnsCode lib protocol r code).Rcode = code ∧
    (WriteDnsCode lib protocol r code).Authoritative = false ∧
    (WriteDnsCode lib protocol r code).RecursionAvailable = true ∧
    (WriteDnsCode lib protocol r code).RecursionDesired = true := by
  unfold WriteDnsCode
  simp only
  split
  · simp only [setEDNS_header]
    simp only [Msg.Truncate, Msg.SetReply]
    split <;> split <;> simp
  · simp only [Msg.Truncate, Msg.SetReply]
    split <;> split <;> simp

/-- C3 (the code at the failing input): the recursor returns the upstream
response with rcode NXDOMAIN, and the one message the handler writes for it
carries rcode NOERROR. -/
theorem nxdomain_written_as_noerror :
    (recursorHandler.recurse ordersRequest).1 = Outcome.reply nxdomainReply ∧
    nxdomainReply.Rcode = RcodeNameError ∧
    (written (recursorHandler.ServeDNS ordersRequest).events).map (fun m => m.Rcode) =
      [RcodeSuccess] := by
  decide

/-- C4 (amended): every message the handler writes has `RecursionAvailable`
set; a message framed by `WriteDnsResponse` (the reply of a resolver or of the
recursor) also has `Authoritative` set, while a message framed by `WriteDnsCode`
(REFUSED, SERVFAIL) has `RecursionDesired` set and `Authoritative` clear. -/
theorem serveDNS_written_flags (d : dnsHandler) (req : Msg) :
    ∀ m ∈ written (d.ServeDNS req).events,
      m.RecursionAvailable = true ∧
      ((∃ resp, m = WriteDnsResponse d.lib d.protocol req resp ∧ m.Authoritative = true) ∨
       (∃ code, (code = RcodeRefused ∨ code = RcodeServerFailure) ∧
          m = WriteDnsCode d.lib d.protocol req code ∧
          m.Authoritative = false ∧ m.RecursionDesired = true)) := by
  have hresp : ∀ resp, ∀ m ∈ [WriteDnsResponse d.lib d.protocol req resp],
      m.RecursionAvailable = true ∧
      ((∃ resp, m = WriteDnsResponse d.lib d.protocol req resp ∧ m.Authoritative = true) ∨
       (∃ code, (code = RcodeRefused ∨ code = RcodeServerFailure) ∧
          m = WriteDnsCode d.lib d.protocol req code ∧
          m.Authoritative = false ∧ m.RecursionDesired = true)) := by
    intro resp m hm
    rw [List.mem_singleton.1 hm]
    have h := writeDnsResponse_header d.lib d.protocol req resp
    exact ⟨h.2.2, Or.inl ⟨resp, rfl, h.2.1⟩⟩
  have hcode : ∀ code, (code = RcodeRefused ∨ code = RcodeServerFailure) →
      ∀ m ∈ [WriteDnsCode d.lib d.protocol req code],
      m.RecursionAvailable = true ∧
      ((∃ resp, m = WriteDnsResponse d.lib d.protocol req resp ∧ m.Authoritative = true) ∨
       (∃ code, (code = RcodeRefused ∨ code = RcodeServerFailure) ∧
          m = WriteDnsCode d.lib d.protocol req code ∧
          m.Authoritative = false ∧ m.RecursionDesired = true)) := by
    intro code hcode m hm
    rw [List.mem_singleton.1 hm]
    have h := writeDnsCode_header d.lib d.protocol req code
    exact ⟨h.2.2.1, Or.inr ⟨code, hcode, rfl, h.2.1, h.2.2.2⟩⟩
  unfold dnsHandler.ServeDNS
  cases hq : req.Question with
  | nil => simpa [written] using hcode RcodeRefused (Or.inl rfl)
  | cons question qs =>
    simp only
    cases hch : (if canDoResolve question.Qtype = true then
        resolverLoop question (d.Preprocess question.Name) 0 d.resolvers
      else ([], Outcome.none)).2 with
    | reply resp =>
      have h1 : written (if canDoResolve question.Qtype = true then
        resolverLoop question (d.Preprocess question.Name) 0 d.resolvers
          else ([], Outcome.none)).1 = [] := by
        split
        · exact written_resolverLoop _ _ _ _
        · rfl
      simpa [written_append, h1, written] using hresp resp
    | panic =>
      have h1 : written (if canDoResolve question.Qtype = true then
        resolverLoop question (d.Preprocess question.Name) 0 d.resolvers
          else ([], Outcome.none)).1 = [] := by
        split
        · exact written_resolverLoop _ _ _ _
        · rfl
      simp [h1]
    | none =>
      have h1 : written (if canDoResolve question.Qtype = true then
        resolverLoop question (d.Preprocess question.Name) 0 d.resolvers
          else ([], Outcome.none)).1 = [] := by
        split
        · exact written_resolverLoop _ _ _ _
        · rfl
      simp only
      rcases hr : d.recurse req with ⟨o, rot⟩
      cases o with
      | reply resp => simpa [written_append, h1, written] using hresp resp
      | panic => simp [written_append, h1, written]
      | none => simpa [written_append, h1, written] using hcode RcodeServerFailure (Or.inr rfl)

/-- C4 (witness): the reply written by `chainHandler`. -/
theorem serveDNS_written_flags_witness :
    (WriteDnsResponse noTruncation UdpProtocol ordersRequest sampleReply).RecursionAvailable = true ∧
    ((∃ resp, WriteDnsResponse noTruncation UdpProtocol ordersRequest sampleReply =
        WriteDnsResponse chainHandler.lib chainHandler.protocol ordersRequest resp ∧
        (WriteDnsResponse noTruncation UdpProtocol ordersRequest sampleReply).Authoritative = true) ∨
     (∃ code, (code = RcodeRefused ∨ code = RcodeServerFailure) ∧
        WriteDnsResponse noTruncation UdpProtocol ordersRequest sampleReply =
          WriteDnsCode chainHandler.lib chainHandler.protocol ordersRequest code ∧
        (WriteDnsResponse noTruncation UdpProtocol ordersRequest sampleReply).Authoritative = false ∧
        (WriteDnsResponse noTruncation UdpProtocol ordersRequest sampleReply).RecursionDesired = true)) :=
  serveDNS_written_flags chainHandler ordersRequest
    (WriteDnsResponse noTruncation UdpProtocol ordersRequest sampleReply) (by decide)

/-- C4 (counterexample): the discovery resolver finds no instance and there is
no recursor, so the handler writes SERVFAIL; that message is not authoritative. -/
theorem serveDNS_written_flags_counterexample :
    ¬ (∀ m ∈ written (sampleHandler.ServeDNS ordersRequest).events,
        m.Authoritative = true ∧ m.RecursionAvailable = true) := by
  decide

/-! ## C5, C6, C7: name parsing -/

theorem hasSuffix_iff (s t : Str) : HasSuffix s t = true ↔ t <:+ s := by
  unfold HasSuffix
  exact List.isSuffixOf_iff_suffix

theorem hasSuffix_dot (s : Str) : HasSuffix s DotSymbol = true ↔ s.getLast? = some '.' := by
  rw [hasSuffix_iff]
  constructor
  · rintro ⟨t, rfl⟩
    simp [DotSymbol]
  · intro h
    obtain ⟨t, rfl⟩ : ∃ t, s = t ++ ['.'] := by
      rcases List.eq_nil_or_concat s with rfl | ⟨t, c, rfl⟩
      · simp at h
      · simp at h
        exact ⟨t, by simp [h]⟩
    exact ⟨t, rfl⟩

theorem addQuota_eq (s : Str) : AddQuota s = dotTerminated s := by
  unfold AddQuota dotTerminated
  by_cases h : s.getLast? = some '.'
  · simp [h, (hasSuffix_dot s).2 h]
  · have : HasSuffix s DotSymbol = false := by
      cases hh : HasSuffix s DotSymbol with
      | false => rfl
      | true => exact absurd ((hasSuffix_dot s).1 hh) h
    rw [this]
    simp [h, DotSymbol]

theorem removeQuota_eq (s : Str) : RemoveQuota s = withoutTrailingDot s := by
  unfold RemoveQuota withoutTrailingDot
  by_cases h : s.getLast? = some '.'
  · simp [h, (hasSuffix_dot s).2 h, List.dropLast_eq_take]
  · have : HasSuffix s DotSymbol = false := by
      cases hh : HasSuffix s DotSymbol with
      | false => rfl
      | true => exact absurd ((hasSuffix_dot s).1 hh) h
    simp [h, this]

theorem lastIndex_neg_iff (c : Char) (s : Str) : LastIndex s c < 0 ↔ c ∉ s := by
  induction s with
  | nil => simp [LastIndex]
  | cons x xs ih =>
    simp only [LastIndex]
    by_cases h0 : 0 ≤ LastIndex xs c
    · have hmem : c ∈ xs := by
        by_contra hc
        have := ih.2 hc
        omega
      simp [h0, hmem]
      omega
    · have hnm : c ∉ xs := ih.1 (by omega)
      by_cases hx : x = c
      · simp [h0, hx]
      · simp [h0, hx, hnm]
        exact fun h => hx h.symm

theorem lastIndex_ge (c : Char) (s : Str) : -1 ≤ LastIndex s c := by
  induction s with
  | nil => simp [LastIndex]
  | cons x xs ih =>
    simp only [LastIndex]
    split
    · omega
    · split <;> omega

theorem lastIndex_split (c : Char) (b : Str) (hb : c ∉ b) :
    ∀ a : Str, LastIndex (a ++ c :: b) c = a.length := by
  have hneg : LastIndex b c < 0 := (lastIndex_neg_iff c b).2 hb
  intro a
  induction a with
  | nil =>
    simp only [List.nil_append, LastIndex, List.length_nil]
    simp [show ¬ (0 ≤ LastIndex b c) by omega]
  | cons x a ih =>
    simp only [List.cons_append, LastIndex, ih, List.length_cons]
    simp
    omega

/-- The key `ParseQname` builds from the remainder `r` of the qname. -/
theorem parseQname_of_remainder (lower : Char → Char) (SN qname suffix currentNs rem : Str)
    (hrem : if suffix = [] then rem = qname else dotTerminated qname = rem ++ dotTerminated suffix) :
    ('.' ∉ withoutTrailingDot rem →
      ParseQname lower SN qname suffix currentNs =
        some { Namespace := currentNs, Service := withoutTrailingDot rem }) ∧
    (∀ a b, withoutTrailingDot rem = a ++ '.' :: b → '.' ∉ b →
      ParseQname lower SN qname suffix currentNs =
        some { Namespace := rewritePolaris lower SN b, Service := a }) := by
  have hm : MatchSuffix qname suffix = (rem, true) := by
    unfold MatchSuffix
    by_cases hs : suffix = []
    · simp only [hs, if_true] at hrem
      simp [hs, hrem]
    · simp only [hs, if_false] at hrem
      have hlen : suffix.length ≠ 0 := by simpa using hs
      have hsuf : HasSuffix (AddQuota qname) (AddQuota suffix) = true := by
        rw [hasSuffix_iff, addQuota_eq, addQuota_eq, hrem]
        exact List.suffix_append _ _
      simp only [hlen, if_false, hsuf]
      simp [addQuota_eq, hrem]
  constructor
  · intro hno
    have hneg := (lastIndex_neg_iff '.' _).2 hno
    simp [ParseQname, hm, removeQuota_eq, hneg]
  · intro a b hsplit hb
    have hidx : LastIndex (a ++ '.' :: b) '.' = a.length := lastIndex_split '.' b hb a
    have h1 : ((a.length : Int) + 1).toNat = a.length + 1 := by
      exact_mod_cast Int.toNat_natCast (a.length + 1)
    have h2 : ¬ ((a.length : Int) < 0) := by omega
    have h3 : List.drop (a.length + 1) (a ++ '.' :: b) = b := by simp
    simp [ParseQname, hm, removeQuota_eq, hsplit, hidx, h1, h2, h3, rewritePolaris]

theorem parseQname_none_iff (lower : Char → Char) (SN qname suffix currentNs : Str) :
    ParseQname lower SN qname suffix currentNs = none ↔
      (suffix ≠ [] ∧ ¬ (dotTerminated suffix <:+ dotTerminated qname)) := by
  by_cases hs : suffix = []
  · simp only [hs, ne_eq, not_true_eq_false, false_and, iff_false]
    simp only [ParseQname, MatchSuffix, List.length_nil, if_true]
    simp only [Bool.not_true, Bool.false_eq_true, if_false]
    split <;> simp
  · have hlen : suffix.length ≠ 0 := by simpa using hs
    simp only [ne_eq, hs, not_false_eq_true, true_and]
    by_cases hsuf : HasSuffix (AddQuota qname) (AddQuota suffix) = true
    · have h2 := (hasSuffix_iff _ _).1 hsuf
      rw [addQuota_eq, addQuota_eq] at h2
      simp only [h2, not_true_eq_false, iff_false]
      simp only [ParseQname, MatchSuffix, hlen, if_false, hsuf]
      simp only [Bool.not_true, Bool.false_eq_true, if_false]
      split <;> simp
    · have h2 : ¬ (dotTerminated suffix <:+ dotTerminated qname) := by
        intro h
        apply hsuf
        rw [hasSuffix_iff, addQuota_eq, addQuota_eq]
        exact h
      have hf : HasSuffix (AddQuota qname) (AddQuota suffix) = false := by
        simpa using hsuf
      simp only [h2, not_false_eq_true, iff_true]
      simp [ParseQname, MatchSuffix, hlen, hf]

/-- C5: `ParseQname` returns nil exactly when the suffix is non-empty and the
dot-terminated qname does not end with the dot-terminated suffix.  Otherwise
let `rem` be what is left of the dot-terminated qname once that suffix is
removed (the qname itself for an empty suffix) and `r` be `rem` without one
trailing dot: when `r` has no dot the key is `(service = r, namespace =
currentNs)`; when `r = a ++ "." ++ b` with no dot in `b` (the split at the last
dot) the key has service `a` and as namespace `b`, subject to the rewrite of
the alias `polaris`. -/
theorem parseQname_spec (lower : Char → Char) (SN qname suffix currentNs : Str) :
    (ParseQname lower SN qname suffix currentNs = none ↔
      (suffix ≠ [] ∧ ¬ (dotTerminated suffix <:+ dotTerminated qname))) ∧
    (∀ rem,
      (if suffix = [] then rem = qname else dotTerminated qname = rem ++ dotTerminated suffix) →
      ('.' ∉ withoutTrailingDot rem →
        ParseQname lower SN qname suffix currentNs =
          some { Namespace := currentNs, Service := withoutTrailingDot rem }) ∧
      (∀ a b, withoutTrailingDot rem = a ++ '.' :: b → '.' ∉ b →
        ParseQname lower SN qname suffix currentNs =
          some { Namespace := rewritePolaris lower SN b, Service := a })) :=
  ⟨parseQname_none_iff lower SN qname suffix currentNs,
    fun rem hrem => parseQname_of_remainder lower SN qname suffix currentNs rem hrem⟩

/-- C5 (witness): `service.ns.svc.cluster.local.` under the suffix
`svc.cluster.local` parses to the service `service` of the namespace `ns`. -/
theorem parseQname_spec_witness :
    ParseQname asciiLower "Polaris".toList "service.ns.svc.cluster.local.".toList
      "svc.cluster.local".toList "default".toList =
      some { Namespace := "ns".toList, Service := "service".toList } :=
  (((parseQname_spec asciiLower "Polaris".toList "service.ns.svc.cluster.local.".toList
    "svc.cluster.local".toList "default".toList).2 "service.ns.".toList (by decide)).2
    "service".toList "ns".toList (by decide) (by decide)).trans (by decide)

/-- C6 (amended): when the namespace is split from the qname, that is, the
remainder `r` is `a ++ "." ++ b` with no dot in `b`, and `b` equals `polaris`
ignoring case, the key's namespace is `config.ServerNamespace`; when the
remainder has no dot the key's namespace is `currentNs` as it stands. -/
theorem parseQname_polaris_rewrite (lower : Char → Char) (SN qname suffix currentNs rem : Str)
    (hrem : if suffix = [] then rem = qname
      else dotTerminated qname = rem ++ dotTerminated suffix) :
    (∀ a b, withoutTrailingDot rem = a ++ '.' :: b → '.' ∉ b →
      ToLower lower b = SysNamespace →
      ParseQname lower SN qname suffix currentNs = some { Namespace := SN, Service := a }) ∧
    ('.' ∉ withoutTrailingDot rem →
      ParseQname lower SN qname suffix currentNs =
        some { Namespace := currentNs, Service := withoutTrailingDot rem }) := by
  have h := parseQname_of_remainder lower SN qname suffix currentNs rem hrem
  refine ⟨?_, h.1⟩
  intro a b hsplit hb hpol
  rw [h.2 a b hsplit hb]
  simp [rewritePolaris, hpol]

/-- C6 (witness): `service.polaris.svc.cluster.local.` under the suffix
`svc.cluster.local.` yields the server namespace. -/
theorem parseQname_polaris_rewrite_witness :
    ParseQname asciiLower "Polaris".toList "service.polaris.svc.cluster.local.".toList
      "svc.cluster.local.".toList "default".toList =
      some { Namespace := "Polaris".toList, Service := "service".toList } :=
  (parseQname_polaris_rewrite asciiLower "Polaris".toList
    "service.polaris.svc.cluster.local.".toList "svc.cluster.local.".toList "default".toList
    "service.polaris.".toList (by decide)).1 "service".toList "polaris".toList
    (by decide) (by decide) (by decide)

/-- C6 (counterexample): the qname `service` under the empty suffix takes its
namespace from `currentNs`; with `currentNs = polaris` the key keeps the literal
`polaris` and not the server namespace `Polaris`. -/
theorem parseQname_polaris_rewrite_counterexample :
    ∃ key, ParseQname asciiLower "Polaris".toList "service".toList [] "polaris".toList = some key ∧
      ToLower asciiLower "polaris".toList = SysNamespace ∧
      key.Namespace = "polaris".toList ∧ key.Namespace ≠ "Polaris".toList :=
  ⟨{ Namespace := "polaris".toList, Service := "service".toList },
    by decide, by decide, by decide, by decide⟩

theorem getLast?_dotTerminated (rem s : Str) : (rem ++ dotTerminated s).getLast? = some '.' := by
  unfold dotTerminated
  split
  · next h =>
    have hne : s ≠ [] := by
      intro h0
      simp [h0] at h
    rw [List.getLast?_append_of_ne_nil _ hne]
    exact h
  · simp

theorem dotTerminated_of_getLast (s : Str) (h : s.getLast? = some '.') : dotTerminated s = s := by
  simp [dotTerminated, h]

theorem exists_last_split (c : Char) (r : Str) (h : c ∈ r) :
    ∃ a b, r = a ++ c :: b ∧ c ∉ b := by
  induction r with
  | nil => simp at h
  | cons x xs ih =>
    by_cases hx : c ∈ xs
    · obtain ⟨a, b, hab, hb⟩ := ih hx
      exact ⟨x :: a, b, by simp [hab], hb⟩
    · have hxc : x = c := by
        rcases List.mem_cons.1 h with h1 | h1
        · exact h1.symm
        · exact absurd h1 hx
      exact ⟨[], xs, by simp [hxc], hx⟩

/-- C7 (amended): a qname that ends with the dot-terminated suffix always
parses.  With `rem` the qname without that suffix and `r` equal to `rem` for the
empty suffix and to `rem` without one trailing dot otherwise: when `r` has a
dot, service, a dot and the namespace as it was before the rewrite of `polaris`
reassemble to `r`; when `r` has no dot the service is `r` and the namespace is
`currentNs`. -/
theorem parseQname_reassemble (lower : Char → Char) (SN qname suffix currentNs rem : Str)
    (hq : qname = rem ++ dotTerminated suffix) :
    ∃ key, ParseQname lower SN qname suffix currentNs = some key ∧
      ('.' ∈ keyRemainder suffix rem →
        ∃ nsBefore, '.' ∉ nsBefore ∧ key.Namespace = rewritePolaris lower SN nsBefore ∧
          key.Service ++ ".".toList ++ nsBefore = keyRemainder suffix rem) ∧
      ('.' ∉ keyRemainder suffix rem →
        key.Service = keyRemainder suffix rem ∧ key.Namespace = currentNs) := by
  have hlast : qname.getLast? = some '.' := by rw [hq]; exact getLast?_dotTerminated rem suffix
  -- the remainder in the sense of `parseQname_of_remainder`
  obtain ⟨rem', hrem', hr⟩ : ∃ rem',
      (if suffix = [] then rem' = qname
        else dotTerminated qname = rem' ++ dotTerminated suffix) ∧
      withoutTrailingDot rem' = keyRemainder suffix rem := by
    by_cases hs : suffix = []
    · refine ⟨qname, by simp [hs], ?_⟩
      have hq' : qname = rem ++ ['.'] := by simpa [hs, dotTerminated] using hq
      simp [keyRemainder, hs, withoutTrailingDot, hq']
    · refine ⟨rem, ?_, by simp [keyRemainder, hs]⟩
      simp only [hs, if_false]
      rw [dotTerminated_of_getLast qname hlast]
      exact hq
  have h := parseQname_of_remainder lower SN qname suffix currentNs rem' hrem'
  rw [hr] at h
  by_cases hdot : '.' ∈ keyRemainder suffix rem
  · obtain ⟨a, b, hab, hb⟩ := exists_last_split '.' _ hdot
    refine ⟨_, h.2 a b hab hb, ?_, fun hno => absurd hdot hno⟩
    intro _
    exact ⟨b, hb, rfl, by simp [hab]⟩
  · refine ⟨_, h.1 hdot, fun hyes => absurd hyes hdot, fun _ => ⟨rfl, rfl⟩⟩

/-- C7 (witness): `service.ns.svc.cluster.local.` under the suffix
`svc.cluster.local.`. -/
theorem parseQname_reassemble_witness :
    ∃ key, ParseQname asciiLower "Polaris".toList "service.ns.svc.cluster.local.".toList
        "svc.cluster.local.".toList "default".toList = some key ∧
      ('.' ∈ keyRemainder "svc.cluster.local.".toList "service.ns.".toList →
        ∃ nsBefore, '.' ∉ nsBefore ∧
          key.Namespace = rewritePolaris asciiLower "Polaris".toList nsBefore ∧
          key.Service ++ ".".toList ++ nsBefore =
            keyRemainder "svc.cluster.local.".toList "service.ns.".toList) ∧
      ('.' ∉ keyRemainder "svc.cluster.local.".toList "service.ns.".toList →
        key.Service = keyRemainder "svc.cluster.local.".toList "service.ns.".toList ∧
          key.Namespace = "default".toList) :=
  parseQname_reassemble asciiLower "Polaris".toList "service.ns.svc.cluster.local.".toList
    "svc.cluster.local.".toList "default".toList "service.ns.".toList (by decide)

/-- C7 (counterexample): the qnames `service.svc.cluster.local.` and
`service.ns.svc.cluster.local.` end with the suffix `svc.cluster.local.`;
for the first the key is `(default, service)`, and `service.default` is not
`service.`; for the second the key is `(ns, service)`, and `service.ns` is not
`service.ns.`, the qname with the suffix removed. -/
theorem parseQname_reassemble_counterexample :
    ("svc.cluster.local.".toList <:+ "service.svc.cluster.local.".toList ∧
      ¬ ∃ key, ParseQname asciiLower "Polaris".toList "service.svc.cluster.local.".toList
          "svc.cluster.local.".toList "default".toList = some key ∧
        key.Service ++ ".".toList ++ key.Namespace =
          "service.svc.cluster.local.".toList.take
            ("service.svc.cluster.local.".toList.length - "svc.cluster.local.".toList.length)) ∧
    ("svc.cluster.local.".toList <:+ "service.ns.svc.cluster.local.".toList ∧
      ¬ ∃ key, ParseQname asciiLower "Polaris".toList "service.ns.svc.cluster.local.".toList
          "svc.cluster.local.".toList "default".toList = some key ∧
        key.Service ++ ".".toList ++ key.Namespace =
          "service.ns.svc.cluster.local.".toList.take
            ("service.ns.svc.cluster.local.".toList.length -
              "svc.cluster.local.".toList.length)) := by
  have h1 : ParseQname asciiLower "Polaris".toList "service.svc.cluster.local.".toList
      "svc.cluster.local.".toList "default".toList =
      some { Namespace := "default".toList, Service := "service".toList } := by decide
  have h2 : ParseQname asciiLower "Polaris".toList "service.ns.svc.cluster.local.".toList
      "svc.cluster.local.".toList "default".toList =
      some { Namespace := "ns".toList, Service := "service".toList } := by decide
  refine ⟨⟨by decide, ?_⟩, ⟨by decide, ?_⟩⟩
  · rintro ⟨key, hk, hre⟩
    rw [h1] at hk
    cases hk
    revert hre
    decide
  · rintro ⟨key, hk, hre⟩
    rw [h2] at hk
    cases hk
    revert hre
    decide

/-! ## C8, C9, C10: the discovery resolver -/

theorem fromHexChar_hextable (n : Nat) (h : n < 16) : fromHexChar (hextable n) = some n := by
  interval_cases n <;> decide

theorem decode_encode (ip : List Nat) (hbytes : ∀ b ∈ ip, b < 256) :
    DecodeString (EncodeToString ip) = some ip := by
  induction ip with
  | nil => rfl
  | cons v ip ih =>
    have hv : v < 256 := hbytes v (by simp)
    have hrest : DecodeString (EncodeToString ip) = some ip :=
      ih (fun b hb => hbytes b (by simp [hb]))
    have h1 : fromHexChar (hextable (v / 16)) = some (v / 16) :=
      fromHexChar_hextable _ (by omega)
    have h2 : fromHexChar (hextable (v % 16)) = some (v % 16) :=
      fromHexChar_hextable _ (by omega)
    have hcons : EncodeToString (v :: ip) =
        hextable (v / 16) :: hextable (v % 16) :: EncodeToString ip := by
      simp [EncodeToString]
    rw [hcons]
    simp only [DecodeString, h1, h2, hrest, Option.map_some']
    congr 2
    omega

theorem encodeToString_append (p q : List Nat) :
    EncodeToString (p ++ q) = EncodeToString p ++ EncodeToString q := by
  simp [EncodeToString]

theorem encodeToString_length (ip : List Nat) : (EncodeToString ip).length = 2 * ip.length := by
  induction ip with
  | nil => rfl
  | cons v ip ih =>
    have hcons : EncodeToString (v :: ip) =
        hextable (v / 16) :: hextable (v % 16) :: EncodeToString ip := by
      simp [EncodeToString]
    rw [hcons]
    simp [ih]
    omega

theorem hextable_plain (n : Nat) : plainChar (hextable n) := by
  unfold plainChar hextable
  by_cases h : n < 16
  · interval_cases n <;> decide
  · have : "0123456789abcdef".toList.getD n '0' = '0' := by
      rw [List.getD_eq_getElem?_getD, List.getElem?_eq_none (by simp; omega)]
      rfl
    rw [this]
    decide

theorem encodeToString_plain (ip : List Nat) : ∀ c ∈ EncodeToString ip, plainChar c := by
  intro c hc
  simp only [EncodeToString, List.mem_flatMap] at hc
  obtain ⟨v, _, hv⟩ := hc
  simp at hv
  rcases hv with rfl | rfl <;> exact hextable_plain _

theorem splitLabels_plain (rest : Str) (c : Char) :
    ∀ (l cur : Str), (∀ x ∈ l, plainChar x) →
      splitLabels (l ++ '.' :: c :: rest) cur false =
        (cur ++ l) :: splitLabels (c :: rest) [] false := by
  intro l
  induction l with
  | nil => intro cur _; simp [splitLabels]
  | cons x l ih =>
    intro cur hl
    have hx : plainChar x := hl x (by simp)
    have hl' : ∀ y ∈ l, plainChar y := fun y hy => hl y (by simp [hy])
    have hstep : splitLabels (x :: (l ++ '.' :: c :: rest)) cur false =
        splitLabels (l ++ '.' :: c :: rest) (cur ++ [x]) false := by
      cases l with
      | nil => simp [splitLabels, hx.1, hx.2]
      | cons y l => simp [splitLabels, hx.1, hx.2]
    rw [List.cons_append, hstep, ih (cur ++ [x]) hl']
    simp

theorem splitDomainName_addr (hex : Str) (hhex : ∀ x ∈ hex, plainChar x) (c : Char) (rest : Str) :
    SplitDomainName (hex ++ "._addr.".toList ++ c :: rest) =
      hex :: addrLabel :: splitLabels (c :: rest) [] false := by
  have hshape : hex ++ "._addr.".toList ++ c :: rest =
      hex ++ '.' :: '_' :: ("addr".toList ++ '.' :: c :: rest) := by
    simp
  have hshape2 : '_' :: ("addr".toList ++ '.' :: c :: rest) = addrLabel ++ '.' :: c :: rest := by
    simp [addrLabel]
  have haddr : ∀ x ∈ addrLabel, plainChar x := by
    unfold plainChar
    decide
  have hne : ¬ (hex ++ '.' :: '_' :: ("addr".toList ++ '.' :: c :: rest) = [] ∨
      hex ++ '.' :: '_' :: ("addr".toList ++ '.' :: c :: rest) = ".".toList) := by
    intro h
    rcases h with h | h
    · simp at h
    · have := congrArg List.length h
      simp at this
      omega
  rw [hshape]
  unfold SplitDomainName
  rw [if_neg hne, splitLabels_plain _ _ hex [] hhex, hshape2,
    splitLabels_plain _ _ addrLabel [] haddr]
  simp

theorem fqdn_eq (s : Str) : Fqdn s = s ∨ Fqdn s = s ++ ".".toList := by
  unfold Fqdn
  split
  · exact Or.inl rfl
  · exact Or.inr rfl

theorem encodeIPAsFqdn_shape (ip : List Nat) (svcKey : ServiceKey) :
    ∃ c rest, encodeIPAsFqdn ip svcKey = EncodeToString ip ++ "._addr.".toList ++ c :: rest := by
  unfold encodeIPAsFqdn
  simp only
  rcases fqdn_eq (EncodeToString ip ++ "._addr.".toList ++ svcKey.Service ++ ".".toList ++
      svcKey.Namespace) with h | h
  · rw [h]
    cases hs : svcKey.Service with
    | nil => exact ⟨'.', svcKey.Namespace, by simp⟩
    | cons x xs => exact ⟨x, xs ++ ".".toList ++ svcKey.Namespace, by simp⟩
  · rw [h]
    cases hs : svcKey.Service with
    | nil => exact ⟨'.', svcKey.Namespace ++ ".".toList, by simp⟩
    | cons x xs => exact ⟨x, xs ++ ".".toList ++ svcKey.Namespace ++ ".".toList, by simp⟩

theorem addrLoop_found_aux (r : resolverDiscovery) (question : Question) (labels : List Str)
    (prev : Str) (post : List Str) (hprev : prev ≠ addrLabel) :
    ∀ (pre done : List Str), labels = done ++ (pre ++ prev :: addrLabel :: post) →
      addrLabel ∉ pre →
      r.addrLoop question labels done.length (pre ++ prev :: addrLabel :: post) =
        match DecodeString prev with
        | Option.none => some Outcome.none
        | some ret =>
          some (Outcome.reply { Answer := [r.markRecord question ret Option.none] }) := by
  intro pre
  induction pre with
  | nil =>
    intro done hl _
    have hget : labels[done.length]? = some prev := by
      rw [hl, List.nil_append, List.getElem?_append_right (Nat.le_refl _)]
      simp
    simp only [List.nil_append, resolverDiscovery.addrLoop, if_neg hprev, if_true]
    simp only [Nat.add_sub_cancel, hget, Nat.succ_ne_zero, if_false]
  | cons p pre ih =>
    intro done hl hpre
    have hp : p ≠ addrLabel := fun h => hpre (by simp [h])
    have hpre' : addrLabel ∉ pre := fun h => hpre (by simp [h])
    have := ih (done ++ [p]) (by simp [hl]) hpre'
    simp only [List.length_append, List.length_singleton] at this
    simp only [List.cons_append, resolverDiscovery.addrLoop, if_neg hp]
    exact this

theorem serveDNS_addr_found (r : resolverDiscovery) (question : Question) (qname : Str)
    (pre post : List Str) (prev : Str)
    (hlabels : SplitDomainName qname = pre ++ prev :: addrLabel :: post)
    (hfirst : addrLabel ∉ pre) (hprev : prev ≠ addrLabel) :
    r.ServeDNS question qname =
      match DecodeString prev with
      | Option.none => { outcome := Outcome.none, lookups := [] }
      | some ret =>
        { outcome := Outcome.reply { Answer := [r.markRecord question ret Option.none] },
          lookups := [] } := by
  have h := addrLoop_found_aux r question (SplitDomainName qname) prev post hprev pre []
    (by simpa using hlabels) hfirst
  unfold resolverDiscovery.ServeDNS
  simp only
  rw [← hlabels] at h
  simp only [List.length_nil] at h
  rw [h]
  cases DecodeString prev <;> rfl

/-- C8: on a question of type A whose name is `encodeIPAsFqdn ip svcKey`,
`resolverDiscovery.ServeDNS` sends no request to the registry and returns a
message whose only answer is an A record with address `ip`.  This holds for an
`ip` of any length, in particular of 4 or 16 bytes. -/
theorem serveDNS_encodeIPAsFqdn (r : resolverDiscovery) (ip : List Nat) (svcKey : ServiceKey)
    (question : Question) (hbytes : ∀ b ∈ ip, b < 256)
    (hname : question.Name = encodeIPAsFqdn ip svcKey) (hA : question.Qtype = TypeA) :
    r.ServeDNS question question.Name =
      { outcome := Outcome.reply { Answer := [some (RR.A { Name := question.Name, Rrtype := TypeA, Class := ClassINET, Ttl := (r.dnsTtl % 4294967296).toNat } ip)] },
        lookups := [] } := by
  obtain ⟨c, rest, hshape⟩ := encodeIPAsFqdn_shape ip svcKey
  have hlabels : SplitDomainName question.Name =
      [] ++ EncodeToString ip :: addrLabel :: splitLabels (c :: rest) [] false := by
    rw [hname, hshape, splitDomainName_addr _ (encodeToString_plain ip)]
    rfl
  have hprev : EncodeToString ip ≠ addrLabel := by
    intro h
    have hl := congrArg List.length h
    rw [encodeToString_length] at hl
    have : addrLabel.length = 5 := by decide
    omega
  rw [serveDNS_addr_found r question question.Name [] _ _ hlabels (by simp) hprev,
    decode_encode ip hbytes]
  simp [resolverDiscovery.markRecord, hA]

/-- C8 (witness): the address `127.0.0.1` encoded for the service `foo` of the
namespace `prod`. -/
theorem serveDNS_encodeIPAsFqdn_witness :
    sampleDiscovery.ServeDNS loopbackQuestion loopbackQuestion.Name =
      { outcome := Outcome.reply { Answer := [some (RR.A { Name := loopbackQuestion.Name, Rrtype := TypeA, Class := ClassINET, Ttl := (sampleDiscovery.dnsTtl % 4294967296).toNat } [127, 0, 0, 1])] },
        lookups := [] } :=
  serveDNS_encodeIPAsFqdn sampleDiscovery [127, 0, 0, 1]
    { Namespace := "prod".toList, Service := "foo".toList } loopbackQuestion
    (by decide) (by decide) (by decide)

/-- C9 (amended): when the first label `_addr` of the qname stands right after a
label that `hex.DecodeString` accepts, `resolverDiscovery.ServeDNS` sends no
request to the registry and returns a message with one answer entry: for qtype
A an A record and for qtype AAAA an AAAA record, each holding the decoded bytes;
for qtype SRV the nil record. -/
theorem serveDNS_addr_label (r : resolverDiscovery) (question : Question) (qname : Str)
    (pre post : List Str) (prev : Str) (bytes : List Nat)
    (hlabels : SplitDomainName qname = pre ++ prev :: addrLabel :: post)
    (hfirst : addrLabel ∉ pre) (hdec : DecodeString prev = some bytes) :
    (r.ServeDNS question qname).lookups = [] ∧
    (question.Qtype = TypeA →
      (r.ServeDNS question qname).outcome =
        Outcome.reply { Answer := [some (RR.A { Name := question.Name, Rrtype := TypeA, Class := ClassINET, Ttl := (r.dnsTtl % 4294967296).toNat } bytes)] }) ∧
    (question.Qtype = TypeAAAA →
      (r.ServeDNS question qname).outcome =
        Outcome.reply { Answer := [some (RR.AAAA { Name := question.Name, Rrtype := TypeAAAA, Class := ClassINET, Ttl := (r.dnsTtl % 4294967296).toNat } bytes)] }) ∧
    (question.Qtype = TypeSRV →
      (r.ServeDNS question qname).outcome = Outcome.reply { Answer := [Option.none] }) := by
  have hprev : prev ≠ addrLabel := by
    intro h
    rw [h] at hdec
    have hnone : DecodeString addrLabel = Option.none := by decide
    rw [hnone] at hdec
    cases hdec
  rw [serveDNS_addr_found r question qname pre post prev hlabels hfirst hprev, hdec]
  refine ⟨rfl, ?_, ?_, ?_⟩
  · intro hq
    simp [resolverDiscovery.markRecord, hq]
  · intro hq
    simp [resolverDiscovery.markRecord, hq, TypeAAAA, TypeA, TypeSRV]
  · intro hq
    simp [resolverDiscovery.markRecord, hq, TypeSRV, TypeA]

/-- C9 (witness): the qname `7f000001._addr.foo.prod.` asked with qtype A. -/
theorem serveDNS_addr_label_witness :
    (sampleDiscovery.ServeDNS loopbackQuestion loopbackQuestion.Name).lookups = [] ∧
    (sampleDiscovery.ServeDNS loopbackQuestion loopbackQuestion.Name).outcome =
      Outcome.reply { Answer := [some (RR.A { Name := loopbackQuestion.Name, Rrtype := TypeA, Class := ClassINET, Ttl := (sampleDiscovery.dnsTtl % 4294967296).toNat } [127, 0, 0, 1])] } :=
  have h := serveDNS_addr_label sampleDiscovery loopbackQuestion loopbackQuestion.Name []
    ["foo".toList, "prod".toList] "7f000001".toList [127, 0, 0, 1] (by decide) (by decide)
    (by decide)
  ⟨h.1, h.2.1 rfl⟩

/-- C9 (counterexample): the qname `0a000005._addr.orders.prod.` has the label
`_addr` right after the valid hex label `0a000005`; asked with qtype SRV, the
message returned holds the nil record and no SRV record. -/
theorem serveDNS_addr_label_counterexample :
    SplitDomainName addrSrvQuestion.Name =
      ["0a000005".toList, addrLabel, "orders".toList, "prod".toList] ∧
    DecodeString "0a000005".toList = some [10, 0, 0, 5] ∧
    addrSrvQuestion.Qtype = TypeSRV ∧
    ¬ ∃ m rr, (sampleDiscovery.ServeDNS addrSrvQuestion addrSrvQuestion.Name).outcome =
        Outcome.reply m ∧ m.Answer = [some rr] := by
  refine ⟨by decide, by decide, rfl, ?_⟩
  have h : (sampleDiscovery.ServeDNS addrSrvQuestion addrSrvQuestion.Name).outcome =
      Outcome.reply { Answer := [Option.none] } := by decide
  rintro ⟨m, rr, hm, hans⟩
  rw [h] at hm
  cases hm
  simp at hans

set_option maxRecDepth 100000 in
theorem parseOctet_decimal :
    ∀ a, a < 256 → parseOctet (decimal a) = some a ∧
      ∀ x ∈ decimal a, ¬ (x = '.' ∨ x = ':') := by
  decide

theorem find?_sep (rest : Str) :
    ∀ l : Str, (∀ x ∈ l, ¬ (x = '.' ∨ x = ':')) →
      (l ++ '.' :: rest).find? (fun c => c = '.' ∨ c = ':') = some '.' := by
  intro l
  induction l with
  | nil => intro _; simp
  | cons x l ih =>
    intro hl
    have hx := hl x (by simp)
    have := ih (fun y hy => hl y (by simp [hy]))
    simp only [List.cons_append, List.find?_cons]
    simp only [hx, decide_False]
    exact this

theorem splitAt_ne_nil (sep : Char) (s : Str) : splitAt sep s ≠ [] := by
  induction s with
  | nil => simp [splitAt]
  | cons c s ih =>
    simp only [splitAt]
    split
    · simp
    · split <;> simp

theorem splitAt_no_sep (sep : Char) (l : Str) (hl : sep ∉ l) : splitAt sep l = [l] := by
  induction l with
  | nil => rfl
  | cons x l ih =>
    have hx : x ≠ sep := fun h => hl (by simp [h])
    simp [splitAt, ih (fun h => hl (by simp [h])), hx]

theorem splitAt_sep (sep : Char) (rest : Str) :
    ∀ l : Str, sep ∉ l → splitAt sep (l ++ sep :: rest) = l :: splitAt sep rest := by
  intro l
  induction l with
  | nil =>
    intro _
    simp only [List.nil_append, splitAt]
    split
    · next h => exact absurd h (splitAt_ne_nil sep rest)
    · next hd tl h => simp [h]
  | cons x l ih =>
    intro hl
    have hx : x ≠ sep := fun h => hl (by simp [h])
    simp [splitAt, ih (fun h => hl (by simp [h])), hx]

theorem parseIP_dottedQuad (parseIPv6 : Str → List Nat) (a b c d : Nat)
    (ha : a < 256) (hb : b < 256) (hc : c < 256) (hd : d < 256) :
    ParseIP parseIPv6 (dottedQuad a b c d) = IPv4 a b c d := by
  have h1 := parseOctet_decimal a ha
  have h2 := parseOctet_decimal b hb
  have h3 := parseOctet_decimal c hc
  have h4 := parseOctet_decimal d hd
  have nd : ∀ n, (∀ x ∈ decimal n, ¬ (x = '.' ∨ x = ':')) → '.' ∉ decimal n :=
    fun n h hmem => h '.' hmem (Or.inl rfl)
  have hfind : (dottedQuad a b c d).find? (fun c => c = '.' ∨ c = ':') = some '.' :=
    find?_sep _ _ h1.2
  have hsplit : splitAt '.' (dottedQuad a b c d) = [decimal a, decimal b, decimal c, decimal d] := by
    unfold dottedQuad
    rw [splitAt_sep '.' _ _ (nd a h1.2), splitAt_sep '.' _ _ (nd b h2.2),
      splitAt_sep '.' _ _ (nd c h3.2), splitAt_no_sep '.' _ (nd d h4.2)]
  unfold ParseIP
  rw [hfind]
  simp [hsplit, h1.1, h2.1, h3.1, h4.1]

theorem encodeToString_IPv4 (a b c d : Nat) :
    EncodeToString (IPv4 a b c d) =
      "00000000000000000000ffff".toList ++ EncodeToString [a, b, c, d] := by
  unfold IPv4
  rw [encodeToString_append]
  rfl

theorem addrLoop_none (r : resolverDiscovery) (question : Question) (labels : List Str) :
    ∀ (rest : List Str) (i : Nat), addrLabel ∉ rest →
      r.addrLoop question labels i rest = Option.none := by
  intro rest
  induction rest with
  | nil => intro i _; rfl
  | cons l rest ih =>
    intro i h
    have hl : l ≠ addrLabel := fun e => h (by simp [e])
    simp only [resolverDiscovery.addrLoop, if_neg hl]
    exact ih (i + 1) (fun hm => h (by simp [hm]))

/-- C10 (amended): for an SRV question that takes the registry path (no label
`_addr`) and a non-empty instance list, the answer section has one entry per
instance, and the entry of an instance whose host is the dotted-quad text
`a.b.c.d` is an SRV record with the instance's priority, weight and port
(reduced modulo 65536) and with target the 32 lowercase hex digits of the
16-byte form of the address (`00000000000000000000ffff` and the 8 digits of
`a, b, c, d`) followed by `._addr.<service>.<namespace>`, made fully
qualified. -/
theorem serveDNS_srv_target (r : resolverDiscovery) (question : Question) (qname : Str)
    (instances : List Instance) (hq : question.Qtype = TypeSRV)
    (hno : addrLabel ∉ SplitDomainName qname)
    (hlook : (r.lookupFromPolaris qname r.ns).1 = some instances) (hne : instances ≠ []) :
    ∃ m, (r.ServeDNS question qname).outcome = Outcome.reply m ∧
      m.Answer.length = instances.length ∧
      ∀ (i : Nat) (ins : Instance) (a b c d : Nat), instances[i]? = some ins →
        ins.Host = dottedQuad a b c d →
        a < 256 → b < 256 → c < 256 → d < 256 →
        m.Answer[i]? = some (some (RR.SRV { Name := question.Name, Rrtype := TypeSRV, Class := ClassINET, Ttl := (r.dnsTtl % 4294967296).toNat }
          (ins.Priority % 65536) (ins.Weight % 65536).toNat (ins.Port % 65536)
          (Fqdn ("00000000000000000000ffff".toList ++ EncodeToString [a, b, c, d] ++
            "._addr.".toList ++ ins.ServiceKey.Service ++ ".".toList ++
            ins.ServiceKey.Namespace)))) := by
  have hloop := addrLoop_none r question (SplitDomainName qname) (SplitDomainName qname) 0 hno
  have hlen : ¬ instances.length = 0 := by
    intro h
    exact hne (List.length_eq_zero.1 h)
  rcases hl : r.lookupFromPolaris qname r.ns with ⟨res, calls⟩
  rw [hl] at hlook
  simp only at hlook
  subst hlook
  refine ⟨{ Answer := instances.map fun ins =>
      r.markRecord question (ParseIP r.parseIPv6 ins.Host) (some ins) }, ?_, by simp, ?_⟩
  · unfold resolverDiscovery.ServeDNS
    simp only [hloop, hl, hlen, if_false]
    simp [RcodeSuccess]
  · intro i ins a b c d hi hhost ha hb hc hd
    simp only [List.getElem?_map, hi, Option.map_some']
    rw [hhost, parseIP_dottedQuad r.parseIPv6 a b c d ha hb hc hd]
    simp only [resolverDiscovery.markRecord, hq, encodeIPAsFqdn, encodeToString_IPv4]
    simp [TypeSRV, TypeA]

/-- C10 (witness): host `10.0.0.5` of service `orders` in namespace `prod` gives
the target `00000000000000000000ffff0a000005._addr.orders.prod.`. -/
theorem serveDNS_srv_target_witness :
    ∃ m, (ordersDiscovery.ServeDNS ordersSrvQuestion ordersSrvQuestion.Name).outcome =
        Outcome.reply m ∧
      m.Answer[0]? = some (some (RR.SRV { Name := ordersSrvQuestion.Name, Rrtype := TypeSRV, Class := ClassINET, Ttl := 10 } 10 5 8080
        "00000000000000000000ffff0a000005._addr.orders.prod.".toList)) := by
  obtain ⟨m, hm, _, h⟩ := serveDNS_srv_target ordersDiscovery ordersSrvQuestion
    ordersSrvQuestion.Name [ordersInstance] rfl (by decide) (by decide) (by decide)
  refine ⟨m, hm, ?_⟩
  have h0 := h 0 ordersInstance 10 0 0 5 rfl (by decide) (by decide) (by decide) (by decide)
    (by decide)
  rw [h0]
  decide

/-- C10 (counterexample): for host `10.0.0.5` of service `orders` in namespace
`prod` the SRV target is not `0a000005._addr.orders.prod.`. -/
theorem serveDNS_srv_target_counterexample :
    ¬ ∃ m hdr, (ordersDiscovery.ServeDNS ordersSrvQuestion ordersSrvQuestion.Name).outcome =
        Outcome.reply m ∧
      m.Answer = [some (RR.SRV hdr 10 5 8080 "0a000005._addr.orders.prod.".toList)] := by
  have h : (ordersDiscovery.ServeDNS ordersSrvQuestion ordersSrvQuestion.Name).outcome =
      Outcome.reply { Answer := [some (RR.SRV { Name := ordersSrvQuestion.Name, Rrtype := TypeSRV, Class := ClassINET, Ttl := 10 } 10 5 8080
        "00000000000000000000ffff0a000005._addr.orders.prod.".toList)] } := by decide
  rintro ⟨m, hdr, hm, hans⟩
  rw [h] at hm
  cases hm
  simp only [List.cons.injEq, Option.some.injEq, RR.SRV.injEq, and_true] at hans
  exact absurd hans.2 (by decide)

/-! ## C11: EDNS0 in the response -/

/-- C11: for a request without EDNS0 `setEDNS` leaves the response unchanged.
For a request whose OPT record has header `h` and options `opts`, `setEDNS`
appends exactly one OPT record to the additional section of the response and
changes nothing else; the record has the UDP size of the request; it carries no
option when the request has no client-subnet option, and when the first
client-subnet option of the request has family `family`, source netmask
`netmask` and address `address` it carries exactly one option, a client subnet
with these three values, whose source scope is `0` when `ecsGlobal` is true or
the response rcode is NXDOMAIN, SERVFAIL, REFUSED or NOTIMP, and `netmask`
otherwise. -/
theorem setEDNS_spec (request response : Msg) (ecsGlobal : Bool) :
    (request.IsEdns0 = Option.none → setEDNS request response ecsGlobal = response) ∧
    (∀ (h : RR_Header) (opts : List EDNS0), request.IsEdns0 = some (h, opts) →
      ∃ hdr ropts,
        setEDNS request response ecsGlobal =
          { response with Extra := response.Extra ++ [RR.OPT hdr ropts] } ∧
        hdr.Rrtype = TypeOPT ∧ hdr.Class = h.Class ∧
        ((∀ o ∈ opts, ∀ c f m s a, o ≠ EDNS0.SUBNET c f m s a) → ropts = []) ∧
        (∀ (pre post : List EDNS0) (code family netmask scope : Nat) (address : List Nat),
          opts = pre ++ EDNS0.SUBNET code family netmask scope address :: post →
          (∀ o ∈ pre, ∀ c f m s a, o ≠ EDNS0.SUBNET c f m s a) →
          ropts = [EDNS0.SUBNET EDNS0SUBNET family netmask
            (if ecsGlobal = true ∨ response.Rcode = RcodeNameError ∨
                response.Rcode = RcodeServerFailure ∨ response.Rcode = RcodeRefused ∨
                response.Rcode = RcodeNotImplemented then 0 else netmask) address])) := by
  constructor
  · intro h
    simp [setEDNS, h]
  · intro h opts hreq
    refine ⟨{ Name := ".".toList, Rrtype := TypeOPT, Class := h.Class, Ttl := 0 },
      (match ednsSubnetForRequest request with
        | some (.SUBNET _ family sourceNetmask _ address) =>
          [.SUBNET EDNS0SUBNET family sourceNetmask
            (if ecsGlobal = true ∨ response.Rcode = RcodeNameError ∨
                response.Rcode = RcodeServerFailure ∨ response.Rcode = RcodeRefused ∨
                response.Rcode = RcodeNotImplemented then 0 else sourceNetmask) address]
        | _ => []), ?_, rfl, rfl, ?_, ?_⟩
    · simp only [setEDNS, hreq]
    · intro hno
      have hfind : opts.find? (fun o => match o with
          | .SUBNET .. => true
          | _ => false) = Option.none := by
        rw [List.find?_eq_none]
        intro o ho
        cases o with
        | SUBNET c f m s a => exact absurd rfl (hno _ ho c f m s a)
        | other c d => simp
      simp [ednsSubnetForRequest, hreq, hfind]
    · intro pre post code family netmask scope address hopts hpre
      have hfind : opts.find? (fun o => match o with
          | .SUBNET .. => true
          | _ => false) = some (EDNS0.SUBNET code family netmask scope address) := by
        rw [hopts]
        clear hopts
        induction pre with
        | nil => simp
        | cons o pre ih =>
          have ho := hpre o (by simp)
          cases o with
          | SUBNET c f m s a => exact absurd rfl (ho c f m s a)
          | other c d =>
            simp only [List.cons_append, List.find?_cons]
            exact ih (fun x hx => hpre x (by simp [hx]))
      simp [ednsSubnetForRequest, hreq, hfind]

/-- C11 (witness): a request with EDNS0 (UDP size 4096) and the client subnet
`192.0.2.0/24`; with `ecsGlobal` false a NOERROR response gets source scope 24
and an NXDOMAIN response gets source scope 0. -/
theorem setEDNS_spec_witness :
    (∃ hdr, (setEDNS ecsRequest { Rcode := RcodeSuccess } false).Extra =
        [RR.OPT hdr [EDNS0.SUBNET EDNS0SUBNET 1 24 24 [192, 0, 2, 0]]] ∧ hdr.Class = 4096) ∧
    (∃ hdr, (setEDNS ecsRequest { Rcode := RcodeNameError } false).Extra =
        [RR.OPT hdr [EDNS0.SUBNET EDNS0SUBNET 1 24 0 [192, 0, 2, 0]]] ∧ hdr.Class = 4096) := by
  constructor
  · obtain ⟨hdr, ropts, heq, _, hclass, _, hsub⟩ :=
      (setEDNS_spec ecsRequest { Rcode := RcodeSuccess } false).2
        { Name := ".".toList, Rrtype := TypeOPT, Class := 4096, Ttl := 0 }
        [EDNS0.SUBNET EDNS0SUBNET 1 24 0 [192, 0, 2, 0]] (by decide)
    have h := hsub [] [] EDNS0SUBNET 1 24 0 [192, 0, 2, 0] rfl (by simp)
    refine ⟨hdr, ?_, hclass⟩
    rw [heq, h]
    simp [RcodeSuccess, RcodeNameError, RcodeServerFailure, RcodeRefused, RcodeNotImplemented]
  · obtain ⟨hdr, ropts, heq, _, hclass, _, hsub⟩ :=
      (setEDNS_spec ecsRequest { Rcode := RcodeNameError } false).2
        { Name := ".".toList, Rrtype := TypeOPT, Class := 4096, Ttl := 0 }
        [EDNS0.SUBNET EDNS0SUBNET 1 24 0 [192, 0, 2, 0]] (by decide)
    have h := hsub [] [] EDNS0SUBNET 1 24 0 [192, 0, 2, 0] rfl (by simp)
    refine ⟨hdr, ?_, hclass⟩
    rw [heq, h]
    simp [RcodeSuccess, RcodeNameError, RcodeServerFailure, RcodeRefused, RcodeNotImplemented]

/-! ## C12: the upstream rotation -/

theorem next_of_lt (servers : List Str) (i : Nat) (hi : i < servers.length) :
    RotatingUpstream.Next { servers := servers, index := i } =
      some (servers.getD i [], { servers := servers, index := (i + 1) % servers.length }) := by
  simp [RotatingUpstream.Next, List.getElem?_eq_getElem hi, List.getD_eq_getElem _ _ hi]

theorem nextCalls_from (servers : List Str) (hne : servers ≠ []) :
    ∀ (N i : Nat), i < servers.length →
      nextCalls N { servers := servers, index := i } =
        some ((List.range N).map (fun k => servers.getD ((i + k) % servers.length) []),
          { servers := servers, index := (i + N) % servers.length }) := by
  have hpos : 0 < servers.length := List.length_pos.2 hne
  intro N
  induction N with
  | zero =>
    intro i hi
    simp [nextCalls, Nat.mod_eq_of_lt hi]
  | succ N ih =>
    intro i hi
    have hi' : (i + 1) % servers.length < servers.length := Nat.mod_lt _ hpos
    simp only [nextCalls, next_of_lt servers i hi, ih _ hi']
    have h1 : ∀ k, ((i + 1) % servers.length + k) % servers.length =
        (i + (k + 1)) % servers.length := by
      intro k
      rw [Nat.add_mod, Nat.mod_mod, ← Nat.add_mod]
      congr 1
      omega
    simp only [h1, List.range_succ_eq_map, List.map_cons, List.map_map, Nat.add_zero,
      Nat.mod_eq_of_lt hi]
    congr 2

theorem count_mod_ge (n : Nat) (hn : 0 < n) (i : Nat) (hi : i < n) (N : Nat) :
    N / n ≤ ((List.range N).filter (fun k => k % n = i)).length := by
  have h := Nat.count_modEq_card hn i (b := N)
  have hc : Nat.count (fun k => k ≡ i [MOD n]) N =
      ((List.range N).filter (fun k => k % n = i)).length := by
    unfold Nat.count
    rw [List.countP_eq_length_filter]
    congr 1
    apply List.filter_congr
    intro k _
    simp [Nat.ModEq, Nat.mod_eq_of_lt hi]
  rw [hc] at h
  omega

/-- C12: for a non-empty server list of length `n`, `N` sequential calls of
`RotatingUpstream.Next` from index 0 return `servers[0], servers[1 mod n], ..,
servers[(N-1) mod n]` in that order and leave the index at `N mod n`, which is
below `n`; every position `i < n` is selected in at least `N / n` of the
calls. -/
theorem next_round_robin (servers : List Str) (hne : servers ≠ []) (N : Nat) :
    nextCalls N { servers := servers, index := 0 } =
      some ((List.range N).map (fun k => servers.getD (k % servers.length) []),
        { servers := servers, index := N % servers.length }) ∧
    N % servers.length < servers.length ∧
    ∀ i, i < servers.length →
      N / servers.length ≤ ((List.range N).filter (fun k => k % servers.length = i)).length := by
  have hpos : 0 < servers.length := List.length_pos.2 hne
  refine ⟨?_, Nat.mod_lt _ hpos, fun i hi => count_mod_ge _ hpos i hi N⟩
  have h := nextCalls_from servers hne N 0 hpos
  simpa using h

/-- C12 (witness): seven calls over three upstreams. -/
theorem next_round_robin_witness :
    nextCalls 7 { servers := ["a".toList, "b".toList, "c".toList], index := 0 } =
      some (["a".toList, "b".toList, "c".toList, "a".toList, "b".toList, "c".toList, "a".toList],
        { servers := ["a".toList, "b".toList, "c".toList], index := 1 }) :=
  ((next_round_robin ["a".toList, "b".toList, "c".toList] (by decide) 7).1).trans (by decide)

/-! ## C13, C14: the retry loop of the recursor -/

theorem next_of_mod (rotate : RotatingUpstream) (i : Nat) (hne : rotate.servers ≠ [])
    (hi : rotate.index = i % rotate.servers.length) :
    rotate.Next = some (rotate.servers.getD (i % rotate.servers.length) [],
      { rotate with index := (i + 1) % rotate.servers.length }) := by
  have hpos : 0 < rotate.servers.length := List.length_pos.2 hne
  have hlt : i % rotate.servers.length < rotate.servers.length := Nat.mod_lt _ hpos
  have h := next_of_lt rotate.servers (i % rotate.servers.length) hlt
  have hr : rotate = { servers := rotate.servers, index := i % rotate.servers.length } := by
    cases rotate
    simp at hi
    simp [hi]
  rw [hr]
  simp only [h]
  simp [Nat.add_mod]

theorem attemptLoop_step_fail (exchange : Exchanger) (network : Str) (req : Msg) (domain : Str)
    (k : Nat) (rotate rotate' : RotatingUpstream) (upstream : Str) (done : List ExchangeCall)
    (hnext : rotate.Next = some (upstream, rotate'))
    (hfail : exchangeFailed (exchange done.length network req upstream) = true) :
    attemptLoop exchange network req domain (k + 1) rotate done =
      attemptLoop exchange network req domain k rotate'
        (done ++ [{ domain := domain, upstream := upstream }]) := by
  simp only [attemptLoop, hnext]
  unfold exchangeFailed at hfail
  cases hresp : (exchange done.length network req upstream).resp with
  | none =>
    simp only [hresp] at hfail
    have herr : (exchange done.length network req upstream).err = true := by simpa using hfail
    simp [herr]
  | some m =>
    simp only [hresp] at hfail
    by_cases hr : m.Rcode = RcodeSuccess ∨ m.Rcode = RcodeNameError
    · have h2 : ¬ (m.Rcode ≠ RcodeSuccess ∧ m.Rcode ≠ RcodeNameError) := by
        rintro ⟨h1, h2⟩
        rcases hr with h | h
        · exact h1 h
        · exact h2 h
      simp only [h2, decide_False, Bool.or_false, Bool.and_eq_true, Bool.not_eq_true'] at hfail
      simp [hr, hfail.1, hfail.2]
    · simp [hr]

theorem attemptLoop_step_reply (exchange : Exchanger) (network : Str) (req : Msg) (domain : Str)
    (k : Nat) (rotate rotate' : RotatingUpstream) (upstream : Str) (done : List ExchangeCall)
    (m : Msg) (hnext : rotate.Next = some (upstream, rotate'))
    (hresp : (exchange done.length network req upstream).resp = some m)
    (hrcode : m.Rcode = RcodeSuccess ∨ m.Rcode = RcodeNameError)
    (hok : (exchange done.length network req upstream).err = false ∨ m.Truncated = true) :
    attemptLoop exchange network req domain (k + 1) rotate done =
      (some (Outcome.reply m), rotate', done ++ [{ domain := domain, upstream := upstream }]) := by
  simp only [attemptLoop, hnext, hresp]
  simp [hrcode, hok]

theorem attemptLoop_fail_prefix (exchange : Exchanger) (network : Str) (req : Msg) (domain : Str)
    (servers : List Str) (hne : servers ≠ []) :
    ∀ (k i : Nat) (done : List ExchangeCall),
      (∀ j, j < k → ∀ net rq up, exchangeFailed (exchange (done.length + j) net rq up) = true) →
      attemptLoop exchange network req domain k
          { servers := servers, index := i % servers.length } done =
        (Option.none, { servers := servers, index := (i + k) % servers.length },
          done ++ (List.range k).map (fun j =>
            ({ domain := domain, upstream := servers.getD ((i + j) % servers.length) [] } :
              ExchangeCall))) := by
  intro k
  induction k with
  | zero => intro i done _; simp [attemptLoop]
  | succ k ih =>
    intro i done hfail
    have hnext := next_of_mod { servers := servers, index := i % servers.length } i hne rfl
    have h0 := hfail 0 (Nat.succ_pos k) network req (servers.getD (i % servers.length) [])
    rw [attemptLoop_step_fail exchange network req domain k _ _ _ done hnext (by simpa using h0)]
    have ih' := ih (i + 1) (done ++ [⟨domain, servers.getD (i % servers.length) []⟩])
      (fun j hj net rq up => by
        have := hfail (j + 1) (by omega) net rq up
        simpa [Nat.add_assoc, Nat.add_comm 1 j] using this)
    simp only at ih'
    rw [ih']
    simp only [List.range_succ_eq_map, List.map_cons, List.map_map, List.append_assoc,
      List.singleton_append, Nat.add_zero, Prod.mk.injEq, true_and]
    refine ⟨by congr 2; omega, ?_⟩
    congr 2
    apply List.map_congr_left
    intro j _
    simp only [Function.comp]
    congr 3
    omega

theorem exchangePlan_length (servers : List Str) (attempts : Nat) :
    ∀ (domains : List Str) (i : Nat),
      (exchangePlan servers attempts domains i).length = domains.length * attempts := by
  intro domains
  induction domains with
  | nil => intro i; simp [exchangePlan]
  | cons d ds ih =>
    intro i
    simp [exchangePlan, ih, Nat.succ_mul, Nat.add_comm]

theorem exchangePlan_domains (servers : List Str) (attempts : Nat) :
    ∀ (domains : List Str) (i : Nat),
      (exchangePlan servers attempts domains i).map (fun c => c.domain) =
        domains.flatMap (fun d => List.replicate attempts d) := by
  intro domains
  induction domains with
  | nil => intro i; simp [exchangePlan]
  | cons d ds ih =>
    intro i
    simp only [exchangePlan, List.map_append, List.map_map, ih, List.flatMap_cons]
    congr 1
    apply List.ext_getElem <;> simp

theorem exchangePlan_upstreams (servers : List Str) (attempts : Nat) :
    ∀ (domains : List Str) (i : Nat),
      (exchangePlan servers attempts domains i).map (fun c => c.upstream) =
        (List.range (domains.length * attempts)).map
          (fun k => servers.getD ((i + k) % servers.length) []) := by
  intro domains
  induction domains with
  | nil => intro i; simp [exchangePlan]
  | cons d ds ih =>
    intro i
    have hlen : (d :: ds).length * attempts = attempts + ds.length * attempts := by
      simp [Nat.succ_mul, Nat.add_comm]
    simp only [exchangePlan, List.map_append, List.map_map, ih, hlen, List.range_add]
    congr 1
    apply List.map_congr_left
    intro k _
    simp [Nat.add_assoc]

theorem domainLoop_fail_prefix (exchange : Exchanger) (network : Str) (r : Msg) (attempts : Nat)
    (servers : List Str) (hne : servers ≠ []) :
    ∀ (domains : List Str) (i : Nat) (done : List ExchangeCall),
      (∀ j, j < domains.length * attempts →
        ∀ net rq up, exchangeFailed (exchange (done.length + j) net rq up) = true) →
      domainLoop exchange network r attempts domains
          { servers := servers, index := i % servers.length } done =
        { outcome := Outcome.none,
          rotate := { servers := servers, index := (i + domains.length * attempts) % servers.length },
          exchanges := done ++ exchangePlan servers attempts domains i } := by
  intro domains
  induction domains with
  | nil => intro i done _; simp [domainLoop, exchangePlan]
  | cons d ds ih =>
    intro i done hfail
    have hlen : (d :: ds).length * attempts = attempts + ds.length * attempts := by
      simp [Nat.succ_mul, Nat.add_comm]
    have h1 := fun req => attemptLoop_fail_prefix exchange network req d servers hne attempts i done
      (fun j hj net rq up => hfail j (by omega) net rq up)
    simp only [domainLoop, h1]
    rw [ih (i + attempts) _ (fun j hj net rq up => by
      have := hfail (attempts + j) (by omega) net rq up
      simpa [Nat.add_assoc] using this)]
    have hlen' : (ds.length + 1) * attempts = attempts + ds.length * attempts := by
      simpa using hlen
    simp [exchangePlan, hlen', Nat.add_assoc]

theorem attemptLoop_reply_at (exchange : Exchanger) (network : Str) (req : Msg) (domain : Str)
    (servers : List Str) (hne : servers ≠ []) (m : Msg) (htrunc : m.Truncated = true)
    (hrcode : m.Rcode = RcodeSuccess ∨ m.Rcode = RcodeNameError) :
    ∀ (a k i : Nat) (done : List ExchangeCall), a < k →
      (∀ j, j < a → ∀ net rq up, exchangeFailed (exchange (done.length + j) net rq up) = true) →
      (∀ net rq up, (exchange (done.length + a) net rq up).resp = some m) →
      ∃ rotate' done',
        attemptLoop exchange network req domain k
            { servers := servers, index := i % servers.length } done =
          (some (Outcome.reply m), rotate', done') ∧
        done'.length = done.length + a + 1 := by
  intro a
  induction a with
  | zero =>
    intro k i done hk _ hresp
    obtain ⟨k', rfl⟩ : ∃ k', k = k' + 1 := ⟨k - 1, by omega⟩
    have hnext := next_of_mod { servers := servers, index := i % servers.length } i hne rfl
    refine ⟨_, _, attemptLoop_step_reply exchange network req domain k' _ _ _ done m hnext
      (by simpa using hresp network req _) hrcode (Or.inr htrunc), by simp⟩
  | succ a ih =>
    intro k i done hk hfail hresp
    obtain ⟨k', rfl⟩ : ∃ k', k = k' + 1 := ⟨k - 1, by omega⟩
    have hnext := next_of_mod { servers := servers, index := i % servers.length } i hne rfl
    have h0 := hfail 0 (Nat.succ_pos a) network req (servers.getD (i % servers.length) [])
    rw [attemptLoop_step_fail exchange network req domain k' _ _ _ done hnext (by simpa using h0)]
    obtain ⟨rotate', done', heq, hlen⟩ := ih k' (i + 1)
      (done ++ [⟨domain, servers.getD (i % servers.length) []⟩]) (by omega)
      (fun j hj net rq up => by
        have := hfail (j + 1) (by omega) net rq up
        simpa [Nat.add_assoc, Nat.add_comm 1 j] using this)
      (fun net rq up => by
        have := hresp net rq up
        simpa [Nat.add_assoc, Nat.add_comm 1 a] using this)
    exact ⟨rotate', done', heq, by simp at hlen; omega⟩

theorem domainLoop_reply_at (exchange : Exchanger) (network : Str) (r : Msg) (attempts : Nat)
    (servers : List Str) (hne : servers ≠ []) (m : Msg) (htrunc : m.Truncated = true)
    (hrcode : m.Rcode = RcodeSuccess ∨ m.Rcode = RcodeNameError) :
    ∀ (domains : List Str) (i J : Nat) (done : List ExchangeCall),
      J < domains.length * attempts →
      (∀ j, j < J → ∀ net rq up, exchangeFailed (exchange (done.length + j) net rq up) = true) →
      (∀ net rq up, (exchange (done.length + J) net rq up).resp = some m) →
      (domainLoop exchange network r attempts domains
          { servers := servers, index := i % servers.length } done).outcome = Outcome.reply m ∧
      (domainLoop exchange network r attempts domains
          { servers := servers, index := i % servers.length } done).exchanges.length =
        done.length + J + 1 := by
  intro domains
  induction domains with
  | nil => intro i J done hJ; simp at hJ
  | cons d ds ih =>
    intro i J done hJ hfail hresp
    have hlen : (d :: ds).length * attempts = attempts + ds.length * attempts := by
      simp [Nat.succ_mul, Nat.add_comm]
    by_cases hlt : J < attempts
    · have h1 := fun req => attemptLoop_reply_at exchange network req d servers hne m htrunc
        hrcode J attempts i done hlt hfail hresp
      simp only [domainLoop]
      obtain ⟨rotate', done', heq, hl⟩ := h1 (match r.Question with
        | [] => r
        | q :: qs => { r with Question := { q with Name := d } :: qs })
      rw [heq]
      exact ⟨rfl, hl⟩
    · have h1 := fun req => attemptLoop_fail_prefix exchange network req d servers hne attempts i
        done (fun j hj net rq up => hfail j (by omega) net rq up)
      simp only [domainLoop, h1]
      have := ih (i + attempts) (J - attempts)
        (done ++ (List.range attempts).map (fun j =>
          (⟨d, servers.getD ((i + j) % servers.length) []⟩ : ExchangeCall)))
        (by omega)
        (fun j hj net rq up => by
          have := hfail (attempts + j) (by omega) net rq up
          simpa [Nat.add_assoc] using this)
        (fun net rq up => by
          have := hresp net rq up
          have e : done.length + J = done.length + attempts + (J - attempts) := by omega
          rw [e] at this
          simpa [Nat.add_assoc] using this)
      refine ⟨this.1, ?_⟩
      rw [this.2]
      simp
      omega

theorem rotate_eq_mod (rotate : RotatingUpstream) (hidx : rotate.index < rotate.servers.length) :
    rotate = { servers := rotate.servers, index := rotate.index % rotate.servers.length } := by
  cases rotate
  simp at hidx
  simp [Nat.mod_eq_of_lt hidx]

theorem servers_ne_nil (rotate : RotatingUpstream) (hidx : rotate.index < rotate.servers.length) :
    rotate.servers ≠ [] := by
  intro h
  rw [h] at hidx
  simp at hidx

/-- C13 (amended): when the exchanges before the `J`-th one fail and the `J`-th
exchange of the request yields a response `m` with `Truncated = true` and rcode
NOERROR or NXDOMAIN, `Proxy.HandleDNS` returns `m` at once, after `J + 1`
exchanges, whether or not a transport error came with it. -/
theorem handleDNS_truncated (p : Proxy) (exchange : Exchanger) (clientIsTCP : Bool) (r : Msg)
    (q : Question) (qs : List Question) (hq : r.Question = q :: qs)
    (hidx : p.rotate.index < p.rotate.servers.length) (J : Nat) (m : Msg)
    (hJ : J < (p.expandQuery q.Name).length * p.config.Attempts.toNat)
    (hfail : ∀ n, n < J → ∀ net rq up, exchangeFailed (exchange n net rq up) = true)
    (hresp : ∀ net rq up, (exchange J net rq up).resp = some m)
    (htrunc : m.Truncated = true)
    (hrcode : m.Rcode = RcodeSuccess ∨ m.Rcode = RcodeNameError) :
    (p.HandleDNS exchange clientIsTCP r).outcome = Outcome.reply m ∧
    (p.HandleDNS exchange clientIsTCP r).exchanges.length = J + 1 := by
  have hne := servers_ne_nil p.rotate hidx
  have h := domainLoop_reply_at exchange (if clientIsTCP then TcpProtocol else UdpProtocol) r
    p.config.Attempts.toNat p.rotate.servers hne m htrunc hrcode (p.expandQuery q.Name)
    p.rotate.index J [] hJ (by simpa using hfail) (by simpa using hresp)
  rw [← rotate_eq_mod p.rotate hidx] at h
  simp only [Proxy.HandleDNS, hq]
  simpa using h

/-- C13 (witness): the upstream answers with a truncated NOERROR response and a
transport error; the response is returned after one exchange. -/
theorem handleDNS_truncated_witness :
    (sampleProxy.HandleDNS (fun _ _ _ _ => { resp := some truncatedNoerror, err := true }) false
      ordersRequest).outcome = Outcome.reply truncatedNoerror ∧
    (sampleProxy.HandleDNS (fun _ _ _ _ => { resp := some truncatedNoerror, err := true }) false
      ordersRequest).exchanges.length = 0 + 1 :=
  handleDNS_truncated sampleProxy (fun _ _ _ _ => { resp := some truncatedNoerror, err := true })
    false ordersRequest ordersQuestion [] rfl (by decide) 0 truncatedNoerror (by decide)
    (fun n hn => absurd hn (Nat.not_lt_zero n)) (fun _ _ _ => rfl) rfl (Or.inl rfl)

/-- C13 (counterexample): the upstream answers with a truncated response of
rcode SERVFAIL; `Proxy.HandleDNS` does not return it: the attempt counts as
failed and, no attempt being left, the result is nil. -/
theorem handleDNS_truncated_counterexample :
    truncatedServfail.Truncated = true ∧
    (sampleProxy.HandleDNS (fun _ _ _ _ => { resp := some truncatedServfail, err := false })
      false ordersRequest).outcome = Outcome.none ∧
    ¬ ((sampleProxy.HandleDNS (fun _ _ _ _ => { resp := some truncatedServfail, err := false })
      false ordersRequest).outcome = Outcome.reply truncatedServfail) := by
  decide

/-- C14: when every upstream exchange fails, `Proxy.HandleDNS` on a proxy with
a valid rotation (index `i` below the number `n` of servers) returns nil after
exactly `len(expandQuery(name))` times `Attempts` exchanges: `Attempts`
consecutive ones for each expanded name in list order, the `k`-th exchange
overall going to the server at position `(i + k) mod n`; the index is left at
`(i + total) mod n`. -/
theorem handleDNS_all_fail (p : Proxy) (exchange : Exchanger) (clientIsTCP : Bool) (r : Msg)
    (q : Question) (qs : List Question) (hq : r.Question = q :: qs)
    (hidx : p.rotate.index < p.rotate.servers.length)
    (hfail : ∀ n net rq up, exchangeFailed (exchange n net rq up) = true) :
    (p.HandleDNS exchange clientIsTCP r).outcome = Outcome.none ∧
    (p.HandleDNS exchange clientIsTCP r).exchanges.length =
      (p.expandQuery q.Name).length * p.config.Attempts.toNat ∧
    (p.HandleDNS exchange clientIsTCP r).exchanges.map (fun c => c.domain) =
      (p.expandQuery q.Name).flatMap (fun d => List.replicate p.config.Attempts.toNat d) ∧
    (p.HandleDNS exchange clientIsTCP r).exchanges.map (fun c => c.upstream) =
      (List.range ((p.expandQuery q.Name).length * p.config.Attempts.toNat)).map
        (fun k => p.rotate.servers.getD ((p.rotate.index + k) % p.rotate.servers.length) []) ∧
    (p.HandleDNS exchange clientIsTCP r).rotate =
      { servers := p.rotate.servers,
        index := (p.rotate.index +
          (p.expandQuery q.Name).length * p.config.Attempts.toNat) % p.rotate.servers.length } := by
  have hne := servers_ne_nil p.rotate hidx
  have h := domainLoop_fail_prefix exchange (if clientIsTCP then TcpProtocol else UdpProtocol) r
    p.config.Attempts.toNat p.rotate.servers hne (p.expandQuery q.Name) p.rotate.index []
    (fun j _ net rq up => hfail _ net rq up)
  rw [← rotate_eq_mod p.rotate hidx] at h
  have hH : p.HandleDNS exchange clientIsTCP r =
      domainLoop exchange (if clientIsTCP then TcpProtocol else UdpProtocol) r
        p.config.Attempts.toNat (p.expandQuery q.Name) p.rotate [] := by
    simp only [Proxy.HandleDNS, hq]
  rw [hH, h]
  simp [exchangePlan_length, exchangePlan_domains, exchangePlan_upstreams]

/-- C14 (witness): two search names, two attempts, two upstreams, every
exchange a transport error: four exchanges, then nil. -/
theorem handleDNS_all_fail_witness :
    (searchProxy.HandleDNS (fun _ _ _ _ => { resp := Option.none, err := true }) false
      shortRequest).outcome = Outcome.none ∧
    (searchProxy.HandleDNS (fun _ _ _ _ => { resp := Option.none, err := true }) false
      shortRequest).exchanges =
      [{ domain := "orders.svc.local.".toList, upstream := "10.0.0.1:53".toList },
       { domain := "orders.svc.local.".toList, upstream := "10.0.0.2:53".toList },
       { domain := "orders.local.".toList, upstream := "10.0.0.1:53".toList },
       { domain := "orders.local.".toList, upstream := "10.0.0.2:53".toList }] :=
  ⟨(handleDNS_all_fail searchProxy (fun _ _ _ _ => { resp := Option.none, err := true }) false
    shortRequest { Name := "orders".toList, Qtype := TypeA, Qclass := ClassINET } [] rfl
    (by decide) (fun _ _ _ _ => rfl)).1, by decide⟩

/-! ## C15: the merge of the upstreams -/

theorem mergeUpstream_append (b : Bool) (l2 : List Str) :
    ∀ (l1 : List Str) (st : List Str × List Str),
      mergeUpstream b (l1 ++ l2) st = mergeUpstream b l2 (mergeUpstream b l1 st) := by
  intro l1
  induction l1 with
  | nil => intro st; cases st; simp [mergeUpstream]
  | cons h t ih =>
    intro st
    obtain ⟨up, seen⟩ := st
    simp only [List.cons_append, mergeUpstream]
    split <;> exact ih _

theorem mergeUpstream_fst (b : Bool) :
    ∀ (l upstream seen : List Str),
      (mergeUpstream b l (upstream, seen)).1 =
        upstream ++ ((firstOccurrences l).filter
          (fun h => decide (h ∉ seen) && !needSkip b h)).map (fun h => h ++ ":53".toList) := by
  intro l
  induction l with
  | nil => intro upstream seen; simp [mergeUpstream, firstOccurrences]
  | cons h t ih =>
    intro upstream seen
    simp only [mergeUpstream, firstOccurrences]
    by_cases hc : ¬ h ∈ seen ∧ needSkip b h = false
    · rw [if_pos hc, ih]
      have hkeep : (decide (h ∉ seen) && !needSkip b h) = true := by simp [hc.1, hc.2]
      simp only [List.filter_cons, hkeep, if_true, List.filter_filter, List.map_cons,
        List.append_assoc, List.singleton_append]
      congr 3
      apply List.filter_congr
      intro x _
      by_cases hx : x = h
      · simp [hx]
      · simp [hx]
    · rw [if_neg hc, ih]
      have hdrop : (decide (h ∉ seen) && !needSkip b h) = false := by
        cases hk : (decide (h ∉ seen) && !needSkip b h) with
        | false => rfl
        | true =>
          exfalso
          apply hc
          simpa using hk
      simp only [List.filter_cons, hdrop, List.filter_filter]
      simp only [Bool.false_eq_true, if_false]
      congr 2
      apply List.filter_congr
      intro x _
      by_cases hx : x = h
      · subst hx
        have hc' : x ∉ seen → needSkip b x = true := by
          intro hs
          cases hn : needSkip b x with
          | true => rfl
          | false => exact absurd ⟨hs, hn⟩ hc
        simpa using hc'
      · simp [hx]

theorem firstOccurrences_append (l1 l2 : List Str) :
    firstOccurrences (l1 ++ l2) =
      firstOccurrences l1 ++ (firstOccurrences l2).filter (fun x => decide (x ∉ l1)) := by
  induction l1 with
  | nil => simp [firstOccurrences]
  | cons h t ih =>
    simp only [List.cons_append, firstOccurrences]
    have ih' : firstOccurrences (t.append l2) =
        firstOccurrences t ++ List.filter (fun x => decide (x ∉ t)) (firstOccurrences l2) := ih
    rw [ih']
    simp only [List.filter_append, List.filter_filter, List.cons_append]
    congr 2
    apply List.filter_congr
    intro x _
    by_cases hx : x = h <;> simp [hx]

theorem firstOccurrences_subset (l : List Str) : ∀ x ∈ firstOccurrences l, x ∈ l := by
  induction l with
  | nil => simp [firstOccurrences]
  | cons h t ih =>
    intro x hx
    simp only [firstOccurrences, List.mem_cons, List.mem_filter] at hx
    rcases hx with rfl | ⟨hx, _⟩
    · simp
    · simp [ih x hx]

theorem firstOccurrences_nodup (l : List Str) : (firstOccurrences l).Nodup := by
  induction l with
  | nil => simp [firstOccurrences]
  | cons h t ih =>
    simp only [firstOccurrences, List.nodup_cons, List.mem_filter]
    exact ⟨fun hm => by simpa using hm.2, ih.filter _⟩

theorem initRecurseConfig_upstream_eq (bindLocalhost : Bool) (timeout : Int)
    (nameServers : List Str) (dnsConfig : ClientConfig) :
    (InitRecurseConfig bindLocalhost timeout nameServers dnsConfig).Upstream =
      ((firstOccurrences (nameServers ++ dnsConfig.Servers)).filter
        (fun h => decide (¬ (h = "127.0.0.1".toList ∧ bindLocalhost = true)))).map
          (fun h => h ++ ":53".toList) := by
  have h1 : (InitRecurseConfig bindLocalhost timeout nameServers dnsConfig).Upstream =
      (mergeUpstream bindLocalhost (nameServers ++ dnsConfig.Servers) ([], [])).1 := by
    rw [mergeUpstream_append]
    simp only [InitRecurseConfig, Config.fillByResolvConfig]
    split <;> rfl
  rw [h1, mergeUpstream_fst]
  simp only [List.nil_append]
  congr 1
  apply List.filter_congr
  intro x _
  simp [needSkip, localIp]

/-- C15: the merged `Upstream` is the list of `h + ":53"` for each `h` taken at
its first occurrence in the explicit name servers followed by those of
resolv.conf, without `127.0.0.1` when `bindLocalhost` is true.  Hence it has no
duplicates, it is a list of explicit name servers followed by a list of
resolv.conf servers that are not explicit ones, and it does not contain
`127.0.0.1:53` when `bindLocalhost` is true. -/
theorem initRecurseConfig_upstream (bindLocalhost : Bool) (timeout : Int)
    (nameServers : List Str) (dnsConfig : ClientConfig) :
    (InitRecurseConfig bindLocalhost timeout nameServers dnsConfig).Upstream =
      ((firstOccurrences (nameServers ++ dnsConfig.Servers)).filter
        (fun h => decide (¬ (h = "127.0.0.1".toList ∧ bindLocalhost = true)))).map
          (fun h => h ++ ":53".toList) ∧
    (InitRecurseConfig bindLocalhost timeout nameServers dnsConfig).Upstream.Nodup ∧
    (∃ explicit resolv,
      (InitRecurseConfig bindLocalhost timeout nameServers dnsConfig).Upstream =
        explicit ++ resolv ∧
      (∀ u ∈ explicit, ∃ h ∈ nameServers, u = h ++ ":53".toList) ∧
      (∀ u ∈ resolv, ∃ h ∈ dnsConfig.Servers, h ∉ nameServers ∧ u = h ++ ":53".toList)) ∧
    (bindLocalhost = true →
      "127.0.0.1:53".toList ∉
        (InitRecurseConfig bindLocalhost timeout nameServers dnsConfig).Upstream) := by
  have heq := initRecurseConfig_upstream_eq bindLocalhost timeout nameServers dnsConfig
  have hinj : Function.Injective (fun h : Str => h ++ ":53".toList) := by
    intro a b hab
    exact List.append_cancel_right hab
  refine ⟨heq, ?_, ?_, ?_⟩
  · rw [heq]
    exact ((firstOccurrences_nodup _).filter _).map hinj
  · rw [heq, firstOccurrences_append, List.filter_append, List.map_append]
    refine ⟨_, _, rfl, ?_, ?_⟩
    · intro u hu
      simp only [List.mem_map, List.mem_filter] at hu
      obtain ⟨h, ⟨hm, _⟩, rfl⟩ := hu
      exact ⟨h, firstOccurrences_subset _ h hm, rfl⟩
    · intro u hu
      simp only [List.mem_map, List.mem_filter] at hu
      obtain ⟨h, ⟨⟨hm, hnot⟩, _⟩, rfl⟩ := hu
      exact ⟨h, firstOccurrences_subset _ h hm, by simpa using hnot, rfl⟩
  · intro hb hmem
    rw [heq] at hmem
    simp only [List.mem_map, List.mem_filter] at hmem
    obtain ⟨h, ⟨_, hkeep⟩, hh⟩ := hmem
    have h127 : "127.0.0.1:53".toList = "127.0.0.1".toList ++ ":53".toList := by decide
    rw [h127] at hh
    have := List.append_cancel_right hh
    simp [this, hb] at hkeep

/-- C15 (witness): explicit servers `8.8.8.8, 127.0.0.1`, resolv.conf servers
`8.8.8.8, 1.1.1.1, 127.0.0.1`, the sidecar bound to the loopback address. -/
theorem initRecurseConfig_upstream_witness :
    (InitRecurseConfig true 3 ["8.8.8.8".toList, "127.0.0.1".toList] sampleResolvConf).Upstream =
      ["8.8.8.8:53".toList, "1.1.1.1:53".toList] :=
  ((initRecurseConfig_upstream true 3 ["8.8.8.8".toList, "127.0.0.1".toList]
    sampleResolvConf).1).trans (by decide)

/-! ## C16, C17: the rate-limit translator -/

theorem entryLoop_append (b : List RateLimitDescriptor_Entry) :
    ∀ (a : List RateLimitDescriptor_Entry) (req : QuotaRequest),
      entryLoop req (a ++ b) = entryLoop (entryLoop req a) b := by
  intro a
  induction a with
  | nil => intro req; rfl
  | cons e a ih =>
    intro req
    simp only [List.cons_append, entryLoop]
    split <;> exact ih _

theorem descriptorLoop_eq (descriptors : List (Option RateLimitDescriptor)) :
    ∀ req : QuotaRequest, descriptorLoop req descriptors = entryLoop req (allEntries descriptors) := by
  induction descriptors with
  | nil => intro req; rfl
  | cons d ds ih =>
    intro req
    cases d with
    | none => simpa [descriptorLoop, allEntries] using ih req
    | some d =>
      have : allEntries (some d :: ds) = d.Entries ++ allEntries ds := by simp [allEntries]
      rw [this, entryLoop_append]
      simpa [descriptorLoop] using ih _

theorem entryLoop_arguments (es : List RateLimitDescriptor_Entry) :
    ∀ req : QuotaRequest, (entryLoop req es).Arguments =
      req.Arguments ++ (es.filter (fun e => decide (e.Key ≠ ":path".toList))).map
        (fun e => BuildArgumentFromLabel e.Key e.Value) := by
  induction es with
  | nil => intro req; simp [entryLoop]
  | cons e es ih =>
    intro req
    simp only [entryLoop]
    by_cases h : e.Key = ":path".toList
    · rw [if_pos h, ih]
      have hd : decide (e.Key ≠ ":path".toList) = false := by simpa using h
      simp only [List.filter_cons, hd, Bool.false_eq_true, if_false]
    · rw [if_neg h, ih]
      have hd : decide (e.Key ≠ ":path".toList) = true := by simpa using h
      simp only [List.filter_cons, hd, if_true, List.map_cons, List.append_assoc,
        List.singleton_append]

theorem entryLoop_method_keep (es : List RateLimitDescriptor_Entry)
    (hno : ∀ x ∈ es, x.Key ≠ ":path".toList) :
    ∀ req : QuotaRequest, (entryLoop req es).Method = req.Method := by
  induction es with
  | nil => intro req; rfl
  | cons e es ih =>
    intro req
    have he : e.Key ≠ ":path".toList := hno e (by simp)
    simp only [entryLoop, if_neg he]
    rw [ih (fun x hx => hno x (by simp [hx]))]

theorem entryLoop_method_last (req : QuotaRequest) (pre post : List RateLimitDescriptor_Entry)
    (e : RateLimitDescriptor_Entry) (he : e.Key = ":path".toList)
    (hpost : ∀ x ∈ post, x.Key ≠ ":path".toList) :
    (entryLoop req (pre ++ e :: post)).Method = e.Value := by
  rw [entryLoop_append]
  simp only [entryLoop, if_pos he]
  rw [entryLoop_method_keep post hpost]

theorem trimSuffix_append (pre suffix : Str) : TrimSuffix (pre ++ suffix) suffix = pre := by
  have h : HasSuffix (pre ++ suffix) suffix = true := (hasSuffix_iff _ _).2 (List.suffix_append _ _)
  simp [TrimSuffix, h]

/-- C16: for a request with a non-empty domain, handled by a server with a
non-empty namespace, the one quota request handed to the limiter has: as method
the value of the last entry whose key is `:path` (empty when there is none);
as arguments one argument built from `(key, value)` for every other entry, in
descriptor and entry order; the server's namespace; as service the domain
without one trailing `"." + namespace` when the domain ends with it and the
domain itself otherwise; and the token `max(hits_addend, 1)`. -/
theorem shouldRateLimit_quota_request (svr : RateLimitServer) (req : RateLimitRequest)
    (hd : req.Domain ≠ []) (hn : svr.ns ≠ []) :
    ∃ quotaReq, (svr.ShouldRateLimit req).quotaReqs = [quotaReq] ∧
      (∀ (pre post : List RateLimitDescriptor_Entry) (e : RateLimitDescriptor_Entry),
        allEntries req.Descriptors = pre ++ e :: post → e.Key = ":path".toList →
        (∀ x ∈ post, x.Key ≠ ":path".toList) → quotaReq.Method = e.Value) ∧
      ((∀ x ∈ allEntries req.Descriptors, x.Key ≠ ":path".toList) → quotaReq.Method = []) ∧
      quotaReq.Arguments =
        ((allEntries req.Descriptors).filter (fun e => decide (e.Key ≠ ":path".toList))).map
          (fun e => BuildArgumentFromLabel e.Key e.Value) ∧
      quotaReq.Namespace = svr.ns ∧
      (∀ pre, req.Domain = pre ++ (".".toList ++ svr.ns) → quotaReq.Service = pre) ∧
      (¬ (".".toList ++ svr.ns) <:+ req.Domain → quotaReq.Service = req.Domain) ∧
      quotaReq.Token = max req.HitsAddend 1 := by
  refine ⟨svr.buildQuotaRequest req.Domain (if req.HitsAddend = 0 then 1 else req.HitsAddend)
    req.Descriptors, ?_, ?_⟩
  · simp only [RateLimitServer.ShouldRateLimit]
    split <;> rfl
  · have hcond : ¬ (req.Domain = [] ∨ svr.ns = []) := by
      rintro (h | h)
      · exact hd h
      · exact hn h
    simp only [RateLimitServer.buildQuotaRequest, if_neg hcond, descriptorLoop_eq]
    refine ⟨?_, ?_, ?_, trivial, ?_, ?_, ?_⟩
    · intro pre post e hall he hpost
      rw [hall]
      exact entryLoop_method_last _ pre post e he hpost
    · intro hno
      exact entryLoop_method_keep _ hno _
    · simpa using entryLoop_arguments (allEntries req.Descriptors) {}
    · intro pre hpre
      have h : HasSuffix req.Domain (".".toList ++ svr.ns) = true := by
        rw [hasSuffix_iff, hpre]
        exact List.suffix_append _ _
      simp only [h, if_true]
      rw [hpre]
      exact trimSuffix_append pre _
    · intro hns
      have h : HasSuffix req.Domain (".".toList ++ svr.ns) = false := by
        cases hh : HasSuffix req.Domain (".".toList ++ svr.ns) with
        | false => rfl
        | true => exact absurd ((hasSuffix_iff _ _).1 hh) hns
      simp only [h]
      rfl
    · show (if req.HitsAddend = 0 then 1 else req.HitsAddend) = max req.HitsAddend 1
      split <;> omega

/-- C16 (witness): the domain `foo.prod` in the namespace `prod` with the
descriptors `:path = /x` and `user = alice`. -/
theorem shouldRateLimit_quota_request_witness :
    (limitedServer.ShouldRateLimit sampleRateLimitRequest).quotaReqs =
      [{ Namespace := "prod".toList, Service := "foo".toList, Method := "/x".toList,
         Arguments := [BuildArgumentFromLabel "user".toList "alice".toList], Token := 1 }] := by
  obtain ⟨quotaReq, hq, _⟩ :=
    shouldRateLimit_quota_request limitedServer sampleRateLimitRequest (by decide) (by decide)
  rw [hq]
  have : (limitedServer.ShouldRateLimit sampleRateLimitRequest).quotaReqs =
      [{ Namespace := "prod".toList, Service := "foo".toList, Method := "/x".toList,
         Arguments := [BuildArgumentFromLabel "user".toList "alice".toList], Token := 1 }] := by
    decide
  rw [hq] at this
  exact this

/-- C17: when the limiter returns a result for the quota request built from the
rate-limit request, the response of `ShouldRateLimit` has `OVER_LIMIT` as
overall code if the result is LIMITED and `OK` otherwise, one status per
descriptor of the request, each carrying the overall code, and as raw body the
info of the result. -/
theorem shouldRateLimit_response (svr : RateLimitServer) (req : RateLimitRequest)
    (resp : QuotaResponse)
    (hlim : svr.limiter (svr.buildQuotaRequest req.Domain (max req.HitsAddend 1)
      req.Descriptors) = GetQuotaResult.future resp) :
    ∃ rlsRsp, (svr.ShouldRateLimit req).resp = some rlsRsp ∧
      (svr.ShouldRateLimit req).err = false ∧
      rlsRsp.OverallCode =
        (if resp.Code = QuotaResultLimited then RateLimitResponse_Code.OVER_LIMIT
          else RateLimitResponse_Code.OK) ∧
      rlsRsp.Statuses.length = req.Descriptors.length ∧
      (∀ s ∈ rlsRsp.Statuses, s.Code = rlsRsp.OverallCode) ∧
      rlsRsp.RawBody = resp.Info := by
  have hmax : (if req.HitsAddend = 0 then 1 else req.HitsAddend) = max req.HitsAddend 1 := by
    split <;> omega
  simp only [RateLimitServer.ShouldRateLimit, hmax, hlim]
  refine ⟨_, rfl, ?_, ?_, ?_, ?_, ?_⟩
  · trivial
  · rfl
  · simp
  rotate_left
  · rfl
  intro s hs
  simp only [List.mem_map] at hs
  obtain ⟨_, _, rfl⟩ := hs
  rfl

/-- C17 (witness): the limiter answers LIMITED for a request with two
descriptors. -/
theorem shouldRateLimit_response_witness :
    ∃ rlsRsp, (limitedServer.ShouldRateLimit sampleRateLimitRequest).resp = some rlsRsp ∧
      (limitedServer.ShouldRateLimit sampleRateLimitRequest).err = false ∧
      rlsRsp.OverallCode =
        (if QuotaResultLimited = QuotaResultLimited then RateLimitResponse_Code.OVER_LIMIT
          else RateLimitResponse_Code.OK) ∧
      rlsRsp.Statuses.length = sampleRateLimitRequest.Descriptors.length ∧
      (∀ s ∈ rlsRsp.Statuses, s.Code = rlsRsp.OverallCode) ∧
      rlsRsp.RawBody = "quota exhausted".toList :=
  shouldRateLimit_response limitedServer sampleRateLimitRequest
    { Code := QuotaResultLimited, Info := "quota exhausted".toList } rfl

/-! ## C18: the deltas of the metrics reporter -/

theorem subUint64_add (a b : Nat) (hlt : b < a) (ha : a < 18446744073709551616) :
    subUint64 a b + b = a := by
  unfold subUint64
  omega

theorem statLoop_lt (stats : List SimpleMetric) :
    ∀ metricValue : InstanceMetricValue,
      (∀ stat ∈ stats, stat.Value < 18446744073709551616) →
      metricValue.RqTotal < 18446744073709551616 →
      metricValue.RqSuccess < 18446744073709551616 →
      metricValue.RqError < 18446744073709551616 →
      (statLoop metricValue stats).RqTotal < 18446744073709551616 ∧
      (statLoop metricValue stats).RqSuccess < 18446744073709551616 ∧
      (statLoop metricValue stats).RqError < 18446744073709551616 := by
  induction stats with
  | nil => intro metricValue _ h1 h2 h3; exact ⟨h1, h2, h3⟩
  | cons stat rest ih =>
    intro metricValue hr h1 h2 h3
    have hs : stat.Value < 18446744073709551616 := hr stat (by simp)
    have hrest : ∀ x ∈ rest, x.Value < 18446744073709551616 := fun x hx => hr x (by simp [hx])
    simp only [statLoop]
    split
    · exact ih _ hrest hs h2 h3
    · split
      · exact ih _ hrest h1 hs h3
      · split
        · exact ih _ hrest h1 h2 hs
        · exact ih _ hrest h1 h2 h3

theorem subtractSnapshot_fields (now : Int) (metricValue latestValue : InstanceMetricValue) :
    (subtractSnapshot now metricValue latestValue).RqTotal =
      (if metricValue.RqTotal > latestValue.RqTotal
        then subUint64 metricValue.RqTotal latestValue.RqTotal else 0) ∧
    (subtractSnapshot now metricValue latestValue).RqSuccess =
      (if metricValue.RqSuccess > latestValue.RqSuccess
        then subUint64 metricValue.RqSuccess latestValue.RqSuccess else 0) ∧
    (subtractSnapshot now metricValue latestValue).RqError =
      (if metricValue.RqError > latestValue.RqError
        then subUint64 metricValue.RqError latestValue.RqError else 0) := by
  unfold subtractSnapshot
  refine ⟨?_, ?_, ?_⟩ <;> (simp only []; split_ifs <;> rfl)

theorem intOfUint64_toNat_le (v : Nat) : (intOfUint64 v).toNat ≤ v := by
  unfold intOfUint64
  split
  · simp
  · omega

/-- C18: for a host with a socket address whose counters are 64-bit values, with
`cur` the counters read from its stats and `key` its key, the loop body makes
one call of `reportMetrics`, for `key`, with a delta `sub` such that: without a
previous snapshot `sub` is `cur`; with a previous snapshot `prev` each of
`rq_total`, `rq_success`, `rq_error` is the exact difference `cur - prev` when
`cur > prev` and 0 otherwise; afterwards the snapshot of `key` is `cur`; each
counter of `sub` is at most that of `cur`, and `reportMetrics` makes at most
`cur.rq_success + cur.rq_error` calls of `reportStatus`. -/
theorem hostStep_delta (now : Int) (delayValues : Str → Float64) (clusterName : Str)
    (values : Values) (hostStatus : HostStatus) (address : Address)
    (socketAddress : SocketAddress)
    (haddr : hostStatus.Address = some address)
    (hsock : address.SocketAddress = some socketAddress)
    (hrange : ∀ stat ∈ hostStatus.Stats, stat.Value < 2 ^ 64) :
    ∃ sub : InstanceMetricValue,
      (hostStep now delayValues clusterName values hostStatus).2 =
        [{ metricKey := ⟨clusterName, socketAddress.Address, socketAddress.PortValue⟩,
           subMetricValue := sub, delay := delayValues clusterName }] ∧
      (values ⟨clusterName, socketAddress.Address, socketAddress.PortValue⟩ = Option.none →
        sub = statLoop { LastActiveTime := now } hostStatus.Stats) ∧
      (∀ prev : InstanceMetricValue,
        values ⟨clusterName, socketAddress.Address, socketAddress.PortValue⟩ = some prev →
        ((statLoop { LastActiveTime := now } hostStatus.Stats).RqTotal > prev.RqTotal →
          sub.RqTotal + prev.RqTotal =
            (statLoop { LastActiveTime := now } hostStatus.Stats).RqTotal) ∧
        ((statLoop { LastActiveTime := now } hostStatus.Stats).RqTotal ≤ prev.RqTotal →
          sub.RqTotal = 0) ∧
        ((statLoop { LastActiveTime := now } hostStatus.Stats).RqSuccess > prev.RqSuccess →
          sub.RqSuccess + prev.RqSuccess =
            (statLoop { LastActiveTime := now } hostStatus.Stats).RqSuccess) ∧
        ((statLoop { LastActiveTime := now } hostStatus.Stats).RqSuccess ≤ prev.RqSuccess →
          sub.RqSuccess = 0) ∧
        ((statLoop { LastActiveTime := now } hostStatus.Stats).RqError > prev.RqError →
          sub.RqError + prev.RqError =
            (statLoop { LastActiveTime := now } hostStatus.Stats).RqError) ∧
        ((statLoop { LastActiveTime := now } hostStatus.Stats).RqError ≤ prev.RqError →
          sub.RqError = 0)) ∧
      (hostStep now delayValues clusterName values hostStatus).1
          ⟨clusterName, socketAddress.Address, socketAddress.PortValue⟩ =
        some (statLoop { LastActiveTime := now } hostStatus.Stats) ∧
      sub.RqTotal ≤ (statLoop { LastActiveTime := now } hostStatus.Stats).RqTotal ∧
      sub.RqSuccess ≤ (statLoop { LastActiveTime := now } hostStatus.Stats).RqSuccess ∧
      sub.RqError ≤ (statLoop { LastActiveTime := now } hostStatus.Stats).RqError ∧
      (Server.reportMetrics ⟨clusterName, socketAddress.Address, socketAddress.PortValue⟩ sub
          (delayValues clusterName)).length ≤
        (statLoop { LastActiveTime := now } hostStatus.Stats).RqSuccess +
          (statLoop { LastActiveTime := now } hostStatus.Stats).RqError := by
  have hrange' : ∀ stat ∈ hostStatus.Stats, stat.Value < 18446744073709551616 := by
    intro stat hs
    have := hrange stat hs
    norm_num at this
    exact this
  obtain ⟨hT, hS, hE⟩ := statLoop_lt hostStatus.Stats { LastActiveTime := now } hrange'
    (by norm_num) (by norm_num) (by norm_num)
  generalize hcur : statLoop { LastActiveTime := now } hostStatus.Stats = cur at hT hS hE ⊢
  have hrep : ∀ sub : InstanceMetricValue, sub.RqSuccess ≤ cur.RqSuccess →
      sub.RqError ≤ cur.RqError →
      (Server.reportMetrics ⟨clusterName, socketAddress.Address, socketAddress.PortValue⟩ sub
        (delayValues clusterName)).length ≤ cur.RqSuccess + cur.RqError := by
    intro sub h1 h2
    simp only [Server.reportMetrics, List.length_append, List.length_replicate]
    have := intOfUint64_toNat_le sub.RqSuccess
    have := intOfUint64_toNat_le sub.RqError
    omega
  cases hprev : values ⟨clusterName, socketAddress.Address, socketAddress.PortValue⟩ with
  | none =>
    refine ⟨cur, ?_, fun _ => rfl, ?_, ?_, le_refl _, le_refl _, le_refl _,
      hrep cur (le_refl _) (le_refl _)⟩
    · simp only [hostStep, haddr, hsock, hprev, hcur]
    · intro prev hp
      cases hp
    · simp only [hostStep, haddr, hsock, hcur, Function.update_same]
  | some prev =>
    obtain ⟨fT, fS, fE⟩ := subtractSnapshot_fields now cur prev
    have bT : (subtractSnapshot now cur prev).RqTotal ≤ cur.RqTotal := by
      rw [fT]
      split
      · rename_i h
        have := subUint64_add _ _ h hT
        omega
      · omega
    have bS : (subtractSnapshot now cur prev).RqSuccess ≤ cur.RqSuccess := by
      rw [fS]
      split
      · rename_i h
        have := subUint64_add _ _ h hS
        omega
      · omega
    have bE : (subtractSnapshot now cur prev).RqError ≤ cur.RqError := by
      rw [fE]
      split
      · rename_i h
        have := subUint64_add _ _ h hE
        omega
      · omega
    refine ⟨subtractSnapshot now cur prev, ?_, ?_, ?_, ?_, bT, bS, bE, hrep _ bS bE⟩
    · simp only [hostStep, haddr, hsock, hprev, hcur]
    · intro h
      cases h
    · intro prev' hp
      cases hp
      refine ⟨?_, ?_, ?_, ?_, ?_, ?_⟩
      · intro h
        rw [fT, if_pos h]
        exact subUint64_add _ _ h hT
      · intro h
        rw [fT, if_neg (by omega)]
      · intro h
        rw [fS, if_pos h]
        exact subUint64_add _ _ h hS
      · intro h
        rw [fS, if_neg (by omega)]
      · intro h
        rw [fE, if_pos h]
        exact subUint64_add _ _ h hE
      · intro h
        rw [fE, if_neg (by omega)]
    · simp only [hostStep, haddr, hsock, hcur, Function.update_same]

/-- C18 (witness): the host `10.0.0.1:8080` of the cluster `svc` with the
counters `(12, 10, 1)` against the snapshot `(9, 7, 2)`: the delta is
`(3, 3, 0)` and the snapshot afterwards is `(12, 10, 1)`. -/
theorem hostStep_delta_witness :
    (hostStep 100 (fun _ => 0) "svc".toList sampleValues sampleHostStatus).2 =
        [{ metricKey := sampleMetricKey,
           subMetricValue := { RqTotal := 3, RqSuccess := 3, RqError := 0, LastActiveTime := 100 },
           delay := 0 }] ∧
      (hostStep 100 (fun _ => 0) "svc".toList sampleValues sampleHostStatus).1 sampleMetricKey =
        some { RqTotal := 12, RqSuccess := 10, RqError := 1, LastActiveTime := 100 } := by
  obtain ⟨sub, hcall, _, _, hval, _⟩ :=
    hostStep_delta 100 (fun _ => 0) "svc".toList sampleValues sampleHostStatus
      { SocketAddress := some { Address := "10.0.0.1".toList, PortValue := 8080 } }
      { Address := "10.0.0.1".toList, PortValue := 8080 } rfl rfl (by decide)
  refine ⟨?_, ?_⟩
  · decide
  · rw [show sampleMetricKey = ⟨"svc".toList, "10.0.0.1".toList, 8080⟩ from rfl, hval]
    decide

/-! ## C19: the cleaning of the snapshot map -/

theorem hostStep_values_other (now : Int) (delayValues : Str → Float64) (clusterName : Str)
    (values : Values) (hostStatus : HostStatus) (k : InstanceMetricKey)
    (hk : ∀ address socketAddress, hostStatus.Address = some address →
      address.SocketAddress = some socketAddress →
      k ≠ ⟨clusterName, socketAddress.Address, socketAddress.PortValue⟩) :
    (hostStep now delayValues clusterName values hostStatus).1 k = values k := by
  cases haddr : hostStatus.Address with
  | none => simp only [hostStep, haddr]
  | some address =>
    cases hsock : address.SocketAddress with
    | none => simp only [hostStep, haddr, hsock]
    | some socketAddress =>
      simp only [hostStep, haddr, hsock]
      exact Function.update_noteq (hk address socketAddress haddr hsock) _ _

theorem hostStep_values_some (now : Int) (delayValues : Str → Float64) (clusterName : Str)
    (values : Values) (hostStatus : HostStatus) (k : InstanceMetricKey)
    (hk : values k ≠ Option.none) :
    (hostStep now delayValues clusterName values hostStatus).1 k ≠ Option.none := by
  cases haddr : hostStatus.Address with
  | none =>
    simp only [hostStep, haddr]
    exact hk
  | some address =>
    cases hsock : address.SocketAddress with
    | none =>
      simp only [hostStep, haddr, hsock]
      exact hk
    | some socketAddress =>
      simp only [hostStep, haddr, hsock, Function.update_apply]
      split
      · simp
      · exact hk

theorem hostLoop_values_other (now : Int) (delayValues : Str → Float64) (clusterName : Str)
    (k : InstanceMetricKey) (hostStatuses : List HostStatus) :
    ∀ values : Values,
      k ∉ scrapedKeys [{ Name := clusterName, HostStatuses := hostStatuses }] →
      (hostLoop now delayValues clusterName values hostStatuses).1 k = values k := by
  induction hostStatuses with
  | nil => intro values _; rfl
  | cons hostStatus rest ih =>
    intro values hk
    simp only [hostLoop]
    have hrest : k ∉ scrapedKeys [{ Name := clusterName, HostStatuses := rest }] := by
      intro hmem
      apply hk
      simp only [scrapedKeys, List.flatMap_cons, List.flatMap_nil, List.append_nil,
        List.mem_filterMap] at hmem ⊢
      obtain ⟨h, hh, heq⟩ := hmem
      exact ⟨h, List.mem_cons_of_mem _ hh, heq⟩
    rw [ih _ hrest]
    apply hostStep_values_other
    intro address socketAddress haddr hsock heq
    apply hk
    simp only [scrapedKeys, List.flatMap_cons, List.flatMap_nil, List.append_nil,
      List.mem_filterMap]
    refine ⟨hostStatus, List.mem_cons_self _ _, ?_⟩
    simp only [haddr, hsock, heq]

theorem hostLoop_values_some (now : Int) (delayValues : Str → Float64) (clusterName : Str)
    (k : InstanceMetricKey) (hostStatuses : List HostStatus) :
    ∀ values : Values, values k ≠ Option.none →
      (hostLoop now delayValues clusterName values hostStatuses).1 k ≠ Option.none := by
  induction hostStatuses with
  | nil => intro values hk; exact hk
  | cons hostStatus rest ih =>
    intro values hk
    simp only [hostLoop]
    exact ih _ (hostStep_values_some now delayValues clusterName values hostStatus k hk)

theorem clusterLoop_values_other (now : Int) (delayValues : Str → Float64)
    (k : InstanceMetricKey) (clusterStatuses : List ClusterStatus) :
    ∀ values : Values, k ∉ scrapedKeys clusterStatuses →
      (clusterLoop now delayValues values clusterStatuses).1 k = values k := by
  induction clusterStatuses with
  | nil => intro values _; rfl
  | cons clusterStatus rest ih =>
    intro values hk
    simp only [clusterLoop]
    have hsplit : scrapedKeys (clusterStatus :: rest) =
        scrapedKeys [{ Name := clusterStatus.Name, HostStatuses := clusterStatus.HostStatuses }] ++
          scrapedKeys rest := by
      simp [scrapedKeys]
    rw [hsplit, List.mem_append, not_or] at hk
    rw [ih _ hk.2]
    exact hostLoop_values_other now delayValues clusterStatus.Name k _ values hk.1

theorem clusterLoop_values_some (now : Int) (delayValues : Str → Float64)
    (k : InstanceMetricKey) (clusterStatuses : List ClusterStatus) :
    ∀ values : Values, values k ≠ Option.none →
      (clusterLoop now delayValues values clusterStatuses).1 k ≠ Option.none := by
  induction clusterStatuses with
  | nil => intro values hk; exact hk
  | cons clusterStatus rest ih =>
    intro values hk
    simp only [clusterLoop]
    exact ih _ (hostLoop_values_some now delayValues clusterStatus.Name k _ values hk)

theorem reportMetricByCluster_values_other (s : Server) (inp : TickInput) (values : Values)
    (k : InstanceMetricKey) (hk : notScraped k inp) :
    (s.reportMetricByCluster inp.getenv inp.httpGet inp.delayValues inp.now values).values k =
      values k := by
  simp only [Server.reportMetricByCluster]
  split
  · rfl
  · rename_i clusterStatuses hget
    exact clusterLoop_values_other inp.now inp.delayValues k clusterStatuses values
      (hk _ clusterStatuses hget)

theorem reportMetricByCluster_values_some (s : Server) (inp : TickInput) (values : Values)
    (k : InstanceMetricKey) (hk : values k ≠ Option.none) :
    (s.reportMetricByCluster inp.getenv inp.httpGet inp.delayValues inp.now values).values k ≠
      Option.none := by
  simp only [Server.reportMetricByCluster]
  split
  · exact hk
  · exact clusterLoop_values_some inp.now inp.delayValues k _ values hk

theorem tick_cleanCounter_lt (s : Server) (st : RunState) (inp : TickInput) :
    (s.tick st inp).1.cleanCounter < cleanThreshold := by
  simp only [Server.tick]
  split
  · show 0 < cleanThreshold
    decide
  · rename_i h
    simpa using h

theorem run_cleanCounter_lt (s : Server) (ticks : List TickInput) :
    ∀ st : RunState, st.cleanCounter < cleanThreshold →
      (s.run st ticks).cleanCounter < cleanThreshold := by
  induction ticks with
  | nil => intro st h; exact h
  | cons inp rest ih =>
    intro st _
    simp only [Server.run]
    exact ih _ (tick_cleanCounter_lt s st inp)

theorem run_append (s : Server) (a b : List TickInput) :
    ∀ st : RunState, s.run st (a ++ b) = s.run (s.run st a) b := by
  induction a with
  | nil => intro st; rfl
  | cons inp rest ih =>
    intro st
    simp only [List.cons_append, Server.run]
    exact ih _

theorem tick_values_other (s : Server) (st : RunState) (inp : TickInput)
    (k : InstanceMetricKey) (hk : notScraped k inp) :
    (s.tick st inp).1.values k =
      if st.cleanCounter + 1 ≥ cleanThreshold then cleanValues inp.now st.values k
      else st.values k := by
  simp only [Server.tick]
  rw [reportMetricByCluster_values_other s inp _ k hk]
  split <;> rfl

theorem run_values_none (s : Server) (k : InstanceMetricKey) (ticks : List TickInput) :
    ∀ st : RunState, st.values k = Option.none → (∀ inp ∈ ticks, notScraped k inp) →
      (s.run st ticks).values k = Option.none := by
  induction ticks with
  | nil => intro st h _; exact h
  | cons inp rest ih =>
    intro st h hns
    simp only [Server.run]
    apply ih
    · rw [tick_values_other s st inp k (hns inp (by simp))]
      split
      · simp [cleanValues, h]
      · exact h
    · intro x hx
      exact hns x (by simp [hx])

theorem run_values_evicted (s : Server) (k : InstanceMetricKey) (v : InstanceMetricValue)
    (ticks : List TickInput) :
    ∀ st : RunState, st.values k = some v → st.cleanCounter < cleanThreshold →
      cleanThreshold - st.cleanCounter ≤ ticks.length →
      (∀ inp ∈ ticks, notScraped k inp) →
      (∀ inp ∈ ticks, inp.now > v.LastActiveTime + inactiveDuration) →
      (s.run st ticks).values k = Option.none := by
  induction ticks with
  | nil =>
    intro st _ hc hlen _ _
    simp only [List.length_nil] at hlen
    omega
  | cons inp rest ih =>
    intro st hv hc hlen hns hlate
    simp only [Server.run]
    have hrest : ∀ x ∈ rest, notScraped k x := fun x hx => hns x (by simp [hx])
    have hval := tick_values_other s st inp k (hns inp (by simp))
    by_cases hclean : st.cleanCounter + 1 ≥ cleanThreshold
    · rw [if_pos hclean] at hval
      apply run_values_none s k rest _ _ hrest
      rw [hval]
      have hl := hlate inp (by simp)
      have hgt : inp.now - v.LastActiveTime > inactiveDuration := by omega
      simp [cleanValues, hv, hgt]
    · rw [if_neg hclean] at hval
      apply ih _ (hval.trans hv) (tick_cleanCounter_lt s st inp) _ hrest
        (fun x hx => hlate x (by simp [hx]))
      have hcnt : (s.tick st inp).1.cleanCounter = st.cleanCounter + 1 := by
        simp only [Server.tick, if_neg hclean]
      rw [hcnt]
      simp only [List.length_cons] at hlen
      omega

/-- C19: in the loop of `Server.Run`, started from its initial state, if after
the ticks `history` a key `k` is in the map with the last activity `t`, and the
next ticks `ticks` are at least 10, all later than `t + 5 minutes`, and none
scrapes `k`, then after them `k` is not in the map; and in any state, a key in
the map whose last activity is at most 5 minutes before the time of a tick is
still in the map after that tick. -/
theorem run_evicts_inactive (s : Server) (history ticks : List TickInput)
    (k : InstanceMetricKey) (v : InstanceMetricValue)
    (hk : (s.run initialRunState history).values k = some v)
    (hlen : 10 ≤ ticks.length)
    (hlate : ∀ inp ∈ ticks, inp.now > v.LastActiveTime + 5 * 60 * 1000000000)
    (hns : ∀ inp ∈ ticks, notScraped k inp) :
    (s.run initialRunState (history ++ ticks)).values k = Option.none ∧
    (∀ (st : RunState) (inp : TickInput) (k0 : InstanceMetricKey) (v0 : InstanceMetricValue),
      st.values k0 = some v0 → inp.now - v0.LastActiveTime ≤ 5 * 60 * 1000000000 →
      (s.tick st inp).1.values k0 ≠ Option.none) := by
  refine ⟨?_, ?_⟩
  · rw [run_append]
    have hc : (s.run initialRunState history).cleanCounter < cleanThreshold :=
      run_cleanCounter_lt s history initialRunState (by decide)
    apply run_values_evicted s k v ticks _ hk hc _ hns hlate
    have : cleanThreshold = 10 := rfl
    omega
  · intro st inp k0 v0 hv hrecent
    simp only [Server.tick]
    apply reportMetricByCluster_values_some
    split
    · have hle : ¬ inp.now - v0.LastActiveTime > inactiveDuration := by
        have : inactiveDuration = 5 * 60 * 1000000000 := rfl
        omega
      simp [cleanValues, hv, hle]
    · simp [hv]

/-- C19 (witness): the key of the host scraped at time 100 is in the map after
that tick and is gone after ten later ticks, more than five minutes after, in
which the admin endpoint lists no host. -/
theorem run_evicts_inactive_witness :
    (Server.run ⟨[], []⟩ initialRunState [scrapeTick]).values sampleMetricKey =
        some { RqTotal := 12, RqSuccess := 10, RqError := 1, LastActiveTime := 100 } ∧
      (Server.run ⟨[], []⟩ initialRunState
        ([scrapeTick] ++ List.replicate 10 lateTick)).values sampleMetricKey = Option.none := by
  have hk : (Server.run ⟨[], []⟩ initialRunState [scrapeTick]).values sampleMetricKey =
      some { RqTotal := 12, RqSuccess := 10, RqError := 1, LastActiveTime := 100 } := by
    decide
  refine ⟨hk, ?_⟩
  refine (run_evicts_inactive ⟨[], []⟩ [scrapeTick] (List.replicate 10 lateTick) sampleMetricKey
    _ hk (by simp) ?_ ?_).1
  · intro inp hinp
    rw [List.eq_of_mem_replicate hinp]
    decide
  · intro inp hinp
    rw [List.eq_of_mem_replicate hinp]
    intro url clusterStatuses hget
    cases hget
    simp [scrapedKeys]

/-! ## C20: the retries of `reportStatus` -/

/-- C20: `Server.reportStatus` returns, whatever the registry answers, after at
most 3 calls of `UpdateServiceCallResult`; when the attempt `j` is the first
that succeeds, it makes the attempts `0 .. j`, waits `min(100 ms x 2^i, 5 s)`
after each failed attempt `i < j`, and does nothing after the call that
succeeds; when the three attempts fail, it waits `min(100 ms x 2^i, 5 s)` after
each of them, the third included, and returns. -/
theorem reportStatus_retries (update : Nat → Bool) :
    ((Server.reportStatus update).filter RetryEvent.isUpdate).length ≤ 3 ∧
    (∀ j : Nat, j < 3 → update j = true → (∀ i : Nat, i < j → update i = false) →
      Server.reportStatus update = (List.range j).flatMap failedAttempt ++ [.update j]) ∧
    ((∀ i : Nat, i < 3 → update i = false) →
      Server.reportStatus update = (List.range 3).flatMap failedAttempt) := by
  have hr0 : (List.range 0).flatMap failedAttempt = [] := by decide
  have hr1 : (List.range 1).flatMap failedAttempt = failedAttempt 0 := by decide
  have hr2 : (List.range 2).flatMap failedAttempt = failedAttempt 0 ++ failedAttempt 1 := by
    decide
  have hr3 : (List.range 3).flatMap failedAttempt =
      failedAttempt 0 ++ failedAttempt 1 ++ failedAttempt 2 := by decide
  cases h0 : update 0 with
  | true =>
    have htrace : Server.reportStatus update = [.update 0] := by
      simp only [Server.reportStatus, maxRetries, retryLoop, h0, if_true]
    rw [htrace]
    refine ⟨by decide, ?_, ?_⟩
    · intro j hj hsucc hfail
      rcases Nat.eq_zero_or_pos j with rfl | hpos
      · rw [hr0]; rfl
      · have := hfail 0 hpos
        rw [h0] at this
        cases this
    · intro hall
      have := hall 0 (by decide)
      rw [h0] at this
      cases this
  | false =>
    cases h1 : update 1 with
    | true =>
      have htrace : Server.reportStatus update = failedAttempt 0 ++ [.update 1] := by
        simp only [Server.reportStatus, maxRetries, retryLoop, h0, h1, if_true,
          Bool.false_eq_true, if_false]
        decide
      rw [htrace]
      refine ⟨by decide, ?_, ?_⟩
      · intro j hj hsucc hfail
        have hj1 : j = 1 := by
          rcases Nat.lt_trichotomy j 1 with hlt | heq | hgt
          · have : j = 0 := by omega
            subst this
            rw [h0] at hsucc
            cases hsucc
          · exact heq
          · have := hfail 1 hgt
            rw [h1] at this
            cases this
        subst hj1
        rw [hr1]
      · intro hall
        have := hall 1 (by decide)
        rw [h1] at this
        cases this
    | false =>
      cases h2 : update 2 with
      | true =>
        have htrace : Server.reportStatus update =
            failedAttempt 0 ++ failedAttempt 1 ++ [.update 2] := by
          simp only [Server.reportStatus, maxRetries, retryLoop, h0, h1, h2, if_true,
            Bool.false_eq_true, if_false]
          decide
        rw [htrace]
        refine ⟨by decide, ?_, ?_⟩
        · intro j hj hsucc _
          have hj2 : j = 2 := by
            rcases Nat.lt_trichotomy j 2 with hlt | heq | hgt
            · have hcase : j = 0 ∨ j = 1 := by omega
              rcases hcase with rfl | rfl
              · rw [h0] at hsucc
                cases hsucc
              · rw [h1] at hsucc
                cases hsucc
            · exact heq
            · omega
          subst hj2
          rw [hr2]
        · intro hall
          have := hall 2 (by decide)
          rw [h2] at this
          cases this
      | false =>
        have htrace : Server.reportStatus update =
            failedAttempt 0 ++ failedAttempt 1 ++ failedAttempt 2 := by
          simp only [Server.reportStatus, maxRetries, retryLoop, h0, h1, h2,
            Bool.false_eq_true, if_false]
          decide
        rw [htrace]
        refine ⟨by decide, ?_, ?_⟩
        · intro j hj hsucc _
          have hcase : j = 0 ∨ j = 1 ∨ j = 2 := by omega
          rcases hcase with rfl | rfl | rfl
          · rw [h0] at hsucc
            cases hsucc
          · rw [h1] at hsucc
            cases hsucc
          · rw [h2] at hsucc
            cases hsucc
        · intro _
          rw [hr3]

/-! ## C21: the URLs of the two scrapes -/

/-- C21: the clusters scrape requests the admin base URL (the configured one,
else that of the environment, else the default) followed by
`/clusters?format=json`, but the stats scrape always requests
`http://127.0.0.1:15000/stats?format=json`, which is the base followed by
`/stats?format=json` only when the base is the default; for a server
configured with `http://envoy:9901` the two scrapes go to different hosts. -/
theorem getClusterStats_fixed_url :
    (∀ (s : Server) (getenv : Str → Str) (httpGet : Str → Option (List ClusterStatus))
        (delayValues : Str → Float64) (now : Int) (values : Values),
      (s.reportMetricByCluster getenv httpGet delayValues now values).requested =
        adminBase s getenv ++ "/clusters?format=json".toList) ∧
    (∀ (s : Server) (getenv : Str → Str) (httpGetStats : Str → Option StatsObject),
      (s.getClusterStats httpGetStats).requested =
        "http://127.0.0.1:15000/stats?format=json".toList ∧
      ((s.getClusterStats httpGetStats).requested =
          adminBase s getenv ++ "/stats?format=json".toList ↔
        adminBase s getenv = "http://127.0.0.1:15000".toList)) ∧
    adminBase customServer (fun _ => []) = "http://envoy:9901".toList ∧
    (customServer.reportMetricByCluster (fun _ => []) (fun _ => Option.none) (fun _ => 0) 0
        (fun _ => Option.none)).requested = "http://envoy:9901/clusters?format=json".toList ∧
    (customServer.getClusterStats (fun _ => Option.none)).requested ≠
      "http://envoy:9901/stats?format=json".toList := by
  refine ⟨?_, ?_, by decide, by decide, by decide⟩
  · intro s getenv httpGet delayValues now values
    have hurl : (s.reportMetricByCluster getenv httpGet delayValues now values).requested =
        (if s.ClusterMetricsURL = [] then
          (if getenv "CLUSTER_METRICS_URL".toList = [] then "http://127.0.0.1:15000".toList
            else getenv "CLUSTER_METRICS_URL".toList)
          else s.ClusterMetricsURL) ++ "/clusters?format=json".toList := by
      simp only [Server.reportMetricByCluster]
      split <;> rfl
    rw [hurl]
    unfold adminBase
    by_cases h1 : s.ClusterMetricsURL = []
    · by_cases h2 : getenv "CLUSTER_METRICS_URL".toList = []
      · simp only [h1, h2, if_true, ne_eq, not_true_eq_false, if_false]
      · simp only [h1, h2, if_true, ne_eq, not_true_eq_false, if_false, not_false_eq_true]
    · simp only [h1, if_false, ne_eq, not_false_eq_true, if_true]
  · intro s getenv httpGetStats
    refine ⟨rfl, ?_⟩
    have hreq : (s.getClusterStats httpGetStats).requested =
        "http://127.0.0.1:15000".toList ++ "/stats?format=json".toList := by
      show "http://127.0.0.1:15000/stats?format=json".toList = _
      decide
    rw [hreq]
    constructor
    · intro h
      exact (List.append_cancel_right h).symm
    · intro h
      rw [h]

/-! ## C22: the capacity of the error channel -/

/-- C22: the capacity of the channel made by `Agent.getErrorChannel` is the
number of non-nil components among the debug server, the mTLS agent, the
metrics server and the rate-limit server, plus 2 when the DNS resolver is not
nil; it is 6 when all five are present and 0 when none is. -/
theorem getErrorChannel_capacity {R D M T L : Type} (p : Agent R D M T L) :
    p.getErrorChannel =
      countTrue [p.debugServer.isSome, p.mtlsAgent.isSome, p.metricServer.isSome,
        p.rlsSvr.isSome] + (if p.dnsResolver.isSome then 2 else 0) ∧
    p.getErrorChannel ≤ 6 ∧
    (p.getErrorChannel = 0 ↔
      p.debugServer = Option.none ∧ p.dnsResolver = Option.none ∧ p.mtlsAgent = Option.none ∧
        p.metricServer = Option.none ∧ p.rlsSvr = Option.none) := by
  obtain ⟨r, d, m, t, l⟩ := p
  cases r <;> cases d <;> cases m <;> cases t <;> cases l <;>
    simp [Agent.getErrorChannel, countTrue]

/-! ## C23: `AddQuota` after `RemoveQuota` -/

theorem suffix_dotdot_iff (t : Str) : "..".toList <:+ t ++ ['.'] ↔ t.getLast? = some '.' := by
  constructor
  · rintro ⟨u, hu⟩
    have h2 : (u ++ ['.']) ++ ['.'] = t ++ ['.'] := by
      rw [← hu]
      simp
    have h3 : u ++ ['.'] = t := List.append_cancel_right h2
    rw [← h3]
    simp
  · intro h
    rcases List.eq_nil_or_concat t with rfl | ⟨u, c, rfl⟩
    · simp at h
    · simp only [List.concat_eq_append, List.getLast?_append_of_ne_nil _ (List.cons_ne_nil c []),
        List.getLast?_singleton, Option.some.injEq] at h
      subst h
      exact ⟨u, by simp⟩

/-- C23 (amended): `AddQuota(RemoveQuota(x))` equals `AddQuota(x)` exactly for
the strings `x` that do not end with two dots; for an `x` that ends with two
dots `AddQuota(RemoveQuota(x))` is `x` without its last dot, while
`AddQuota(x)` is `x`. -/
theorem addQuota_removeQuota (x : Str) :
    (AddQuota (RemoveQuota x) = AddQuota x ↔ ¬ "..".toList <:+ x) ∧
    ("..".toList <:+ x → AddQuota (RemoveQuota x) = x.dropLast ∧ AddQuota x = x) := by
  rw [addQuota_eq, addQuota_eq, removeQuota_eq]
  rcases List.eq_nil_or_concat x with rfl | ⟨t, c, rfl⟩
  · refine ⟨⟨fun _ => by decide, fun _ => rfl⟩, fun h => absurd h (by decide)⟩
  · simp only [List.concat_eq_append]
    have hlast : (t ++ [c]).getLast? = some c := by simp
    by_cases hc : c = '.'
    · subst hc
      have hw : withoutTrailingDot (t ++ ['.']) = t := by
        simp [withoutTrailingDot]
      have hd : dotTerminated (t ++ ['.']) = t ++ ['.'] := dotTerminated_of_getLast _ hlast
      rw [hw, hd, suffix_dotdot_iff]
      by_cases ht : t.getLast? = some '.'
      · rw [dotTerminated_of_getLast t ht]
        refine ⟨⟨fun h => ?_, fun h => absurd ht h⟩, fun _ => ⟨by simp, rfl⟩⟩
        have := congrArg List.length h
        simp at this
      · have hdt : dotTerminated t = t ++ ['.'] := by simp [dotTerminated, ht]
        rw [hdt]
        exact ⟨⟨fun _ => ht, fun _ => rfl⟩, fun h => absurd h ht⟩
    · have hne : (t ++ [c]).getLast? ≠ some '.' := by
        rw [hlast]
        intro h
        exact hc (Option.some.inj h)
      have hw : withoutTrailingDot (t ++ [c]) = t ++ [c] := by
        simp [withoutTrailingDot, hc]
      have hns : ¬ "..".toList <:+ t ++ [c] := by
        rintro ⟨u, hu⟩
        have h2 : (u ++ ['.']) ++ ['.'] = t ++ [c] := by
          rw [← hu]
          simp
        have := List.append_inj_right' h2 rfl
        simp at this
        exact hc this.symm
      rw [hw]
      exact ⟨⟨fun _ => hns, fun _ => rfl⟩, fun h => absurd h hns⟩

/-- C23 (counterexample): for `x = "a.."`, `AddQuota(RemoveQuota(x))` is `"a."`
and `AddQuota(x)` is `"a.."`. -/
theorem addQuota_removeQuota_counterexample :
    AddQuota (RemoveQuota "a..".toList) = "a.".toList ∧ AddQuota "a..".toList = "a..".toList ∧
      ¬ (AddQuota (RemoveQuota "a..".toList) = AddQuota "a..".toList) := by
  decide

/-! ## C24: `ParseLabels` on an invalid string -/

/-- C24: `ParseLabels` returns a non-nil map for every non-empty labels string,
valid or not: a token without `:` is skipped.  The string `abc`, whose one
token is not empty and has no `:`, gives the empty (non-nil) map, and
`a:b,abc` gives the map of `a` to `b`; nil is returned for the empty string
only. -/
theorem parseLabels_invalid_not_nil :
    (∀ labels : Str, labels ≠ [] → ∃ values, ParseLabels labels = some values) ∧
    (∀ labels : Str, ParseLabels labels = Option.none ↔ labels = []) ∧
    ("abc".toList ∈ Split "abc".toList CommaSymbol ∧ ColonSymbol ∉ "abc".toList ∧
      ParseLabels "abc".toList = some []) ∧
    ("abc".toList ∈ Split "a:b,abc".toList CommaSymbol ∧
      ParseLabels "a:b,abc".toList = some [("a".toList, "b".toList)]) := by
  refine ⟨?_, ?_, by decide, by decide⟩
  · intro labels hne
    have hlen : ¬ labels.length = 0 := fun h => hne (List.length_eq_zero.1 h)
    refine ⟨tokenLoop [] (Split labels CommaSymbol), ?_⟩
    simp only [ParseLabels, if_neg hlen]
  · intro labels
    constructor
    · intro h
      by_contra hne
      have hlen : ¬ labels.length = 0 := fun h0 => hne (List.length_eq_zero.1 h0)
      simp only [ParseLabels, if_neg hlen] at h
      exact Option.some_ne_none _ h
    · rintro rfl
      rfl

/-! ## C25: the bootstrap value of the meshproxy resolver -/

/-- C25: when the bootstrap configuration sets neither
`ResolverDnsAgentEnabled` nor `ResolverDnsAgentRouteLabels`,
`mergeBootConfig` leaves every resolver entry as it was, whatever
`ResolverMeshProxyEnabled` is.  With the default resolver entries and the
bootstrap value `true` for `ResolverMeshProxyEnabled` alone, the meshproxy
entry stays disabled and no error is reported; when `ResolverDnsAgentEnabled`
is set as well, the same value enables the entry. -/
theorem mergeBootConfig_meshproxy_ignored :
    (∀ (PluginNameDnsAgent PluginNameMeshProxy : Str) (s : SidecarConfig) (config : BootConfig),
      config.ResolverDnsAgentEnabled = [] → config.ResolverDnsAgentRouteLabels = [] →
      (s.mergeBootConfig PluginNameDnsAgent PluginNameMeshProxy config).config.Resolvers =
        s.Resolvers) ∧
    ParseBool meshOnlyBootConfig.ResolverMeshProxyEnabled = some true ∧
    (sampleSidecarConfig.mergeBootConfig "dnsagent".toList "meshproxy".toList
        meshOnlyBootConfig).config.Resolvers = [dnsAgentEntry, meshProxyEntry] ∧
    meshProxyEntry.Enable = false ∧
    (sampleSidecarConfig.mergeBootConfig "dnsagent".toList "meshproxy".toList
        meshOnlyBootConfig).errs = [] ∧
    (sampleSidecarConfig.mergeBootConfig "dnsagent".toList "meshproxy".toList
        bothBootConfig).config.Resolvers =
      [dnsAgentEntry, { meshProxyEntry with Enable := true }] := by
  refine ⟨?_, by decide, by decide, by decide, by decide, by decide⟩
  intro PluginNameDnsAgent PluginNameMeshProxy s config h1 h2
  have hcond : ¬ (config.ResolverDnsAgentEnabled.length > 0 ∨
      config.ResolverDnsAgentRouteLabels.length > 0) := by
    rw [h1, h2]
    decide
  simp only [SidecarConfig.mergeBootConfig, if_neg hcond]
  by_cases hb : config.Bind.length > 0 <;> by_cases hp : config.Port > 0 <;>
    by_cases hl : config.LogLevel.length > 0 <;>
    by_cases hr : config.RecurseEnabled.length > 0 <;>
    simp only [hb, hp, hl, hr, if_true, if_false] <;>
    first
      | rfl
      | (cases ParseBool config.RecurseEnabled <;> rfl)

/-! ## C26: the search suffix removed by `Preprocess` -/

theorem preprocessLoop_no_match (qname : Str) (search : List Str)
    (hno : ∀ x ∈ search, ¬ dotTerminated x <:+ qname) :
    preprocessLoop qname search = qname := by
  induction search with
  | nil => rfl
  | cons s rest ih =>
    have hs : ¬ dotTerminated s <:+ qname := hno s (by simp)
    have hcanon : (if !HasSuffix s DotSymbol then s ++ DotSymbol else s) = dotTerminated s :=
      addQuota_eq s
    have hfalse : HasSuffix qname (dotTerminated s) = false := by
      cases hh : HasSuffix qname (dotTerminated s) with
      | false => rfl
      | true => exact absurd ((hasSuffix_iff _ _).1 hh) hs
    simp only [preprocessLoop, hcanon, hfalse, Bool.false_eq_true, if_false]
    exact ih (fun x hx => hno x (by simp [hx]))

theorem preprocessLoop_match (r s : Str) (post : List Str) :
    ∀ front : List Str, (∀ x ∈ front, ¬ dotTerminated x <:+ r ++ dotTerminated s) →
      preprocessLoop (r ++ dotTerminated s) (front ++ s :: post) =
        if r = [] then r ++ dotTerminated s else r := by
  intro front
  induction front with
  | nil =>
    intro _
    have hcanon : (if !HasSuffix s DotSymbol then s ++ DotSymbol else s) = dotTerminated s :=
      addQuota_eq s
    have htrue : HasSuffix (r ++ dotTerminated s) (dotTerminated s) = true :=
      (hasSuffix_iff _ _).2 (List.suffix_append _ _)
    simp only [List.nil_append, preprocessLoop, hcanon, htrue, if_true, List.length_append,
      Nat.add_sub_cancel, List.take_left']
  | cons x front ih =>
    intro hno
    have hx : ¬ dotTerminated x <:+ r ++ dotTerminated s := hno x (by simp)
    have hcanon : (if !HasSuffix x DotSymbol then x ++ DotSymbol else x) = dotTerminated x :=
      addQuota_eq x
    have hfalse : HasSuffix (r ++ dotTerminated s) (dotTerminated x) = false := by
      cases hh : HasSuffix (r ++ dotTerminated s) (dotTerminated x) with
      | false => rfl
      | true => exact absurd ((hasSuffix_iff _ _).1 hh) hx
    simp only [List.cons_append, preprocessLoop, hcanon, hfalse, Bool.false_eq_true, if_false]
    exact ih (fun y hy => hno y (by simp [hy]))

/-- C26 (amended): without a recursor `Preprocess` returns the qname unchanged.
With a recursor: when `s` is the first search domain in list order whose
canonical form `s.` (trailing dot added if missing) is a suffix of the qname,
that is, the qname is `r ++ s.`, `Preprocess` returns `r`, the qname without
that suffix (a dot that stands before the suffix is kept), unless `r` is empty,
in which case it returns the qname unchanged; when no search domain has its
canonical form as a suffix of the qname, in particular for the empty search
list, it returns the qname unchanged. -/
theorem preprocess_spec (d : dnsHandler) (qname : Str) :
    (d.recurseProxy = Option.none → d.Preprocess qname = qname) ∧
    (∀ p : Proxy, d.recurseProxy = some p →
      (∀ (front post : List Str) (s r : Str), p.config.Search = front ++ s :: post →
        (∀ x ∈ front, ¬ dotTerminated x <:+ qname) → qname = r ++ dotTerminated s →
        d.Preprocess qname = if r = [] then qname else r) ∧
      ((∀ x ∈ p.config.Search, ¬ dotTerminated x <:+ qname) →
        d.Preprocess qname = qname)) := by
  refine ⟨?_, ?_⟩
  · intro h
    simp only [dnsHandler.Preprocess, h]
  · intro p hp
    refine ⟨?_, ?_⟩
    · intro front post s r hsearch hno hq
      have hlen : ¬ p.GetSearch.length = 0 := by
        simp [Proxy.GetSearch, hsearch]
      simp only [dnsHandler.Preprocess, hp, if_neg hlen]
      subst hq
      simp only [Proxy.GetSearch, hsearch]
      exact preprocessLoop_match r s post front hno
    · intro hno
      simp only [dnsHandler.Preprocess, hp]
      split
      · rfl
      · exact preprocessLoop_no_match qname _ hno

/-- C26 (counterexample): with the search list `svc.local`, `local`, the qname
`orders.svc.local.` ends with `.` followed by `svc.local.`, and `Preprocess`
returns `orders.`, not `orders`; the qname `xlocal.` does not end with `.`
followed by a canonical search domain, and `Preprocess` returns `x`, not the
qname. -/
theorem preprocess_spec_counterexample :
    "orders.svc.local.".toList =
      "orders".toList ++ ".".toList ++ dotTerminated "svc.local".toList ∧
    searchHandler.Preprocess "orders.svc.local.".toList = "orders.".toList ∧
    ¬ (searchHandler.Preprocess "orders.svc.local.".toList = "orders".toList) ∧
    (∀ s ∈ ["svc.local".toList, "local".toList],
      ¬ (".".toList ++ dotTerminated s) <:+ "xlocal.".toList) ∧
    searchHandler.Preprocess "xlocal.".toList = "x".toList ∧
    ¬ (searchHandler.Preprocess "xlocal.".toList = "xlocal.".toList) := by
  refine ⟨by decide, by decide, by decide, ?_, by decide, by decide⟩
  intro s hs
  rw [← hasSuffix_iff]
  simp only [List.mem_cons, List.mem_singleton, List.not_mem_nil, or_false] at hs
  rcases hs with rfl | rfl <;> decide

/-! ## C27: the expansion of a query name -/

/-- C27: `Proxy.expandQuery` returns, when the number of `.` in the name is
below `Ndots`, the list of `AddQuota(name + s)` for the search domains `s` in
search order, which has one element per search domain, each the name followed
by `s` and by a dot when `s` does not end with one (or, for an empty `s`, when
the name does not); otherwise it returns the one-element list of the name. -/
theorem expandQuery_spec (p : Proxy) (name : Str) :
    (((name.filter (fun c => decide (c = '.'))).length : Int) < p.config.Ndots →
      p.expandQuery name = p.config.Search.map (fun s => AddQuota (name ++ s)) ∧
      (p.expandQuery name).length = p.config.Search.length ∧
      (∀ i : Nat, i < p.config.Search.length →
        (p.expandQuery name)[i]? = some (dotTerminated (name ++ p.config.Search.getD i [])))) ∧
    (¬ ((name.filter (fun c => decide (c = '.'))).length : Int) < p.config.Ndots →
      p.expandQuery name = [name]) := by
  have hcount : countDots name = (name.filter (fun c => decide (c = '.'))).length := by
    unfold countDots
    induction name with
    | nil => rfl
    | cons c rest ih =>
      by_cases h : c = '.'
      · simp [List.count_cons, List.filter_cons, h, ih]
      · simp [List.count_cons, List.filter_cons, h, ih]
  refine ⟨?_, ?_⟩
  · intro hlt
    have hlt' : (countDots name : Int) < p.config.Ndots := by
      rw [hcount]
      exact hlt
    have heq : p.expandQuery name = p.config.Search.map (fun s => AddQuota (name ++ s)) := by
      simp only [Proxy.expandQuery, if_pos hlt']
    refine ⟨heq, by rw [heq, List.length_map], ?_⟩
    intro i hi
    rw [heq, List.getElem?_map, List.getElem?_eq_getElem hi]
    simp only [Option.map_some', addQuota_eq, List.getD_eq_getElem?_getD,
      List.getElem?_eq_getElem hi, Option.getD_some]
  · intro hge
    have hge' : ¬ (countDots name : Int) < p.config.Ndots := by
      rw [hcount]
      exact hge
    simp only [Proxy.expandQuery, if_neg hge']

/-! ## C28: the upstream delays -/

theorem index_split (c : Char) (b : Str) :
    ∀ a : Str, c ∉ a → Index (a ++ c :: b) c = a.length := by
  intro a
  induction a with
  | nil => intro _; simp [Index]
  | cons x a ih =>
    intro h
    have hx : x ≠ c := fun e => h (by simp [e])
    have ha : c ∉ a := fun e => h (by simp [e])
    have ih' : Index (a.append (c :: b)) c = a.length := ih ha
    have hlen : ¬ ((a.length : Int) = -1) := by omega
    simp only [List.cons_append, Index, if_neg hx, List.length_cons]
    rw [ih', if_neg hlen]
    push_cast
    rfl

theorem clusterRegexMatch_iff (name : Str) :
    clusterRegexMatch name = true ↔ ∃ s, clusterStatName name s := by
  unfold clusterRegexMatch clusterStatName
  simp only [Bool.and_eq_true, Bool.not_eq_true', List.isPrefixOf_iff_prefix,
    List.isSuffixOf_iff_suffix, List.isEmpty_eq_false]
  constructor
  · rintro ⟨⟨⟨⟨rest, hrest⟩, ⟨middle, hmid⟩⟩, hne⟩, hnl⟩
    subst hrest
    rw [List.drop_left] at hmid hne hnl
    subst hmid
    rw [List.length_append, Nat.add_sub_cancel, List.take_left] at hne hnl
    refine ⟨middle, by rw [List.append_assoc], hne, ?_⟩
    intro hmem
    have : middle.contains '\n' = true := by simpa using hmem
    rw [this] at hnl
    cases hnl
  · rintro ⟨s, hname, hne, hnl⟩
    subst hname
    rw [List.append_assoc, List.drop_left, List.length_append, Nat.add_sub_cancel,
      List.take_left]
    refine ⟨⟨⟨⟨_, rfl⟩, ⟨s, rfl⟩⟩, hne⟩, ?_⟩
    cases hc : s.contains '\n' with
    | false => rfl
    | true => exact absurd (by simpa using hc) hnl

theorem quantileStep_name (floatOfInt : Int → Float64) (retValues : DelayValues)
    (cq : ComputedQuantile) (s : Str) (hname : clusterStatName cq.Name s) :
    quantileStep floatOfInt retValues cq =
      if cq.Values.length < 3 then retValues
      else
        match cq.Values[2]? with
        | Option.none => retValues
        | some third =>
          match third.Cumulative with
          | .nil => retValues
          | .float64 v => Function.update retValues s (some v)
          | .int v => Function.update retValues s (some (floatOfInt v))
          | .other => retValues := by
  have hmatch : clusterRegexMatch cq.Name = true := (clusterRegexMatch_iff _).2 ⟨s, hname⟩
  have hform : cq.Name =
      "cluster".toList ++ '.' :: (s ++ '.' :: "upstream_rq_time".toList) := by
    rw [hname.1]
    simp
  have hidx : Index cq.Name '.' = 7 := by
    rw [hform, index_split '.' _ "cluster".toList (by decide)]
    rfl
  have hdrop : cq.Name.drop 8 = s ++ '.' :: "upstream_rq_time".toList := by
    rw [hform]
    rfl
  have hlast : LastIndex (s ++ '.' :: "upstream_rq_time".toList) '.' = s.length :=
    lastIndex_split '.' "upstream_rq_time".toList (by decide) s
  have hne1 : ¬ ((s.length : Int) = -1) := by omega
  simp only [quantileStep, hmatch, Bool.not_true, Bool.false_eq_true, if_false, hidx,
    show ¬ ((7 : Int) = -1) by decide, show ((7 : Int) + 1).toNat = 8 by decide, hdrop, hlast,
    hne1, Int.toNat_ofNat, List.take_left]

/-- C28: a computed-quantile entry whose name is `cluster.` + `s` +
`.upstream_rq_time`, with `s` not empty and free of newlines (dots inside `s`
allowed), and whose third value has a numeric cumulative value `v`, makes
`parseUpstreamDelay` set the key `s`, and no other key, to `v` (converted to
`float64` when it is an `int`); an entry whose name is not of that form, or
with fewer than three values, leaves the map as it is; and the map
`parseUpstreamDelay` returns is the result of these steps over the entries of
the stats that have histograms, in order, from the empty map. -/
theorem parseUpstreamDelay_spec (floatOfInt : Int → Float64) :
    (∀ (retValues : DelayValues) (cq : ComputedQuantile) (s : Str) (third : QuantileValue),
      clusterStatName cq.Name s → cq.Values[2]? = some third →
      (∀ v, third.Cumulative = .float64 v →
        quantileStep floatOfInt retValues cq = Function.update retValues s (some v)) ∧
      (∀ v, third.Cumulative = .int v →
        quantileStep floatOfInt retValues cq =
          Function.update retValues s (some (floatOfInt v)))) ∧
    (∀ (retValues : DelayValues) (cq : ComputedQuantile),
      (¬ ∃ s, clusterStatName cq.Name s) ∨ cq.Values.length < 3 →
      quantileStep floatOfInt retValues cq = retValues) ∧
    (∀ (s : Server) (httpGetStats : Str → Option StatsObject) (statsObject : StatsObject),
      httpGetStats "http://127.0.0.1:15000/stats?format=json".toList = some statsObject →
      s.parseUpstreamDelay httpGetStats floatOfInt =
        (allQuantiles statsObject.Stats).foldl (quantileStep floatOfInt)
          (fun _ => Option.none)) := by
  refine ⟨?_, ?_, ?_⟩
  · intro retValues cq s third hname hthird
    have hlen : ¬ cq.Values.length < 3 := by
      intro hlt
      have : cq.Values[2]? = Option.none := List.getElem?_eq_none (by omega)
      rw [this] at hthird
      cases hthird
    rw [quantileStep_name floatOfInt retValues cq s hname, if_neg hlen, hthird]
    refine ⟨?_, ?_⟩
    · intro v hv
      simp only [hv]
    · intro v hv
      simp only [hv]
  · intro retValues cq h
    rcases h with h | h
    · have hmatch : clusterRegexMatch cq.Name = false := by
        cases hm : clusterRegexMatch cq.Name with
        | false => rfl
        | true => exact absurd ((clusterRegexMatch_iff _).1 hm) h
      simp only [quantileStep, hmatch, Bool.not_false, if_true]
    · by_cases hmatch : clusterRegexMatch cq.Name = true
      · obtain ⟨s, hs⟩ := (clusterRegexMatch_iff _).1 hmatch
        rw [quantileStep_name floatOfInt retValues cq s hs, if_pos h]
      · have hm : clusterRegexMatch cq.Name = false := by
          cases hc : clusterRegexMatch cq.Name with
          | false => rfl
          | true => exact absurd hc hmatch
        simp only [quantileStep, hm, Bool.not_false, if_true]
  · intro s httpGetStats statsObject hget
    have hq : ∀ (qs : List ComputedQuantile) (retValues : DelayValues),
        quantileLoop floatOfInt retValues qs = qs.foldl (quantileStep floatOfInt) retValues := by
      intro qs
      induction qs with
      | nil => intro retValues; rfl
      | cons q qs ih => intro retValues; simp only [quantileLoop, List.foldl_cons, ih]
    have hs : ∀ (stats : List Stat) (retValues : DelayValues),
        delayStatLoop floatOfInt retValues stats =
          (allQuantiles stats).foldl (quantileStep floatOfInt) retValues := by
      intro stats
      induction stats with
      | nil => intro retValues; rfl
      | cons stat rest ih =>
        intro retValues
        cases hh : stat.Histograms with
        | none =>
          have : allQuantiles (stat :: rest) = allQuantiles rest := by
            simp [allQuantiles, hh]
          simp only [delayStatLoop, hh, this, ih]
        | some histograms =>
          have : allQuantiles (stat :: rest) =
              histograms.ComputedQuantiles ++ allQuantiles rest := by
            simp [allQuantiles, hh]
          simp only [delayStatLoop, hh, this, List.foldl_append, ih, hq]
          split
          · rename_i h0
            rw [List.length_eq_zero.1 h0]
            rfl
          · rfl
    simp only [Server.parseUpstreamDelay, Server.getClusterStats, hget, hs]
    split
    · rename_i h0
      rw [List.length_eq_zero.1 h0]
      rfl
    · rfl

/-- C28 (witness): the entry `cluster.orders.prod.upstream_rq_time` with the
third cumulative value 30 sets the key `orders.prod` to 30; over the sample
stats, `parseUpstreamDelay` returns a map with that key and without the key
`ingress`. -/
theorem parseUpstreamDelay_spec_witness :
    quantileStep (fun v => v.toNat) (fun _ => Option.none) ordersQuantile =
        Function.update (fun _ => Option.none) "orders.prod".toList (some 30) ∧
      Server.parseUpstreamDelay customServer sampleStats (fun v => v.toNat)
        "orders.prod".toList = some 30 ∧
      Server.parseUpstreamDelay customServer sampleStats (fun v => v.toNat)
        "ingress".toList = Option.none := by
  refine ⟨?_, by decide, by decide⟩
  exact ((parseUpstreamDelay_spec (fun v => v.toNat)).1 (fun _ => Option.none) ordersQuantile
    "orders.prod".toList { Cumulative := .float64 30 } (by
      refine ⟨by decide, by decide, by decide⟩) rfl).1 30 rfl

/-! ## C29: the label before `_addr` -/

/-- C29: when `_addr` is the first label of the qname,
`resolverDiscovery.ServeDNS` reads `labels[i-1]` with `i = 0`, an index out of
range, and panics; the qname `_addr.foo.`, whose labels are `_addr` and `foo`,
is such a name. -/
theorem serveDNS_addr_first_panics :
    (∀ (r : resolverDiscovery) (question : Question) (qname : Str) (rest : List Str),
      SplitDomainName qname = addrLabel :: rest →
      (r.ServeDNS question qname).outcome = Outcome.panic) ∧
    SplitDomainName "_addr.foo.".toList = ["_addr".toList, "foo".toList] ∧
    (sampleDiscovery.ServeDNS { Name := "_addr.foo.".toList, Qtype := TypeA, Qclass := ClassINET }
      "_addr.foo.".toList).outcome = Outcome.panic := by
  refine ⟨?_, by decide, by decide⟩
  intro r question qname rest hsplit
  simp only [resolverDiscovery.ServeDNS, hsplit, resolverDiscovery.addrLoop, if_true]

/-! ## C30: the upstream list of the recursor -/

/-- C30: `InitRecurseConfig` yields an empty `Upstream` together with
`Attempts >= 1` when no name server is left after the merge: without explicit
name servers, for a sidecar bound to a loopback or unspecified address and a
resolv.conf that names only `127.0.0.1`, `Upstream` is empty and `Attempts` is
the 2 of resolv.conf.  On an empty server list `RotatingUpstream.Next` reads
`servers[0]` out of range, so the first attempt of `Proxy.HandleDNS` panics
before any exchange and the handler writes no message. -/
theorem initRecurseConfig_empty_upstream :
    (∀ (timeout : Int) (dnsConfig : ClientConfig),
      (∀ h ∈ dnsConfig.Servers, h = "127.0.0.1".toList) →
      (InitRecurseConfig true timeout [] dnsConfig).Upstream = [] ∧
      (InitRecurseConfig true timeout [] dnsConfig).Attempts = max dnsConfig.Attempts 0) ∧
    (∀ index : Nat, RotatingUpstream.Next { servers := [], index := index } = Option.none) ∧
    (InitRecurseConfig true 1 [] loopbackResolvConf).Upstream = [] ∧
    (InitRecurseConfig true 1 [] loopbackResolvConf).Attempts = 2 ∧
    (∃ p : Proxy, BuildProxy (some (InitRecurseConfig true 1 [] loopbackResolvConf)) = some p ∧
      p.rotate.Next = Option.none ∧
      (p.HandleDNS (fun _ _ _ _ => { resp := some sampleReply, err := false }) false
        ordersRequest).outcome = Outcome.panic ∧
      (p.HandleDNS (fun _ _ _ _ => { resp := some sampleReply, err := false }) false
        ordersRequest).exchanges = []) ∧
    written (loopbackHandler.ServeDNS ordersRequest).events = [] := by
  refine ⟨?_, ?_, by decide, by decide, ⟨_, rfl, by decide, by decide, by decide⟩, by decide⟩
  · intro timeout dnsConfig hall
    have hmerge : ∀ (servers : List Str) (st : List Str × List Str),
        (∀ h ∈ servers, h = "127.0.0.1".toList) → mergeUpstream true servers st = st := by
      intro servers
      induction servers with
      | nil => intro st _; rfl
      | cons h rest ih =>
        intro st hs
        obtain ⟨upstream, nameServerMap⟩ := st
        have hh : h = "127.0.0.1".toList := hs h (by simp)
        have hskip : needSkip true h = true := by
          rw [hh]
          decide
        simp only [mergeUpstream, hskip, Bool.true_eq_false, and_false, if_false]
        exact ih _ (fun x hx => hs x (by simp [hx]))
    have hup : (InitRecurseConfig true timeout [] dnsConfig).Upstream = [] := by
      simp only [InitRecurseConfig, Config.fillByResolvConfig, mergeUpstream,
        hmerge dnsConfig.Servers _ hall]
      split <;> rfl
    refine ⟨hup, ?_⟩
    simp only [InitRecurseConfig, Config.fillByResolvConfig, mergeUpstream,
      hmerge dnsConfig.Servers _ hall, getBigger]
    split <;> simp [getBigger] <;> omega
  · intro index
    simp [RotatingUpstream.Next]

end PolarisSidecar
